import Mathlib

/-!
# Rubik's-cube slice-rotation animator (Assignment2/main_first.cpp), shaded sphere (Assignment3/main.cpp) and bouncing shape (Assignment1/main.cpp)

A shallow embedding of the slice-rotation state machine of the 3x3x3 cube
demo (namespace `Rubik`): the `Subcube` record, the animation globals,
`startSliceRotation`, `performRandomMove`, `startScrambling`, `update`,
`key_callback`, the cube geometry and the mouse callbacks; of the sphere
generator, the arrow keys and the PPM reader of the shading demo (namespace
`Shading`): `triangle`, `unit`, `divide_triangle`, `tetrahedron`, the arrow
cases of its `key_callback`, `ignoreComments` and `readPPMImage`; and of the
physics step of the bouncing shape demo (namespace `Bounce`): `update` and
`resetPosition`.

Conventions of the embedding:
* `int` values are `Int`; `float` values are rationals (`ℚ`). In the cube demo
  `update` computes with them exactly, which is what the program computes at
  its increments 3 and 10; `updateF` is `update` with every `float` operation
  rounded to binary32 (namespace `Fp`), the two agree on every state reached
  by key events and ticks (`updateF_eq_update_of_played`), and the bouncing
  shape demo rounds every `float` and `double` operation;
* `mat4` and the helpers `RotateX`, `RotateY`, `RotateZ`, `Translate` and the
  matrix products come from the header `Angel.h`, which is not part of the
  sources; they are taken as a parameter `A : Angel`;
* the fixed array `subcubes[NumCubes]` is a list, and each `for` loop over it
  is a `List.map` of the loop body (an iteration only touches `subcubes[i]`);
* `rand()` reads the next entry of an arbitrary sequence of non-negative
  outcomes carried in the state;
* a `std::ifstream` is the list of characters of the file with a read position
  and the state flags, with `get`, `unget` and `operator>>` following the rules
  of the C++ standard library.
-/

namespace Fp

/-! ## Binary floating-point rounding

The arithmetic of `float` (binary32) and `double` (binary64) values: an
operation on finite values yields the exact result rounded to the nearest
representable value, ties to even (the default rounding of IEEE 754, with each
operation evaluated in the type of its operands). Values are exact rationals;
infinities and NaN are not represented, so a result beyond the largest finite
value is not turned into an infinity. -/

/-- The nearest integer, ties to the even one. -/
def roundEven (x : ℚ) : Int :=
  if x - (⌊x⌋ : Int) < 1 / 2 then ⌊x⌋
  else if x - (⌊x⌋ : Int) > 1 / 2 then ⌊x⌋ + 1
  else if ⌊x⌋ % 2 = 0 then ⌊x⌋ else ⌊x⌋ + 1

/-- The position of the leading binary digit of `n` (0 for `n ≤ 1`), by
repeated halving; the fuel bounds the number of halvings. -/
def log2Fuel : Nat → Nat → Nat
  | 0, _ => 0
  | fuel + 1, n => if 2 ≤ n then log2Fuel fuel (n / 2) + 1 else 0

/-- The position of the leading binary digit of `n`. -/
def log2 (n : Nat) : Nat := log2Fuel n n

/-- The binary exponent of a nonzero rational: the `e` with
`2 ^ e ≤ |x| < 2 ^ (e + 1)`. -/
def ilog2 (x : ℚ) : Int :=
  if (2 : ℚ) ^ ((log2 x.num.natAbs : Int) - (log2 x.den : Int)) ≤ |x| then
    (log2 x.num.natAbs : Int) - (log2 x.den : Int)
  else (log2 x.num.natAbs : Int) - (log2 x.den : Int) - 1

/-- The value `x` rounded to `p` significant binary digits with least exponent
`emin`: the multiple of `2 ^ (e - (p - 1))` that is nearest to `x`, ties to
even, where `e` is the binary exponent of `x` and at least `emin` (below
`2 ^ emin` the values are the subnormal ones). -/
def fround (p : Nat) (emin : Int) (x : ℚ) : ℚ :=
  if x = 0 then 0
  else
    (roundEven (x / (2 : ℚ) ^ (max (ilog2 x) emin - ((p : Int) - 1))) : ℚ) *
      (2 : ℚ) ^ (max (ilog2 x) emin - ((p : Int) - 1))

/-- Rounding to `float` (binary32: 24 significant digits, least exponent
-126). -/
def fl32 (x : ℚ) : ℚ := fround 24 (-126) x

/-- Rounding to `double` (binary64: 53 significant digits, least exponent
-1022). -/
def fl64 (x : ℚ) : ℚ := fround 53 (-1022) x

end Fp

namespace Shading

/-! ## Shaded sphere demo (Assignment3/main.cpp): data and operations -/

/-- Two-component vector `vec2`. -/
structure vec2 where
  x : ℚ
  y : ℚ
deriving DecidableEq

/-- Three-component vector `vec3`. -/
structure vec3 where
  x : ℚ
  y : ℚ
  z : ℚ
deriving DecidableEq

/-- Four-component vector `vec4`. -/
structure vec4 where
  x : ℚ
  y : ℚ
  z : ℚ
  w : ℚ
deriving DecidableEq

/-- The `typedef vec4 point4`. -/
abbrev point4 := vec4

/-- The operations of `Angel.h` and of the C math library that the sphere
generator calls; neither is part of the sources, and `sqrt`, `atan2` and `asin`
have no exact rational values, so they are taken as a parameter. -/
structure Lib where
  /-- The sum `a + b` of two `vec4`. -/
  add : vec4 → vec4 → vec4
  /-- The quotient `p / s` of a `vec4` by a scalar. -/
  div : vec4 → ℚ → vec4
  /-- The default-constructed `point4`. -/
  point4_default : point4
  /-- The constant `DivideByZeroTolerance`. -/
  DivideByZeroTolerance : ℚ
  /-- The function `sqrt`. -/
  sqrt : ℚ → ℚ
  /-- The function `normalize` on `vec3`. -/
  normalize : vec3 → vec3
  /-- The function `atan2`. -/
  atan2 : ℚ → ℚ → ℚ
  /-- The function `asin`. -/
  asin : ℚ → ℚ
  /-- The constant `M_PI`. -/
  M_PI : ℚ

/-- A computable instance of the library interface, used to evaluate the
definitions on concrete inputs: vectors are added and divided componentwise and
the transcendental functions are replaced by the identity. -/
def Lib.plain : Lib where
  add a b := ⟨a.x + b.x, a.y + b.y, a.z + b.z, a.w + b.w⟩
  div p s := ⟨p.x / s, p.y / s, p.z / s, p.w / s⟩
  point4_default := ⟨0, 0, 0, 0⟩
  DivideByZeroTolerance := 0
  sqrt x := x
  normalize v := v
  atan2 y _ := y
  asin x := x
  M_PI := 3

/-- The constant `NumTimesToSubdivide`. -/
def NumTimesToSubdivide : Int := 5

/-- The constant `NumTriangles`. -/
def NumTriangles : Nat := 4096

/-- The constant `NumVertices`. -/
def NumVertices : Nat := 3 * NumTriangles

/-- The vertex arrays `points`, `normals`, `texCoords` and the counter `Index`.
The counter only counts up from 0 and is a natural number. -/
structure Mesh where
  /-- Global `Index`. -/
  Index : Nat
  /-- Global array `points`. -/
  points : List point4
  /-- Global array `normals`. -/
  normals : List vec3
  /-- Global array `texCoords`. -/
  texCoords : List vec2

/-- The arrays as they are at program start (`NumVertices` zero entries) with
`Index = 0`. -/
def Mesh.initial : Mesh :=
  { Index := 0,
    points := List.replicate NumVertices ⟨0, 0, 0, 0⟩,
    normals := List.replicate NumVertices ⟨0, 0, 0⟩,
    texCoords := List.replicate NumVertices ⟨0, 0⟩ }

/-- An array assignment `arr[i] = v`; `none` when `i` is out of bounds. -/
def store {α : Type} (arr : List α) (i : Nat) (v : α) : Option (List α) :=
  if i < arr.length then some (arr.set i v) else none

/-- The function `calculateTexCoords`. -/
def calculateTexCoords (L : Lib) (p : point4) : vec2 :=
  let s := 1 / 2 + L.atan2 p.x p.z / (2 * L.M_PI)
  let t := 1 / 2 - L.asin p.y / L.M_PI
  ⟨s, t⟩

/-- One of the three statement groups of `triangle`: the normal, the point and
the texture coordinates of a vertex are stored at `Index`, which is then
incremented. -/
def emit (L : Lib) (a : point4) (m : Mesh) : Option Mesh :=
  let norm := L.normalize ⟨a.x, a.y, a.z⟩
  (store m.normals m.Index ⟨norm.x, norm.y, norm.z⟩).bind fun normals =>
    (store m.points m.Index a).bind fun points =>
      (store m.texCoords m.Index (calculateTexCoords L a)).bind fun texCoords =>
        some { Index := m.Index + 1, points := points, normals := normals,
               texCoords := texCoords }

/-- The function `triangle`. -/
def triangle (L : Lib) (a b c : point4) (m : Mesh) : Option Mesh :=
  (emit L a m).bind fun m => (emit L b m).bind fun m => emit L c m

/-- The function `unit`. -/
def unit (L : Lib) (p : point4) : point4 :=
  let len := p.x * p.x + p.y * p.y + p.z * p.z
  let t := L.point4_default
  if len > L.DivideByZeroTolerance then
    let t := L.div p (L.sqrt len)
    { t with w := 1 }
  else t

/-- The function `divide_triangle`. -/
def divide_triangle (L : Lib) (a b c : point4) (count : Int) (m : Mesh) : Option Mesh :=
  if h : count > 0 then
    let v1 := unit L (L.add a b)
    let v2 := unit L (L.add a c)
    let v3 := unit L (L.add b c)
    (divide_triangle L a v1 v2 (count - 1) m).bind fun m =>
      (divide_triangle L c v2 v3 (count - 1) m).bind fun m =>
        (divide_triangle L b v3 v1 (count - 1) m).bind fun m =>
          divide_triangle L v1 v3 v2 (count - 1) m
  else triangle L a b c m
termination_by count.toNat
decreasing_by all_goals (simp_wf; omega)

/-- The function `tetrahedron`. -/
def tetrahedron (L : Lib) (count : Int) (m : Mesh) : Option Mesh :=
  let v0 : point4 := ⟨0, 0, 1, 1⟩
  let v1 : point4 := ⟨0, 942809 / 1000000, -333333 / 1000000, 1⟩
  let v2 : point4 := ⟨-816497 / 1000000, -471405 / 1000000, -333333 / 1000000, 1⟩
  let v3 : point4 := ⟨816497 / 1000000, -471405 / 1000000, -333333 / 1000000, 1⟩
  (divide_triangle L v0 v1 v2 count m).bind fun m =>
    (divide_triangle L v3 v2 v1 count m).bind fun m =>
      (divide_triangle L v0 v3 v1 count m).bind fun m =>
        divide_triangle L v0 v2 v3 count m

/-- The argument triples of the calls of `triangle` that `divide_triangle`
makes at depth `n`, in call order, as a pure list. -/
def triangleCalls (L : Lib) (a b c : point4) : Nat → List (point4 × point4 × point4)
  | 0 => [(a, b, c)]
  | n + 1 =>
    triangleCalls L a (unit L (L.add a b)) (unit L (L.add a c)) n ++
    triangleCalls L c (unit L (L.add a c)) (unit L (L.add b c)) n ++
    triangleCalls L b (unit L (L.add b c)) (unit L (L.add a b)) n ++
    triangleCalls L (unit L (L.add a b)) (unit L (L.add b c)) (unit L (L.add a c)) n

/-- The argument triples of the calls of `triangle` made by `tetrahedron` at
depth `n`, in call order. -/
def tetrahedronCalls (L : Lib) (n : Nat) : List (point4 × point4 × point4) :=
  triangleCalls L ⟨0, 0, 1, 1⟩ ⟨0, 942809 / 1000000, -333333 / 1000000, 1⟩
    ⟨-816497 / 1000000, -471405 / 1000000, -333333 / 1000000, 1⟩ n ++
  triangleCalls L ⟨816497 / 1000000, -471405 / 1000000, -333333 / 1000000, 1⟩
    ⟨-816497 / 1000000, -471405 / 1000000, -333333 / 1000000, 1⟩
    ⟨0, 942809 / 1000000, -333333 / 1000000, 1⟩ n ++
  triangleCalls L ⟨0, 0, 1, 1⟩
    ⟨816497 / 1000000, -471405 / 1000000, -333333 / 1000000, 1⟩
    ⟨0, 942809 / 1000000, -333333 / 1000000, 1⟩ n ++
  triangleCalls L ⟨0, 0, 1, 1⟩
    ⟨-816497 / 1000000, -471405 / 1000000, -333333 / 1000000, 1⟩
    ⟨816497 / 1000000, -471405 / 1000000, -333333 / 1000000, 1⟩ n

/-- Successive calls of `triangle` on a list of argument triples. -/
def runTriangles (L : Lib) : List (point4 × point4 × point4) → Mesh → Option Mesh
  | [], m => some m
  | t :: ts, m => (triangle L t.1 t.2.1 t.2.2 m).bind (runTriangles L ts)

/-- The three vertices of each triple, in the order in which `triangle` stores
them. -/
def vertexList (ts : List (point4 × point4 × point4)) : List point4 :=
  ts.flatMap fun t => [t.1, t.2.1, t.2.2]

/-! ## Arrow keys of the shading demo -/

/-- The view angles `Theta[Xaxis]`, `Theta[Yaxis]`, `Theta[Zaxis]`. -/
structure Angles where
  /-- Entry `Theta[Xaxis]`. -/
  Xaxis : ℚ
  /-- Entry `Theta[Yaxis]`. -/
  Yaxis : ℚ
  /-- Entry `Theta[Zaxis]`. -/
  Zaxis : ℚ
deriving DecidableEq

/-- The initial value `{0.0, 0.0, 0.0}` of `Theta`. -/
def Theta0 : Angles := ⟨0, 0, 0⟩

/-- The arrow keys `GLFW_KEY_UP`, `GLFW_KEY_DOWN`, `GLFW_KEY_LEFT`,
`GLFW_KEY_RIGHT`. -/
inductive ArrowKey where
  | UP | DOWN | LEFT | RIGHT
deriving DecidableEq

/-- The statements of `case GLFW_KEY_UP:` of `key_callback`, up to the next
case label (there is no `break`). -/
def caseUP (Theta : Angles) : Angles :=
  let Theta := { Theta with Xaxis := Theta.Xaxis + 3 }
  if Theta.Xaxis > 360 then { Theta with Xaxis := Theta.Xaxis - 360 } else Theta

/-- The statements of `case GLFW_KEY_DOWN:` of `key_callback`, up to its
`break`. -/
def caseDOWN (Theta : Angles) : Angles :=
  let Theta := { Theta with Xaxis := Theta.Xaxis - 3 }
  if Theta.Xaxis < -360 then { Theta with Xaxis := Theta.Xaxis + 360 } else Theta

/-- The statements of `case GLFW_KEY_LEFT:` of `key_callback`. -/
def caseLEFT (Theta : Angles) : Angles :=
  let Theta := { Theta with Yaxis := Theta.Yaxis + 3 }
  if Theta.Yaxis > 360 then { Theta with Yaxis := Theta.Yaxis - 360 } else Theta

/-- The statements of `case GLFW_KEY_RIGHT:` of `key_callback`. -/
def caseRIGHT (Theta : Angles) : Angles :=
  let Theta := { Theta with Yaxis := Theta.Yaxis - 3 }
  if Theta.Yaxis < -360 then { Theta with Yaxis := Theta.Yaxis + 360 } else Theta

/-- The effect of `key_callback` on `Theta` for the arrow keys (these cases do
not test `action`). The `UP` case has no `break`, so control continues with the
statements of the `DOWN` case; the other three cases end with `break`. -/
def key_callback (key : ArrowKey) (Theta : Angles) : Angles :=
  match key with
  | ArrowKey.UP => caseDOWN (caseUP Theta)
  | ArrowKey.DOWN => caseDOWN Theta
  | ArrowKey.LEFT => caseLEFT Theta
  | ArrowKey.RIGHT => caseRIGHT Theta

/-- Successive executions of the statement group `emit` on a list of
vertices. -/
def emitAll (L : Lib) : List point4 → Mesh → Option Mesh
  | [], m => some m
  | v :: vs, m => (emit L v m).bind (emitAll L vs)

/-! ### The PPM reader -/

/-- The input file stream `std::ifstream` as the reader uses it: the characters
already extracted (`before`, most recent first), the characters still to come
(`after`), the state flag `eofbit`, and `failbit`, which stands for
`failbit | badbit`, the flags that `fail()` tests. -/
structure ifstream where
  before : List Char
  after : List Char
  eofbit : Bool
  failbit : Bool
deriving DecidableEq

/-- The member `good()`: no state flag is set. -/
def ifstream.good (f : ifstream) : Bool := !f.eofbit && !f.failbit

/-- The member `fail()`. -/
def ifstream.fail (f : ifstream) : Bool := f.failbit

/-- The member `get(c)`, with the extracted character, or `none` when the
stream converts to `false` afterwards. A stream that is not `good()` gets
`failbit`; at the end of the file `eofbit` and `failbit` are set. -/
def ifstream.get (f : ifstream) : Option Char × ifstream :=
  if f.good then
    match f.after with
    | c :: r => (some c, { f with before := c :: f.before, after := r })
    | [] => (none, { f with eofbit := true, failbit := true })
  else (none, { f with failbit := true })

/-- The member `unget()`: `eofbit` is cleared; if a flag is still set the
stream gets `failbit`, otherwise the last extracted character is made available
again (`badbit` if there is none). -/
def ifstream.unget (f : ifstream) : ifstream :=
  if f.failbit then { f with eofbit := false }
  else
    match f.before with
    | c :: b => { f with before := b, after := c :: f.after, eofbit := false }
    | [] => { f with eofbit := false, failbit := true }

/-- The predicate `isspace` of the classic locale: space and the characters 9
to 13. -/
def isspace (c : Char) : Bool := c.toNat == 32 || (9 ≤ c.toNat && c.toNat ≤ 13)

/-- The predicate `isdigit`. -/
def isdigit (c : Char) : Bool := 48 ≤ c.toNat && c.toNat ≤ 57

/-- Extraction of leading whitespace: the new `before` and `after`. -/
def skipws : List Char → List Char → List Char × List Char
  | b, [] => (b, [])
  | b, c :: r => if isspace c then skipws (c :: b) r else (b, c :: r)

/-- The `sentry` of a formatted input function: a stream that is not `good()`
gets `failbit`; otherwise leading whitespace is extracted, and reaching the end
of the file sets `eofbit` and `failbit`. The boolean tells whether extraction
may go on. -/
def sentry (f : ifstream) : Bool × ifstream :=
  if f.good then
    match skipws f.before f.after with
    | (b, []) => (false, { before := b, after := [], eofbit := true, failbit := true })
    | (b, c :: r) => (true, { f with before := b, after := c :: r })
  else (false, { f with failbit := true })

/-- Extraction of characters up to the next whitespace: the new `before` and
`after`, and the extracted word. -/
def takeWord : List Char → List Char → List Char → List Char × List Char × List Char
  | b, [], w => (b, [], w)
  | b, c :: r, w => if isspace c then (b, c :: r, w) else takeWord (c :: b) r (w ++ [c])

/-- The operator `file >> str` for a `std::string`: the word read, or `none`
when the string is left as it was. -/
def readString (f : ifstream) : Option (List Char) × ifstream :=
  match sentry f with
  | (false, f1) => (none, f1)
  | (true, f1) =>
    match takeWord f1.before f1.after [] with
    | (b, a, w) =>
      (some w, { before := b, after := a, eofbit := a.isEmpty, failbit := w.isEmpty })

/-- Extraction of decimal digits: the new `before` and `after`, and the
digits. -/
def takeDigits : List Char → List Char → List Char → List Char × List Char × List Char
  | b, [], w => (b, [], w)
  | b, c :: r, w => if isdigit c then takeDigits (c :: b) r (w ++ [c]) else (b, c :: r, w)

/-- The value of a list of decimal digits. -/
def digitsValue (ds : List Char) : Int :=
  ds.foldl (fun (n : Int) (c : Char) => 10 * n + ((c.toNat - 48 : Nat) : Int)) 0

/-- The operator `file >> n` for an `int`: the value stored, or `none` when the
variable is left as it was (the sentry failed). After the sentry an optional
sign and the decimal digits are extracted; without a digit `0` is stored and
`failbit` set; a value outside the range of `int` stores the nearest bound and
sets `failbit`; reaching the end of the file sets `eofbit`. -/
def readInt (f : ifstream) : Option Int × ifstream :=
  match sentry f with
  | (false, f1) => (none, f1)
  | (true, f1) =>
    let signed : Bool × List Char × List Char :=
      match f1.after with
      | c :: r =>
        if c = '-' then (true, c :: f1.before, r)
        else if c = '+' then (false, c :: f1.before, r)
        else (false, f1.before, c :: r)
      | [] => (false, f1.before, [])
    match takeDigits signed.2.1 signed.2.2 [] with
    | (b, a, ds) =>
      let v : Int := if signed.1 then -digitsValue ds else digitsValue ds
      if ds.isEmpty then
        (some 0, { before := b, after := a, eofbit := a.isEmpty, failbit := true })
      else if v > 2147483647 then
        (some 2147483647, { before := b, after := a, eofbit := a.isEmpty, failbit := true })
      else if v < -2147483648 then
        (some (-2147483648), { before := b, after := a, eofbit := a.isEmpty, failbit := true })
      else
        (some v, { before := b, after := a, eofbit := a.isEmpty, failbit := false })

/-- The inner loop of `ignoreComments`, `while (file.get(c) && c != '\n');`,
with one unit of fuel for each iteration. -/
def skipLine : Nat → ifstream → ifstream
  | 0, f => f
  | n + 1, f =>
    match f.get with
    | (some c, f1) => if c ≠ '\n' then skipLine n f1 else f1
    | (none, f1) => f1

/-- The outer loop of `ignoreComments` with one unit of fuel for each
iteration: a character is extracted; if it is `#` the rest of the line is
extracted too and the loop goes on, otherwise the character is put back and
the loop ends. -/
def ignoreCommentsLoop : Nat → ifstream → ifstream
  | 0, f => f
  | n + 1, f =>
    match f.get with
    | (some c, f1) =>
      if c = '#' then ignoreCommentsLoop n (skipLine (f1.after.length + 1) f1)
      else f1.unget
    | (none, f1) => f1

/-- The function `ignoreComments`. Every iteration of either loop but the last
extracts a character, so the fuel given here is never used up. -/
def ignoreComments (f : ifstream) : ifstream :=
  ignoreCommentsLoop (f.after.length + 1) f

/-- The globals that `readPPMImage` assigns. `imageData` is `none` when it
points to no array (before the first allocation, after `delete[]`). -/
structure ImageGlobals where
  imageWidth : Int
  imageHeight : Int
  imageData : Option (List Nat)
deriving DecidableEq

/-- The globals at program start. -/
def ImageGlobals.initial : ImageGlobals :=
  { imageWidth := 0, imageHeight := 0, imageData := none }

/-- The sample loop of `readPPMImage` for the remaining `n` samples: the samples
stored so far followed by the new ones, or `none` when the loop leaves the
function at `return false`. A sample is stored as
`static_cast<unsigned char>(value)`. -/
def readSamples : Nat → ifstream → List Nat → Option (List Nat) × ifstream
  | 0, f, data => (some data, f)
  | n + 1, f, data =>
    match readInt f with
    | (value, f1) =>
      if f1.fail then (none, f1)
      else readSamples n f1 (data ++ [((value.getD 0) % 256).toNat])

/-- The function `readPPMImage` on the file of the given name: `file` is `none`
when the file cannot be opened, else its characters. The result is the returned
boolean and the globals; it is `none` when the array size is negative and `new`
throws. `imageWidth * imageHeight * 3` is taken without overflow. -/
def readPPMImage (file : Option (List Char)) (g : ImageGlobals) :
    Option (Bool × ImageGlobals) :=
  match file with
  | none => some (false, g)
  | some content =>
    let f : ifstream := { before := [], after := content, eofbit := false, failbit := false }
    let f := ignoreComments f
    let f := (readString f).2
    let f := ignoreComments f
    let r := readInt f
    let g := { g with imageWidth := r.1.getD g.imageWidth }
    let f := ignoreComments r.2
    let r := readInt f
    let g := { g with imageHeight := r.1.getD g.imageHeight }
    let f := ignoreComments r.2
    let f := (readInt f).2
    let dataSize : Int := g.imageWidth * g.imageHeight * 3
    if dataSize < 0 then none
    else
      match readSamples dataSize.toNat f [] with
      | (none, _) => some (false, { g with imageData := none })
      | (some data, f1) =>
        if f1.fail then some (false, { g with imageData := none })
        else some (true, { g with imageData := some data })

/-- The characters of a PPM file whose magic number line is followed by a
comment line: the text `P3`, newline, `# c`, newline, `2 1`, newline, `255`,
newline, `255 0 0 0 255 0`, newline. -/
def ppmWithComment : List Char :=
  ['P', '3', '\n', '#', ' ', 'c', '\n', '2', ' ', '1', '\n', '2', '5', '5', '\n',
   '2', '5', '5', ' ', '0', ' ', '0', ' ', '0', ' ', '2', '5', '5', ' ', '0', '\n']

/-- The same PPM file without the comment line. -/
def ppmPlain : List Char :=
  ['P', '3', '\n', '2', ' ', '1', '\n', '2', '5', '5', '\n',
   '2', '5', '5', ' ', '0', ' ', '0', ' ', '0', ' ', '2', '5', '5', ' ', '0', '\n']

/-- The same PPM file with the comment line before the magic number. -/
def ppmCommentFirst : List Char :=
  ['#', ' ', 'c', '\n', 'P', '3', '\n', '2', ' ', '1', '\n', '2', '5', '5', '\n',
   '2', '5', '5', ' ', '0', ' ', '0', ' ', '0', ' ', '2', '5', '5', ' ', '0', '\n']

end Shading

namespace Bounce

/-! ## Bouncing shape demo (Assignment1/main.cpp): data and operations -/

/-- Two-component vector `vec2`. -/
structure vec2 where
  x : ℚ
  y : ℚ
deriving DecidableEq

/-- The global `radius`, `float radius = 0.03;`: the `double` literal converted
to `float` (never assigned after its initialiser). -/
def radius : ℚ := Fp.fl32 (Fp.fl64 (3 / 100))

/-- The global `gravity`, `0.000981` as a `float` (never assigned after its
initialiser). -/
def gravity : ℚ := Fp.fl32 (Fp.fl64 (981 / 1000000))

/-- The global `restitution`, `0.8` as a `float` (never assigned after its
initialiser). -/
def restitution : ℚ := Fp.fl32 (Fp.fl64 (8 / 10))

/-- The constant `ground`, `-1.0 + radius`: a `double` sum converted to
`float`. -/
def ground : ℚ := Fp.fl32 (Fp.fl64 (-1 + radius))

/-- The constant `initialPosition`, `(-0.9, 0.9)` as `float` values. -/
def initialPosition : vec2 := ⟨Fp.fl32 (Fp.fl64 (-9 / 10)), Fp.fl32 (Fp.fl64 (9 / 10))⟩

/-- The constant `initialVelocity`, `(0.005, 0.0)` as `float` values. -/
def initialVelocity : vec2 := ⟨Fp.fl32 (Fp.fl64 (5 / 1000)), 0⟩

/-- The constant `maxTrajectoryPoints`. -/
def maxTrajectoryPoints : Nat := 1000

/-- The global `trajectoryInterval`, `0.05` as a `float` (never assigned after
its initialiser). -/
def trajectoryInterval : ℚ := Fp.fl32 (Fp.fl64 (5 / 100))

/-- The globals that `update` and `resetPosition` read and write. The `float`
fields hold finite values. -/
structure State where
  /-- Global `position`. -/
  position : vec2
  /-- Global `velocity`. -/
  velocity : vec2
  /-- Global `trajectoryPoints`, oldest point first. -/
  trajectoryPoints : List vec2
  /-- Global `trajectoryTimer`. -/
  trajectoryTimer : ℚ

/-- The globals as their initialisers set them. -/
def State.initial : State :=
  { position := ⟨Fp.fl32 (Fp.fl64 (-9 / 10)), Fp.fl32 (Fp.fl64 (9 / 10))⟩,
    velocity := ⟨Fp.fl32 (Fp.fl64 (5 / 1000)), 0⟩,
    trajectoryPoints := [],
    trajectoryTimer := 0 }

/-- The function `clear_trajectory`. -/
def clear_trajectory (s : State) : State :=
  { s with trajectoryPoints := [] }

/-- The function `resetPosition`. -/
def resetPosition (s : State) : State :=
  clear_trajectory { s with position := initialPosition, velocity := initialVelocity }

/-- The first statements of `update`: gravity is applied to the vertical
velocity and the position is advanced by the velocity, each a `float`
operation. -/
def stepPhysics (s : State) : State :=
  let s := { s with velocity := { s.velocity with y := Fp.fl32 (s.velocity.y - gravity) } }
  { s with position :=
      ⟨Fp.fl32 (s.position.x + s.velocity.x), Fp.fl32 (s.position.y + s.velocity.y)⟩ }

/-- The trajectory block of `update`: the timer advances by `1.0/120.0` (a
`double` quotient, added in `double` and stored as `float`); when it reaches
`trajectoryInterval` it is reset, the position is pushed at the back of
`trajectoryPoints`, and the first point is erased if there are more than
`maxTrajectoryPoints`. -/
def recordTrajectory (s : State) : State :=
  let s := { s with
    trajectoryTimer := Fp.fl32 (Fp.fl64 (s.trajectoryTimer + Fp.fl64 (1 / 120))) }
  if s.trajectoryTimer ≥ trajectoryInterval then
    let s := { s with trajectoryTimer := 0 }
    let s := { s with trajectoryPoints := s.trajectoryPoints ++ [s.position] }
    if s.trajectoryPoints.length > maxTrajectoryPoints then
      { s with trajectoryPoints := s.trajectoryPoints.eraseIdx 0 }
    else s
  else s

/-- The wall block of `update`: reset at the right wall, reflection at the
left wall. The sums `position.x + radius` and `position.x - radius` are `float`
operations, compared with the `double` literals; `-1.0 + radius` and
`-velocity.x * 0.90` are `double` operations stored as `float`. -/
def wallCollisions (s : State) : State :=
  if Fp.fl32 (s.position.x + radius) > 1 then resetPosition s
  else if Fp.fl32 (s.position.x - radius) < -1 then
    let s := { s with position := { s.position with x := Fp.fl32 (Fp.fl64 (-1 + radius)) } }
    { s with velocity :=
        { s.velocity with x := Fp.fl32 (Fp.fl64 (-s.velocity.x * Fp.fl64 (90 / 100))) } }
  else s

/-- The ground block of `update`. The comparisons with `0.005` are made in
`double`; `-velocity.y * restitution` is a `float` product and
`velocity.x *= 0.9` a `double` product stored as `float`. -/
def groundCollision (s : State) : State :=
  if s.position.y < ground then
    let s := { s with position := { s.position with y := ground } }
    let s :=
      if |s.velocity.y| > Fp.fl64 (5 / 1000) then
        { s with velocity := { s.velocity with y := Fp.fl32 (-s.velocity.y * restitution) } }
      else
        { s with velocity := { s.velocity with y := 0 } }
    if |s.velocity.y| < Fp.fl64 (5 / 1000) then
      { s with velocity :=
          { s.velocity with x := Fp.fl32 (Fp.fl64 (s.velocity.x * Fp.fl64 (9 / 10))) } }
    else s
  else s

/-- The top block of `update`. The sum `position.y + radius` is a `float`
operation; `1.0 - radius` is a `double` difference stored as `float`. -/
def topCollision (s : State) : State :=
  if Fp.fl32 (s.position.y + radius) > 1 then
    let s := { s with position := { s.position with y := Fp.fl32 (Fp.fl64 (1 - radius)) } }
    { s with velocity := { s.velocity with y := Fp.fl32 (-s.velocity.y * restitution) } }
  else s

/-- The function `update`: its five blocks in order. -/
def update (s : State) : State :=
  topCollision (groundCollision (wallCollisions (recordTrajectory (stepPhysics s))))

/-- The states reachable from the initial globals by calls of `update` and of
`resetPosition` (the `I` key). -/
inductive Reachable : State → Prop
  | init : Reachable State.initial
  | tick {s : State} : Reachable s → Reachable (update s)
  | reset {s : State} : Reachable s → Reachable (resetPosition s)

/-- A concrete state used to evaluate the definitions: 1000 trajectory points
stored, `p` the oldest and 999 copies of `q` after it, the shape at rest at the
centre of the window and the timer at the recording interval. -/
def sampleFull (p q : vec2) : State :=
  { position := ⟨0, 0⟩,
    velocity := ⟨0, 0⟩,
    trajectoryPoints := p :: List.replicate 999 q,
    trajectoryTimer := trajectoryInterval }

/-- A concrete state used to evaluate the definitions: the shape at `x = 0.97f`
moving right with `velocity.x = 0.005f`, two trajectory points stored. -/
def sampleAtWall : State :=
  { position := ⟨Fp.fl32 (97 / 100), Fp.fl32 (-1 / 2)⟩,
    velocity := ⟨Fp.fl32 (5 / 1000), Fp.fl32 (-1 / 100)⟩,
    trajectoryPoints := [⟨Fp.fl32 (9 / 10), 0⟩, ⟨Fp.fl32 (95 / 100), Fp.fl32 (-1 / 4)⟩],
    trajectoryTimer := 0 }

/-- A concrete state used to evaluate the definitions: the shape at `x = 0.97f`
with no horizontal velocity, one trajectory point stored. In real numbers
`0.97f + 0.03f` exceeds 1; as a `float` sum it is `1.0f`. -/
def sampleNearWall : State :=
  { position := ⟨Fp.fl32 (97 / 100), 0⟩,
    velocity := ⟨0, 0⟩,
    trajectoryPoints := [⟨0, 0⟩],
    trajectoryTimer := 0 }

end Bounce

namespace Rubik

/-! ## Vectors and the matrix interface -/

/-- Three-component vector `vec3`. -/
structure vec3 where
  x : ℚ
  y : ℚ
  z : ℚ
deriving DecidableEq

/-- Four-component vector `vec4`. -/
structure vec4 where
  x : ℚ
  y : ℚ
  z : ℚ
  w : ℚ
deriving DecidableEq

/-- The `typedef vec4 color4`. -/
abbrev color4 := vec4

/-- The `typedef vec4 point4`. -/
abbrev point4 := vec4

/-- Interface of the matrix helpers of `Angel.h` used by the program: the type
`mat4`, its default value, the product of two matrices, the product of a matrix
and a point, and the constructors `RotateX`, `RotateY`, `RotateZ` (angle in
degrees) and `Translate`. -/
structure Angel where
  /-- The type `mat4`. -/
  mat4 : Type
  /-- The default-constructed `mat4`. -/
  mat4_default : mat4
  /-- The product `m * n` of two matrices. -/
  mul : mat4 → mat4 → mat4
  /-- The product `m * v` of a matrix and a point. -/
  apply : mat4 → vec4 → vec4
  /-- Rotation about the x axis. -/
  RotateX : ℚ → mat4
  /-- Rotation about the y axis. -/
  RotateY : ℚ → mat4
  /-- Rotation about the z axis. -/
  RotateZ : ℚ → mat4
  /-- Translation by a vector. -/
  Translate : vec3 → mat4

/-- A computable instance of the interface in which a transform is the triple of
total angles turned about the x, y and z axes; products add the angles. It
satisfies associativity and the angle-addition law of rotations about one axis,
and is used to evaluate the definitions on concrete inputs. -/
def Angel.turns : Angel where
  mat4 := ℚ × ℚ × ℚ
  mat4_default := (0, 0, 0)
  mul m n := (m.1 + n.1, m.2.1 + n.2.1, m.2.2 + n.2.2)
  apply _ v := v
  RotateX a := (a, 0, 0)
  RotateY a := (0, a, 0)
  RotateZ a := (0, 0, a)
  Translate _ := (0, 0, 0)

/-! ## Constants -/

/-- The constant `NumCubes`. -/
def NumCubes : Nat := 27

/-- The corners of the unit cube, `unit_vertices[8]`. -/
def unit_vertices : List point4 :=
  [ ⟨-1/2, -1/2,  1/2, 1⟩,
    ⟨-1/2,  1/2,  1/2, 1⟩,
    ⟨ 1/2,  1/2,  1/2, 1⟩,
    ⟨ 1/2, -1/2,  1/2, 1⟩,
    ⟨-1/2, -1/2, -1/2, 1⟩,
    ⟨-1/2,  1/2, -1/2, 1⟩,
    ⟨ 1/2,  1/2, -1/2, 1⟩,
    ⟨ 1/2, -1/2, -1/2, 1⟩ ]

/-- The face colours `face_colors[6]`: red (front), orange (back), green
(right), blue (left), white (top), yellow (bottom). -/
def face_colors : List color4 :=
  [ ⟨1, 0, 0, 1⟩,
    ⟨1, 1/2, 0, 1⟩,
    ⟨0, 1, 0, 1⟩,
    ⟨0, 0, 1, 1⟩,
    ⟨1, 1, 1, 1⟩,
    ⟨1, 1, 0, 1⟩ ]

/-- The colour `black` of internal faces. -/
def black : color4 := ⟨0, 0, 0, 1⟩

/-- Enumerator `Xaxis`. -/
def Xaxis : Int := 0

/-- Enumerator `Yaxis`. -/
def Yaxis : Int := 1

/-- Enumerator `Zaxis`. -/
def Zaxis : Int := 2

/-- The constant `gap` between subcubes. -/
def gap : ℚ := 1 / 100

/-- The constant `cubeSize`. -/
def cubeSize : ℚ := 3 / 10

/-! ## Subcubes -/

/-- The record `struct Subcube`. -/
structure Subcube (A : Angel) where
  /-- Grid position, first coordinate. -/
  x : Int
  /-- Grid position, second coordinate. -/
  y : Int
  /-- Grid position, third coordinate. -/
  z : Int
  /-- The 3D position computed by `init`. -/
  position : vec3
  /-- The transformation matrix. -/
  transform : A.mat4
  /-- The eight transformed corners. -/
  vertices : List point4
  /-- The index mapping `indices[36]`. -/
  indices : List Int
  /-- The colours `colors[36]`. -/
  colors : List color4
  /-- Whether the cube is drawn. -/
  drawn : Bool

variable {A : Angel}

/-- The grid tuple `(x, y, z)` of a subcube. -/
def Subcube.grid (c : Subcube A) : Int × Int × Int := (c.x, c.y, c.z)

/-- A corner of the unit cube scaled by `cubeSize` (the `baseVertex` of the
source). -/
def baseVertex (v : point4) : point4 :=
  ⟨v.x * cubeSize, v.y * cubeSize, v.z * cubeSize, v.w⟩

/-- The method `Subcube::init`. -/
def Subcube.init (c : Subcube A) (_x _y _z : Int) : Subcube A :=
  let position : vec3 :=
    ⟨((_x - 1 : Int) : ℚ) * (cubeSize + gap),
     ((_y - 1 : Int) : ℚ) * (cubeSize + gap),
     ((_z - 1 : Int) : ℚ) * (cubeSize + gap)⟩
  let transform := A.Translate position
  { c with
    x := _x, y := _y, z := _z,
    position := position,
    transform := transform,
    vertices := unit_vertices.map (fun v => A.apply transform (baseVertex v)),
    drawn := true }

/-- The method `Subcube::updateTransform`. -/
def Subcube.updateTransform (c : Subcube A) (newTransform : A.mat4) : Subcube A :=
  { c with
    transform := newTransform,
    vertices := unit_vertices.map (fun v => A.apply newTransform (baseVertex v)) }

/-- The method `Subcube::rotate`. -/
def Subcube.rotate (c : Subcube A) (axis : Int) (angle : ℚ) : Subcube A :=
  let rotation : A.mat4 :=
    if axis = Xaxis then A.RotateX angle
    else if axis = Yaxis then A.RotateY angle
    else A.RotateZ angle
  c.updateTransform (A.mul rotation c.transform)

/-- The method `Subcube::isInSlice`. -/
def Subcube.isInSlice (c : Subcube A) (axis slice : Int) : Bool :=
  if axis = Xaxis then decide (c.x = slice)
  else if axis = Yaxis then decide (c.y = slice)
  else if axis = Zaxis then decide (c.z = slice)
  else false

/-- The function `generateSubcubeGeometry`: the 36 vertex indices and colours
of the six faces, in the order front, back, right, left, top, bottom; a face is
coloured when it lies on the exterior of the 3x3x3 cube and black otherwise. -/
def generateSubcubeGeometry (cube : Subcube A) : Subcube A :=
  let isExternalFront := decide (cube.z = 2)
  let isExternalBack := decide (cube.z = 0)
  let isExternalRight := decide (cube.x = 2)
  let isExternalLeft := decide (cube.x = 0)
  let isExternalTop := decide (cube.y = 2)
  let isExternalBottom := decide (cube.y = 0)
  let frontColor := if isExternalFront then face_colors.getD 0 black else black
  let backColor := if isExternalBack then face_colors.getD 1 black else black
  let rightColor := if isExternalRight then face_colors.getD 2 black else black
  let leftColor := if isExternalLeft then face_colors.getD 3 black else black
  let topColor := if isExternalTop then face_colors.getD 4 black else black
  let bottomColor := if isExternalBottom then face_colors.getD 5 black else black
  { cube with
    indices :=
      [1, 0, 3, 1, 3, 2,
       5, 4, 7, 5, 7, 6,
       2, 3, 7, 2, 7, 6,
       1, 5, 4, 1, 4, 0,
       1, 5, 6, 1, 6, 2,
       0, 4, 7, 0, 7, 3],
    colors :=
      List.replicate 6 frontColor ++ List.replicate 6 backColor ++
      List.replicate 6 rightColor ++ List.replicate 6 leftColor ++
      List.replicate 6 topColor ++ List.replicate 6 bottomColor }

/-- An entry of the global array before `initializeSubcubes` runs: integers and
vectors zero, the matrix default-constructed. `initializeSubcubes` overwrites
every field. -/
def Subcube.zero (A : Angel) : Subcube A :=
  { x := 0, y := 0, z := 0,
    position := ⟨0, 0, 0⟩,
    transform := A.mat4_default,
    vertices := List.replicate 8 ⟨0, 0, 0, 0⟩,
    indices := List.replicate 36 0,
    colors := List.replicate 36 ⟨0, 0, 0, 0⟩,
    drawn := false }

/-! ## Global state -/

/-- The globals of the program that the animator reads and writes, together
with the outcomes of the successive calls to `rand()`. -/
structure State (A : Angel) where
  /-- Global `isRotating`. -/
  isRotating : Bool
  /-- Global `rotatingSlice`. -/
  rotatingSlice : Int
  /-- Global `rotationAxis`. -/
  rotationAxis : Int
  /-- Global `rotationAngle`. -/
  rotationAngle : ℚ
  /-- Global `rotationIncrement`. -/
  rotationIncrement : ℚ
  /-- Global `rotationDirection`. -/
  rotationDirection : Int
  /-- Global `isScrambling`. -/
  isScrambling : Bool
  /-- Global `scramblingMoves`. -/
  scramblingMoves : Int
  /-- Global `maxScramblingMoves`. -/
  maxScramblingMoves : Int
  /-- Global `currentScramblingMove`. -/
  currentScramblingMove : Int
  /-- Global array `subcubes`. -/
  subcubes : List (Subcube A)
  /-- Outcome of the `n`-th call to `rand()`, a non-negative integer. -/
  randSeq : Nat → Nat
  /-- Number of calls to `rand()` made so far. -/
  randPos : Nat

/-- The globals as their initialisers set them at program start, for a given
sequence of `rand()` outcomes. -/
def State.initial (A : Angel) (randSeq : Nat → Nat) : State A :=
  { isRotating := false,
    rotatingSlice := -1,
    rotationAxis := -1,
    rotationAngle := 0,
    rotationIncrement := 3,
    rotationDirection := 1,
    isScrambling := false,
    scramblingMoves := 0,
    maxScramblingMoves := 20,
    currentScramblingMove := 0,
    subcubes := List.replicate NumCubes (Subcube.zero A),
    randSeq := randSeq,
    randPos := 0 }

/-- The grid tuples visited by the three nested loops of `initializeSubcubes`,
in the order of `cubeIndex`. -/
def gridOrder : List (Int × Int × Int) :=
  ([0, 1, 2] : List Int).flatMap fun x =>
    ([0, 1, 2] : List Int).flatMap fun y =>
      ([0, 1, 2] : List Int).map fun z => (x, y, z)

/-- The function `initializeSubcubes`: entry `cubeIndex` of the array is
initialised at the `cubeIndex`-th grid tuple and given its geometry. -/
def initializeSubcubes (s : State A) : State A :=
  { s with
    subcubes := List.zipWith
      (fun c g => generateSubcubeGeometry (c.init g.1 g.2.1 g.2.2))
      s.subcubes gridOrder }

/-- The function `startSliceRotation`. -/
def startSliceRotation (axis slice direction : Int) (s : State A) : State A :=
  if !s.isRotating then
    { s with
      isRotating := true,
      rotatingSlice := slice,
      rotationAxis := axis,
      rotationDirection := direction,
      rotationAngle := 0 }
  else s

/-- A call to `rand()`: the next outcome of the sequence. -/
def rand (s : State A) : Nat × State A :=
  (s.randSeq s.randPos, { s with randPos := s.randPos + 1 })

/-- The function `performRandomMove`. -/
def performRandomMove (s : State A) : State A :=
  if s.isRotating then s
  else
    let r1 := rand s
    let axis : Int := ((r1.1 % 3 : Nat) : Int)
    let r2 := rand r1.2
    let slice : Int := ((r2.1 % 3 : Nat) : Int)
    let r3 := rand r2.2
    let direction : Int := ((r3.1 % 2 : Nat) : Int) * 2 - 1
    startSliceRotation axis slice direction r3.2

/-- The function `startScrambling`. -/
def startScrambling (moves : Int) (s : State A) : State A :=
  if !s.isScrambling && !s.isRotating then
    performRandomMove
      { s with
        isScrambling := true,
        maxScramblingMoves := moves,
        currentScramblingMove := 0 }
  else s

/-- The new grid coordinates assigned to a cube of the slice when a rotation
about `rotationAxis` in direction `rotationDirection` completes (the
assignments to `subcubes[i].x`, `.y`, `.z` in `update`). -/
def updateGrid (rotationAxis rotationDirection : Int) (c : Subcube A) : Subcube A :=
  let oldX := c.x
  let oldY := c.y
  let oldZ := c.z
  if rotationAxis = Xaxis then
    if rotationDirection > 0 then { c with y := 2 - oldZ, z := oldY }
    else { c with y := oldZ, z := 2 - oldY }
  else if rotationAxis = Yaxis then
    if rotationDirection > 0 then { c with x := oldZ, z := 2 - oldX }
    else { c with x := 2 - oldZ, z := oldX }
  else
    if rotationDirection > 0 then { c with x := 2 - oldY, y := oldX }
    else { c with x := oldY, y := 2 - oldX }

/-- The function `update`, one tick of the animation. -/
def update (s : State A) : State A :=
  if s.isRotating then
    let s := { s with
      rotationAngle := s.rotationAngle + s.rotationIncrement * (s.rotationDirection : ℚ) }
    if |s.rotationAngle| ≥ 90 + s.rotationIncrement then
      let finalAngle : ℚ :=
        if s.rotationDirection > 0 then 90 + s.rotationIncrement
        else -90 - s.rotationIncrement
      let s := { s with
        subcubes := s.subcubes.map fun (c : Subcube A) =>
          if c.isInSlice s.rotationAxis s.rotatingSlice then
            updateGrid s.rotationAxis s.rotationDirection
              (c.rotate s.rotationAxis (finalAngle - s.rotationAngle))
          else c }
      let s := { s with isRotating := false }
      if s.isScrambling then
        let s := { s with currentScramblingMove := s.currentScramblingMove + 1 }
        if s.currentScramblingMove < s.maxScramblingMoves then
          performRandomMove s
        else
          { s with isScrambling := false, rotationIncrement := 3 }
      else s
    else
      { s with
        subcubes := s.subcubes.map fun (c : Subcube A) =>
          if c.isInSlice s.rotationAxis s.rotatingSlice then
            c.rotate s.rotationAxis (s.rotationIncrement * (s.rotationDirection : ℚ))
          else c }
  else if s.isScrambling && decide (s.currentScramblingMove < s.maxScramblingMoves) then
    performRandomMove s
  else s

/-! ## Runs of the animator -/

/-- The states reachable from `initializeSubcubes()` by interleaving calls of
`startSliceRotation` (axis and slice in 0..2, direction +1 or -1), calls of
`startScrambling` and ticks of `update`. -/
inductive Reachable : State A → Prop
  | init (randSeq : Nat → Nat) :
      Reachable (initializeSubcubes (State.initial A randSeq))
  | rotation {s : State A} (axis slice direction : Int) :
      Reachable s → 0 ≤ axis → axis ≤ 2 → 0 ≤ slice → slice ≤ 2 →
      direction = 1 ∨ direction = -1 →
      Reachable (startSliceRotation axis slice direction s)
  | scrambling {s : State A} (moves : Int) :
      Reachable s → Reachable (startScrambling moves s)
  | tick {s : State A} :
      Reachable s → Reachable (update s)

/-- The grid tuples of the 27 subcubes, in array order. -/
def State.grids (s : State A) : List (Int × Int × Int) :=
  s.subcubes.map Subcube.grid

/-- The test of `Subcube::isInSlice` on a grid tuple. -/
def gridInSlice (axis slice : Int) (g : Int × Int × Int) : Bool :=
  if axis = Xaxis then decide (g.1 = slice)
  else if axis = Yaxis then decide (g.2.1 = slice)
  else if axis = Zaxis then decide (g.2.2 = slice)
  else false

/-- The map on grid tuples induced by the completion of a rotation: tuples of
the slice are permuted as `update` assigns them, the others are kept. -/
def gridMove (axis slice direction : Int) (g : Int × Int × Int) : Int × Int × Int :=
  if gridInSlice axis slice g then
    (if axis = Xaxis then
      if direction > 0 then (g.1, 2 - g.2.2, g.2.1) else (g.1, g.2.2, 2 - g.2.1)
    else if axis = Yaxis then
      if direction > 0 then (g.2.2, g.2.1, 2 - g.1) else (2 - g.2.2, g.2.1, g.1)
    else
      if direction > 0 then (2 - g.2.1, g.1, g.2.2) else (g.2.1, 2 - g.1, g.2.2))
  else g

/-- The guard of the completion branch of `update`: a rotation is active and,
after this tick's increment, `fabs(rotationAngle) >= 90 + rotationIncrement`. -/
def State.completes (s : State A) : Bool :=
  s.isRotating &&
    decide (|s.rotationAngle + s.rotationIncrement * (s.rotationDirection : ℚ)|
      ≥ 90 + s.rotationIncrement)

/-- The body of the incremental loop of `update` for one cube. -/
def stepCube (s : State A) (c : Subcube A) : Subcube A :=
  if c.isInSlice s.rotationAxis s.rotatingSlice then
    c.rotate s.rotationAxis (s.rotationIncrement * (s.rotationDirection : ℚ))
  else c

/-- The body of the completion loop of `update` for one cube, in terms of the
state before the tick. -/
def finishCube (s : State A) (c : Subcube A) : Subcube A :=
  if c.isInSlice s.rotationAxis s.rotatingSlice then
    updateGrid s.rotationAxis s.rotationDirection
      (c.rotate s.rotationAxis
        ((if s.rotationDirection > 0 then 90 + s.rotationIncrement
          else -90 - s.rotationIncrement)
          - (s.rotationAngle + s.rotationIncrement * (s.rotationDirection : ℚ))))
  else c

/-- The fixed permutation of grid tuples as the specification words it, for the
three axes and the two directions: about X, `(x,y,z) -> (x, 2-z, y)` for +1 and
`(x, z, 2-y)` for -1; about Y, `(z, y, 2-x)` for +1 and `(2-z, y, x)` for -1;
about Z, `(2-y, x, z)` for +1 and `(y, 2-x, z)` for -1. Other arguments leave
the tuple as it is. -/
def specPermutation (axis direction : Int) (g : Int × Int × Int) : Int × Int × Int :=
  match g with
  | (x, y, z) =>
    if axis = 0 ∧ direction = 1 then (x, 2 - z, y)
    else if axis = 0 ∧ direction = -1 then (x, z, 2 - y)
    else if axis = 1 ∧ direction = 1 then (z, y, 2 - x)
    else if axis = 1 ∧ direction = -1 then (2 - z, y, x)
    else if axis = 2 ∧ direction = 1 then (2 - y, x, z)
    else if axis = 2 ∧ direction = -1 then (y, 2 - x, z)
    else (x, y, z)

/-- A concrete state used to evaluate the definitions: the freshly initialised
cube with a rotation of slice 0 about X in direction +1 under way, at an
accumulated angle of 90 degrees (increment 3), so that the next tick completes
the rotation. -/
def sampleTurning : State Angel.turns :=
  { initializeSubcubes (State.initial Angel.turns fun _ => 0) with
    isRotating := true,
    rotationAxis := 0,
    rotatingSlice := 0,
    rotationDirection := 1,
    rotationAngle := 90 }

/-- The state after `n` successive calls of `update`. -/
def ticks (n : Nat) (s : State A) : State A := update^[n] s

/-- Waiting for the animation to finish: call `update` until `isRotating` is
false, at most `fuel` times; `none` when a rotation is still active after
`fuel` ticks. -/
def tickUntilIdle : Nat → State A → Option (State A)
  | 0, s => if s.isRotating then none else some s
  | fuel + 1, s => if s.isRotating then tickUntilIdle fuel (update s) else some s

/-- Running a rotation to completion: request it and wait until no rotation is
active. -/
def rotateToCompletion (fuel : Nat) (axis slice direction : Int) (s : State A) :
    Option (State A) :=
  tickUntilIdle fuel (startSliceRotation axis slice direction s)

/-- The number of incremental ticks of a quarter turn at a constant increment
`inc`: the least `n` with `n * inc ≥ 90`. The turn completes on the tick after
them. -/
def stepTicks (inc : ℚ) : Nat := ⌈90 / inc⌉.toNat

/-- The state `k` incremental ticks into a rotation that started in `s`. -/
def midTurn (s : State A) (k : Nat) : State A :=
  { s with
    rotationAngle := (k : ℚ) * (s.rotationIncrement * (s.rotationDirection : ℚ)),
    subcubes := s.subcubes.map (stepCube s)^[k] }

/-- Running the same rotation to completion `n` times in a row. -/
def repeatRotation (fuel : Nat) (axis slice direction : Int) :
    Nat → State A → Option (State A)
  | 0, s => some s
  | n + 1, s =>
    (rotateToCompletion fuel axis slice direction s).bind
      (repeatRotation fuel axis slice direction n)

/-- A concrete state used to evaluate the definitions: the cube as
`initializeSubcubes` leaves it at program start, with all `rand()` outcomes 0. -/
def freshCube : State Angel.turns :=
  initializeSubcubes (State.initial Angel.turns fun _ => 0)

/-- The matrix `rotation` that `Subcube::rotate` builds for an axis and an
angle. -/
def rotationMatrix (A : Angel) (axis : Int) (angle : ℚ) : A.mat4 :=
  if axis = Xaxis then A.RotateX angle
  else if axis = Yaxis then A.RotateY angle
  else A.RotateZ angle

/-- The laws of exact matrix arithmetic used about rotations: the product is
associative, and two rotations about the same coordinate axis compose to the
rotation by the sum of their angles. -/
structure Angel.Exact (A : Angel) : Prop where
  /-- Associativity of the matrix product. -/
  mul_assoc : ∀ m n p : A.mat4, A.mul (A.mul m n) p = A.mul m (A.mul n p)
  /-- Angle addition about the x axis. -/
  rotateX_add : ∀ a b : ℚ, A.mul (A.RotateX a) (A.RotateX b) = A.RotateX (a + b)
  /-- Angle addition about the y axis. -/
  rotateY_add : ∀ a b : ℚ, A.mul (A.RotateY a) (A.RotateY b) = A.RotateY (a + b)
  /-- Angle addition about the z axis. -/
  rotateZ_add : ∀ a b : ℚ, A.mul (A.RotateZ a) (A.RotateZ b) = A.RotateZ (a + b)

/-- One tick of `update` after `rotationIncrement` has been set to `inc` (the
`S` key handler assigns `rotationIncrement` between ticks). -/
def tickWith (inc : ℚ) (s : State A) : State A :=
  update { s with rotationIncrement := inc }

/-- Ticks of `update` up to and including the first tick that takes the
completion branch, with `rotationIncrement` set before each tick to the next
value of the list; `none` when the list ends before a tick completes the
rotation. -/
def turnWith : List ℚ → State A → Option (State A)
  | [], _ => none
  | inc :: incs, s =>
    if State.completes { s with rotationIncrement := inc } then some (tickWith inc s)
    else turnWith incs (tickWith inc s)

/-- The number of rotations completed during the first `n` ticks from `s`: the
number of those ticks that take the completion branch of `update`. -/
def completions : Nat → State A → Nat
  | 0, _ => 0
  | n + 1, s => (if s.completes then 1 else 0) + completions n (update s)

/-- A concrete state used to evaluate the definitions: `sampleTurning` with a
scramble in progress, two moves done out of twenty, at increment 10 and an
accumulated angle of 90 degrees, so that the next tick completes a move. -/
def sampleScrambling : State Angel.turns :=
  { sampleTurning with
    isScrambling := true,
    rotationIncrement := 10,
    currentScramblingMove := 2,
    maxScramblingMoves := 20 }

/-- The colour assignment of a cube as the specification words it, from a grid
tuple `(x, y, z)`: six entries per face in the order front, back, right, left,
top, bottom; front red iff `z == 2`, back orange iff `z == 0`, right green iff
`x == 2`, left blue iff `x == 0`, top white iff `y == 2`, bottom yellow iff
`y == 0`, and black otherwise. -/
def specFaceColors (x y z : Int) : List color4 :=
  List.replicate 6 (if z = 2 then (⟨1, 0, 0, 1⟩ : color4) else ⟨0, 0, 0, 1⟩) ++
  List.replicate 6 (if z = 0 then (⟨1, 1 / 2, 0, 1⟩ : color4) else ⟨0, 0, 0, 1⟩) ++
  List.replicate 6 (if x = 2 then (⟨0, 1, 0, 1⟩ : color4) else ⟨0, 0, 0, 1⟩) ++
  List.replicate 6 (if x = 0 then (⟨0, 0, 1, 1⟩ : color4) else ⟨0, 0, 0, 1⟩) ++
  List.replicate 6 (if y = 2 then (⟨1, 1, 1, 1⟩ : color4) else ⟨0, 0, 0, 1⟩) ++
  List.replicate 6 (if y = 0 then (⟨1, 1, 0, 1⟩ : color4) else ⟨0, 0, 0, 1⟩)

/-- The GLFW key constants that the `switch` of `key_callback` distinguishes;
`other` stands for every other key. -/
inductive Key where
  | ESCAPE | Q | H | S
  | F | C | M | N | B | V
  | T | Y | G | J | U | I
  | L | K | O | P | R | E
  | other
deriving DecidableEq

/-- The GLFW key actions. -/
inductive Action where
  | PRESS | REPEAT | RELEASE
deriving DecidableEq

/-- The function `key_callback`. The result is `none` when the handler calls
`exit(EXIT_SUCCESS)`; `displayHelp()` only prints and leaves the state as it
is. -/
def key_callback (key : Key) (action : Action) (s : State A) : Option (State A) :=
  if action ≠ Action.PRESS ∧ action ≠ Action.REPEAT then some s
  else
    match key with
    | Key.ESCAPE => none
    | Key.Q => none
    | Key.H => some s
    | Key.S => some (startScrambling 20 { s with rotationIncrement := 10 })
    | Key.F => some (startSliceRotation Xaxis 0 1 s)
    | Key.C => some (startSliceRotation Xaxis 0 (-1) s)
    | Key.M => some (startSliceRotation Xaxis 1 1 s)
    | Key.N => some (startSliceRotation Xaxis 1 (-1) s)
    | Key.B => some (startSliceRotation Xaxis 2 1 s)
    | Key.V => some (startSliceRotation Xaxis 2 (-1) s)
    | Key.T => some (startSliceRotation Yaxis 2 1 s)
    | Key.Y => some (startSliceRotation Yaxis 2 (-1) s)
    | Key.G => some (startSliceRotation Yaxis 1 1 s)
    | Key.J => some (startSliceRotation Yaxis 1 (-1) s)
    | Key.U => some (startSliceRotation Yaxis 0 1 s)
    | Key.I => some (startSliceRotation Yaxis 0 (-1) s)
    | Key.L => some (startSliceRotation Zaxis 0 1 s)
    | Key.K => some (startSliceRotation Zaxis 0 (-1) s)
    | Key.O => some (startSliceRotation Zaxis 1 1 s)
    | Key.P => some (startSliceRotation Zaxis 1 (-1) s)
    | Key.R => some (startSliceRotation Zaxis 2 1 s)
    | Key.E => some (startSliceRotation Zaxis 2 (-1) s)
    | Key.other => some s

/-- The 18 slice-rotation keys, in the order of the `switch`. -/
def rotationKeys : List Key :=
  [Key.F, Key.C, Key.M, Key.N, Key.B, Key.V,
   Key.T, Key.Y, Key.G, Key.J, Key.U, Key.I,
   Key.L, Key.K, Key.O, Key.P, Key.R, Key.E]

/-- The 18 triples (axis, slice, direction) of {Xaxis, Yaxis, Zaxis} x {0,1,2}
x {+1,-1}. -/
def allTriples : List (Int × Int × Int) :=
  ([Xaxis, Yaxis, Zaxis] : List Int).flatMap fun axis =>
    ([0, 1, 2] : List Int).flatMap fun slice =>
      ([1, -1] : List Int).map fun direction => (axis, slice, direction)

/-- The rotation that a key press requests in state `s`, read off the state
after `key_callback`: the triple (`rotationAxis`, `rotatingSlice`,
`rotationDirection`). -/
def requestedBy (key : Key) (s : State A) : Option (Int × Int × Int) :=
  (key_callback key Action.PRESS s).map fun s' =>
    (s'.rotationAxis, s'.rotatingSlice, s'.rotationDirection)

/-- The constant `NumVerticesPerCube`. -/
def NumVerticesPerCube : Nat := 36

/-- The function `drawSubcube`, as the vertex and colour data it uploads and
draws: entry `i` is `cube.vertices[cube.indices[i]]` with `cube.colors[i]`.
The result is `none` when one of the array accesses is out of bounds, and the
empty data when the cube is not drawn. -/
def drawSubcube (cube : Subcube A) : Option (List point4 × List color4) :=
  if !cube.drawn then some ([], [])
  else
    ((List.range NumVerticesPerCube).mapM fun i =>
      (cube.indices[i]?).bind fun idx =>
        if 0 ≤ idx then
          (cube.vertices[idx.toNat]?).bind fun v =>
            (cube.colors[i]?).bind fun c => some (v, c)
        else none).map List.unzip

/-- The plane of each face of the unit cube as the specification names it, by
face number in the order front, back, right, left, top, bottom: front
`z = +0.5`, back `z = -0.5`, right `x = +0.5`, left `x = -0.5`, top `y = +0.5`,
bottom `y = -0.5`. -/
def onFacePlane (face : Nat) (v : point4) : Prop :=
  (face = 0 ∧ v.z = 1 / 2) ∨ (face = 1 ∧ v.z = -1 / 2) ∨
  (face = 2 ∧ v.x = 1 / 2) ∨ (face = 3 ∧ v.x = -1 / 2) ∨
  (face = 4 ∧ v.y = 1 / 2) ∨ (face = 5 ∧ v.y = -1 / 2)

/-- The globals of the whole-cube view: the angles `Theta[Xaxis]`,
`Theta[Yaxis]`, `Theta[Zaxis]` and the mouse state `leftMousePressed`, `lastX`,
`lastY`. -/
structure ViewState where
  /-- Entry `Theta[Xaxis]`. -/
  ThetaX : ℚ
  /-- Entry `Theta[Yaxis]`. -/
  ThetaY : ℚ
  /-- Entry `Theta[Zaxis]`. -/
  ThetaZ : ℚ
  /-- Global `leftMousePressed`. -/
  leftMousePressed : Bool
  /-- Global `lastX`. -/
  lastX : ℚ
  /-- Global `lastY`. -/
  lastY : ℚ

/-- The view globals as their initialisers set them: `Theta = {30, 30, 0}`, no
button pressed, `lastX = lastY = 0`. -/
def ViewState.initial : ViewState :=
  { ThetaX := 30, ThetaY := 30, ThetaZ := 0,
    leftMousePressed := false, lastX := 0, lastY := 0 }

/-- The C library function `fmod` in exact arithmetic: `x - n * y`, where `n`
is the quotient `x / y` with its fractional part discarded (rounded toward
zero), so that the result has the sign of `x`. -/
def fmod (x y : ℚ) : ℚ :=
  x - (if 0 ≤ x / y then ⌊x / y⌋ else ⌈x / y⌉ : Int) * y

/-- The GLFW mouse buttons. -/
inductive MouseButton where
  | LEFT | RIGHT | MIDDLE
deriving DecidableEq

/-- The function `mouse_button_callback`; `cursorX`, `cursorY` is the cursor
position that `glfwGetCursorPos` returns. -/
def mouse_button_callback (button : MouseButton) (action : Action) (cursorX cursorY : ℚ)
    (v : ViewState) : ViewState :=
  if button = MouseButton.LEFT then
    if action = Action.PRESS then
      { v with leftMousePressed := true, lastX := cursorX, lastY := cursorY }
    else if action = Action.RELEASE then
      { v with leftMousePressed := false }
    else v
  else v

/-- The function `cursor_position_callback`. -/
def cursor_position_callback (xpos ypos : ℚ) (v : ViewState) : ViewState :=
  if v.leftMousePressed then
    let dx := xpos - v.lastX
    let dy := ypos - v.lastY
    let v := { v with ThetaY := v.ThetaY + dx * (1 / 2) }
    let v := { v with ThetaX := v.ThetaX + dy * (1 / 2) }
    let v := { v with ThetaX := fmod v.ThetaX 360 }
    let v := { v with ThetaY := fmod v.ThetaY 360 }
    { v with lastX := xpos, lastY := ypos }
  else v

/-- The point at which a cube is rendered: the image under the cube's transform
of the centre `(0, 0, 0, 1)` of the base cube, whose corners `baseVertex` the
transform maps to the cube's `vertices`. -/
def renderedCentre (c : Subcube A) : point4 :=
  A.apply c.transform ⟨0, 0, 0, 1⟩

/-- The point `(grid - (1,1,1)) * (cubeSize + gap)` of a grid tuple. -/
def gridCentre (g : Int × Int × Int) : point4 :=
  ⟨((g.1 - 1 : Int) : ℚ) * (cubeSize + gap),
   ((g.2.1 - 1 : Int) : ℚ) * (cubeSize + gap),
   ((g.2.2 - 1 : Int) : ℚ) * (cubeSize + gap), 1⟩

/-- The standard right-handed quarter turn by `direction * 90` degrees about an
axis as the specification words it: `RotateX(90)` maps `(y, z)` to `(-z, y)`,
`RotateY(90)` maps `(x, z)` to `(z, -x)`, `RotateZ(90)` maps `(x, y)` to
`(-y, x)`, and direction -1 gives the inverse maps. Other arguments leave the
triple as it is. -/
def specQuarterTurn (axis direction : Int) (v : Int × Int × Int) : Int × Int × Int :=
  match v with
  | (x, y, z) =>
    if axis = 0 ∧ direction = 1 then (x, -z, y)
    else if axis = 0 ∧ direction = -1 then (x, z, -y)
    else if axis = 1 ∧ direction = 1 then (z, y, -x)
    else if axis = 1 ∧ direction = -1 then (-z, y, x)
    else if axis = 2 ∧ direction = 1 then (-y, x, z)
    else if axis = 2 ∧ direction = -1 then (y, -x, z)
    else (x, y, z)

/-- The laws of exact matrix arithmetic used about rendered points: the product
of matrices acts as the composition, a translation moves the origin to its
vector, two rotations about the same coordinate axis act as the rotation by the
sum of their angles, the rotation by 0 degrees fixes every point, and the
rotations by 90 degrees are the quarter turns `(y, z) -> (-z, y)` about x,
`(x, z) -> (z, -x)` about y and `(x, y) -> (-y, x)` about z (`cos 90 = 0`,
`sin 90 = 1` in the matrices of `Angel.h`). -/
structure Angel.Geometric (A : Angel) : Prop where
  /-- The product acts as the composition. -/
  apply_mul : ∀ (m n : A.mat4) (v : vec4), A.apply (A.mul m n) v = A.apply m (A.apply n v)
  /-- A translation moves the origin to its vector. -/
  apply_translate : ∀ p : vec3, A.apply (A.Translate p) ⟨0, 0, 0, 1⟩ = ⟨p.x, p.y, p.z, 1⟩
  /-- Angle addition about the x axis. -/
  rotateX_add : ∀ (a b : ℚ) (v : vec4),
    A.apply (A.RotateX a) (A.apply (A.RotateX b) v) = A.apply (A.RotateX (a + b)) v
  /-- Angle addition about the y axis. -/
  rotateY_add : ∀ (a b : ℚ) (v : vec4),
    A.apply (A.RotateY a) (A.apply (A.RotateY b) v) = A.apply (A.RotateY (a + b)) v
  /-- Angle addition about the z axis. -/
  rotateZ_add : ∀ (a b : ℚ) (v : vec4),
    A.apply (A.RotateZ a) (A.apply (A.RotateZ b) v) = A.apply (A.RotateZ (a + b)) v
  /-- The rotation by 0 degrees about the x axis. -/
  rotateX_zero : ∀ x y z : ℚ, A.apply (A.RotateX 0) ⟨x, y, z, 1⟩ = ⟨x, y, z, 1⟩
  /-- The rotation by 0 degrees about the y axis. -/
  rotateY_zero : ∀ x y z : ℚ, A.apply (A.RotateY 0) ⟨x, y, z, 1⟩ = ⟨x, y, z, 1⟩
  /-- The rotation by 0 degrees about the z axis. -/
  rotateZ_zero : ∀ x y z : ℚ, A.apply (A.RotateZ 0) ⟨x, y, z, 1⟩ = ⟨x, y, z, 1⟩
  /-- The rotation by 90 degrees about the x axis. -/
  rotateX_quarter : ∀ x y z : ℚ, A.apply (A.RotateX 90) ⟨x, y, z, 1⟩ = ⟨x, -z, y, 1⟩
  /-- The rotation by 90 degrees about the y axis. -/
  rotateY_quarter : ∀ x y z : ℚ, A.apply (A.RotateY 90) ⟨x, y, z, 1⟩ = ⟨z, y, -x, 1⟩
  /-- The rotation by 90 degrees about the z axis. -/
  rotateZ_quarter : ∀ x y z : ℚ, A.apply (A.RotateZ 90) ⟨x, y, z, 1⟩ = ⟨-y, x, z, 1⟩

/-- The quarter turn about the x axis on a coordinate triple. -/
def quarterX (p : ℚ × ℚ × ℚ) : ℚ × ℚ × ℚ := (p.1, -p.2.2, p.2.1)

/-- The quarter turn about the y axis on a coordinate triple. -/
def quarterY (p : ℚ × ℚ × ℚ) : ℚ × ℚ × ℚ := (p.2.2, p.2.1, -p.1)

/-- The quarter turn about the z axis on a coordinate triple. -/
def quarterZ (p : ℚ × ℚ × ℚ) : ℚ × ℚ × ℚ := (-p.2.1, p.1, p.2.2)

/-- A turn by `a` degrees in the instance `Angel.quarters`: the point is turned
by the whole quarter turns `Q` contained in the angle, and the remainder of the
angle, in `[0, 90)`, is kept in the fourth coordinate as `1 + remainder`, where
the next turn picks it up. -/
def turn (Q : ℚ × ℚ × ℚ → ℚ × ℚ × ℚ) (a : ℚ) (v : vec4) : vec4 :=
  let t : ℚ := v.w - 1 + a
  let q : Int := ⌊t / 90⌋
  let p := Q^[(q % 4).toNat] (v.x, v.y, v.z)
  ⟨p.1, p.2.1, p.2.2, 1 + (t - 90 * (q : ℚ))⟩

/-- A computable instance of the interface in which a transform is a map on
points, the product is the composition, and a rotation is `turn`: exact on
multiples of 90 degrees, with angles about one axis adding up. It satisfies the
laws `Angel.Geometric` and is used to evaluate the definitions on concrete
inputs. -/
def Angel.quarters : Angel where
  mat4 := vec4 → vec4
  mat4_default := fun v => v
  mul m n := fun v => m (n v)
  apply m v := m v
  RotateX a := turn quarterX a
  RotateY a := turn quarterY a
  RotateZ a := turn quarterZ a
  Translate p := fun v => ⟨v.x + p.x * v.w, v.y + p.y * v.w, v.z + p.z * v.w, v.w⟩

/-- A concrete state used to evaluate the definitions: the freshly initialised
cube over `Angel.quarters` after a rotation of slice 0 about X in direction +1
has been requested and 31 ticks have run. -/
def turnedCube : State Angel.quarters :=
  ticks 31 (startSliceRotation 0 0 1
    (initializeSubcubes (State.initial Angel.quarters fun _ => 0)))

/-- Every cube of the list is rendered at the point of its grid tuple. -/
def AtRest (cubes : List (Subcube A)) : Prop :=
  ∀ c ∈ cubes, renderedCentre c = gridCentre c.grid

/-- The position of the cubes in a state: a cube of the slice being rotated is
rendered at the point of its grid tuple turned by `rotationAngle` about
`rotationAxis`, every other cube at the point of its grid tuple. -/
def Centred (s : State A) : Prop :=
  ∀ c ∈ s.subcubes, renderedCentre c =
    if s.isRotating && c.isInSlice s.rotationAxis s.rotatingSlice then
      A.apply (rotationMatrix A s.rotationAxis s.rotationAngle) (gridCentre c.grid)
    else gridCentre c.grid

/-- The function `update` with the arithmetic on the `float` variables
`rotationAngle` and `rotationIncrement` rounded to binary32, as the program
computes it: `rotationDirection` is converted to `float`, the products, sums
and differences are `float` operations, and `90.0f + rotationIncrement` is a
`float` sum. Everything else is as in `update`. -/
def updateF (s : State A) : State A :=
  if s.isRotating then
    let s := { s with
      rotationAngle := Fp.fl32 (s.rotationAngle +
        Fp.fl32 (s.rotationIncrement * Fp.fl32 (s.rotationDirection : ℚ))) }
    if |s.rotationAngle| ≥ Fp.fl32 (90 + s.rotationIncrement) then
      let finalAngle : ℚ :=
        if s.rotationDirection > 0 then Fp.fl32 (90 + s.rotationIncrement)
        else Fp.fl32 (-90 - s.rotationIncrement)
      let s := { s with
        subcubes := s.subcubes.map fun (c : Subcube A) =>
          if c.isInSlice s.rotationAxis s.rotatingSlice then
            updateGrid s.rotationAxis s.rotationDirection
              (c.rotate s.rotationAxis (Fp.fl32 (finalAngle - s.rotationAngle)))
          else c }
      let s := { s with isRotating := false }
      if s.isScrambling then
        let s := { s with currentScramblingMove := s.currentScramblingMove + 1 }
        if s.currentScramblingMove < s.maxScramblingMoves then
          performRandomMove s
        else
          { s with isScrambling := false, rotationIncrement := 3 }
      else s
    else
      { s with
        subcubes := s.subcubes.map fun (c : Subcube A) =>
          if c.isInSlice s.rotationAxis s.rotatingSlice then
            c.rotate s.rotationAxis
              (Fp.fl32 (s.rotationIncrement * Fp.fl32 (s.rotationDirection : ℚ)))
          else c }
  else if s.isScrambling && decide (s.currentScramblingMove < s.maxScramblingMoves) then
    performRandomMove s
  else s

/-- The state after `n` ticks of `updateF`. -/
def ticksF (n : Nat) (s : State A) : State A := updateF^[n] s

/-- The guard of the completion branch of `updateF`: a rotation is active and,
after this tick's increment, `fabs(rotationAngle) >= 90.0f + rotationIncrement`
in `float` arithmetic. -/
def State.completesF (s : State A) : Bool :=
  s.isRotating &&
    decide (|Fp.fl32 (s.rotationAngle +
        Fp.fl32 (s.rotationIncrement * Fp.fl32 (s.rotationDirection : ℚ)))|
      ≥ Fp.fl32 (90 + s.rotationIncrement))

/-- The `float` operations of a rotation with increment `inc` in direction `d`
return the exact results: the conversion of `d`, the product
`rotationIncrement * rotationDirection`, the sums `90.0f + rotationIncrement`
and `-90.0f - rotationIncrement`, the angle after each of the
`stepTicks inc + 1` ticks, and the final correction
`finalAngle - rotationAngle`. -/
abbrev ExactTurn (inc : ℚ) (d : Int) : Prop :=
  Fp.fl32 (d : ℚ) = (d : ℚ) ∧
  Fp.fl32 (inc * (d : ℚ)) = inc * (d : ℚ) ∧
  Fp.fl32 (90 + inc) = 90 + inc ∧
  Fp.fl32 (-90 - inc) = -90 - inc ∧
  (∀ k : Nat, k ≤ stepTicks inc →
    Fp.fl32 ((k : ℚ) * (inc * (d : ℚ)) + inc * (d : ℚ)) =
      (k : ℚ) * (inc * (d : ℚ)) + inc * (d : ℚ)) ∧
  Fp.fl32 ((if d > 0 then 90 + inc else -90 - inc) -
      ((stepTicks inc : ℚ) * (inc * (d : ℚ)) + inc * (d : ℚ))) =
    (if d > 0 then 90 + inc else -90 - inc) -
      ((stepTicks inc : ℚ) * (inc * (d : ℚ)) + inc * (d : ℚ))

/-- A positive increment at which the `float` operations of a rotation in
either direction return the exact results. -/
abbrev ExactIncrement (inc : ℚ) : Prop :=
  0 < inc ∧ ExactTurn inc 1 ∧ ExactTurn inc (-1)

/-- The `float` value of `1e-6`, an increment at which the angle stops growing
before it reaches 90. -/
def tinyIncrement : ℚ := Fp.fl32 (1 / 1000000)

/-- A concrete state used to evaluate the definitions: the freshly initialised
cube with `rotationIncrement` set to `tinyIncrement`. -/
def tinyCube : State Angel.turns :=
  { freshCube with rotationIncrement := tinyIncrement }

/-- The states that the program reaches: from `initializeSubcubes()` by key
events handled by `key_callback` and ticks of `update`. -/
inductive Played : State A → Prop
  | init (randSeq : Nat → Nat) :
      Played (initializeSubcubes (State.initial A randSeq))
  | key {s t : State A} (k : Key) (a : Action) :
      Played s → key_callback k a s = some t → Played t
  | tick {s : State A} :
      Played s → Played (update s)

/-- The `float` variables of a state hold small whole numbers:
`rotationIncrement` is 3 or 10 and, while a rotation is active, the direction is
+1 or -1 and `rotationAngle` is a whole number of absolute value below 100. -/
def WholeAngles (s : State A) : Prop :=
  (s.rotationIncrement = 3 ∨ s.rotationIncrement = 10) ∧
  (s.isRotating = true →
    (s.rotationDirection = 1 ∨ s.rotationDirection = -1) ∧
    ∃ m : Int, s.rotationAngle = (m : ℚ) ∧ -100 < m ∧ m < 100)

end Rubik

namespace Fp

/-! ## Facts about rounding -/

theorem roundEven_cases (x : ℚ) : roundEven x = ⌊x⌋ ∨ roundEven x = ⌊x⌋ + 1 := by
  unfold roundEven
  split_ifs <;> simp

theorem roundEven_intCast (n : Int) : roundEven (n : ℚ) = n := by
  unfold roundEven
  simp

theorem roundEven_mono {x y : ℚ} (h : x ≤ y) : roundEven x ≤ roundEven y := by
  have hf : ⌊x⌋ ≤ ⌊y⌋ := Int.floor_mono h
  rcases hf.lt_or_eq with hlt | heq
  · rcases roundEven_cases x with hx | hx <;> rcases roundEven_cases y with hy | hy <;> omega
  · unfold roundEven
    have heq' : ((⌊x⌋ : Int) : ℚ) = ((⌊y⌋ : Int) : ℚ) := by rw [heq]
    split_ifs <;> first | omega | (exfalso; linarith)

theorem log2Fuel_spec : ∀ (fuel n : Nat), n ≤ fuel → 1 ≤ n →
    2 ^ log2Fuel fuel n ≤ n ∧ n < 2 ^ (log2Fuel fuel n + 1) := by
  intro fuel
  induction fuel with
  | zero => intro n h1 h2; omega
  | succ fuel ih =>
    intro n h1 h2
    unfold log2Fuel
    split_ifs with h
    · obtain ⟨i1, i2⟩ := ih (n / 2) (by omega) (by omega)
      constructor
      · rw [pow_succ]; omega
      · rw [pow_succ]; omega
    · simp; omega

theorem log2_spec (n : Nat) (h : 1 ≤ n) : 2 ^ log2 n ≤ n ∧ n < 2 ^ (log2 n + 1) :=
  log2Fuel_spec n n le_rfl h

theorem ilog2_spec (x : ℚ) (hx : x ≠ 0) :
    (2 : ℚ) ^ ilog2 x ≤ |x| ∧ |x| < (2 : ℚ) ^ (ilog2 x + 1) := by
  have hn : 1 ≤ x.num.natAbs := by
    have : x.num ≠ 0 := Rat.num_ne_zero.mpr hx
    omega
  have hd : 1 ≤ x.den := x.den_pos
  obtain ⟨n1, n2⟩ := log2_spec _ hn
  obtain ⟨d1, d2⟩ := log2_spec _ hd
  have habs : |x| = (x.num.natAbs : ℚ) / (x.den : ℚ) := by
    conv_lhs => rw [← Rat.num_div_den x]
    rw [abs_div, Nat.abs_cast, Nat.cast_natAbs, Int.cast_abs]
  have hdpos : (0 : ℚ) < x.den := by exact_mod_cast hd
  have n1' : (2 : ℚ) ^ (log2 x.num.natAbs) ≤ (x.num.natAbs : ℚ) := by exact_mod_cast n1
  have n2' : (x.num.natAbs : ℚ) < (2 : ℚ) ^ (log2 x.num.natAbs + 1) := by exact_mod_cast n2
  have d1' : (2 : ℚ) ^ (log2 x.den) ≤ (x.den : ℚ) := by exact_mod_cast d1
  have d2' : (x.den : ℚ) < (2 : ℚ) ^ (log2 x.den + 1) := by exact_mod_cast d2
  have h2 : (0 : ℚ) < 2 := by norm_num
  unfold ilog2
  split_ifs with h
  · refine ⟨h, ?_⟩
    rw [habs, div_lt_iff₀ hdpos]
    calc (x.num.natAbs : ℚ) < (2 : ℚ) ^ (log2 x.num.natAbs + 1) := n2'
      _ = (2 : ℚ) ^ ((log2 x.num.natAbs : Int) - (log2 x.den : Int) + 1) * (2 : ℚ) ^ (log2 x.den) := by
        rw [← zpow_natCast, ← zpow_natCast, ← zpow_add₀ h2.ne']
        congr 1
        push_cast
        ring
      _ ≤ _ := by
        apply mul_le_mul_of_nonneg_left d1'
        positivity
  · push_neg at h
    constructor
    · rw [habs, le_div_iff₀ hdpos]
      calc (2 : ℚ) ^ ((log2 x.num.natAbs : Int) - (log2 x.den : Int) - 1) * (x.den : ℚ)
          ≤ (2 : ℚ) ^ ((log2 x.num.natAbs : Int) - (log2 x.den : Int) - 1) * (2 : ℚ) ^ (log2 x.den + 1) := by
            apply mul_le_mul_of_nonneg_left d2'.le
            positivity
        _ = (2 : ℚ) ^ (log2 x.num.natAbs) := by
            rw [← zpow_natCast, ← zpow_natCast, ← zpow_add₀ h2.ne']
            congr 1
            push_cast
            ring
        _ ≤ _ := n1'
    · rw [sub_add_cancel]
      exact h

theorem ilog2_mono {x y : ℚ} (hx : x ≠ 0) (hy : y ≠ 0) (h : |x| ≤ |y|) : ilog2 x ≤ ilog2 y := by
  have h1 := (ilog2_spec x hx).1
  have h2 := (ilog2_spec y hy).2
  have h3 : (2 : ℚ) ^ ilog2 x < (2 : ℚ) ^ (ilog2 y + 1) := lt_of_le_of_lt (h1.trans h) h2
  have := (zpow_lt_zpow_iff_right₀ (by norm_num : (1 : ℚ) < 2)).mp h3
  omega

theorem roundEven_zero : roundEven 0 = 0 := by
  have := roundEven_intCast 0
  simpa using this

theorem fround_nonneg (p : Nat) (emin : Int) {x : ℚ} (h : 0 ≤ x) : 0 ≤ fround p emin x := by
  unfold fround
  split_ifs with h0
  · exact le_rfl
  · apply mul_nonneg
    · have h1 : roundEven 0 ≤ roundEven (x / (2 : ℚ) ^ (max (ilog2 x) emin - ((p : Int) - 1))) :=
        roundEven_mono (div_nonneg h (by positivity))
      rw [roundEven_zero] at h1
      exact_mod_cast h1
    · positivity

/-- Rounding in the binade with exponent `e`, the common form of both sides. -/
theorem grid_le_pow (p : Nat) (e : Int) {x : ℚ} (h : x ≤ (2 : ℚ) ^ (e + 1)) :
    (roundEven (x / (2 : ℚ) ^ (e - ((p : Int) - 1))) : ℚ) * (2 : ℚ) ^ (e - ((p : Int) - 1))
      ≤ (2 : ℚ) ^ (e + 1) := by
  have h2 : (2 : ℚ) ≠ 0 := by norm_num
  have hpow : (((2 ^ p : Nat) : Int) : ℚ) * (2 : ℚ) ^ (e - ((p : Int) - 1)) = (2 : ℚ) ^ (e + 1) := by
    push_cast
    rw [← zpow_natCast, ← zpow_add₀ h2]
    congr 1
    ring
  have hdiv : x / (2 : ℚ) ^ (e - ((p : Int) - 1)) ≤ (((2 ^ p : Nat) : Int) : ℚ) := by
    rw [div_le_iff₀ (by positivity), hpow]
    exact h
  have h3 := roundEven_mono hdiv
  rw [roundEven_intCast] at h3
  rw [← hpow]
  apply mul_le_mul_of_nonneg_right _ (by positivity)
  exact_mod_cast h3

theorem pow_le_grid (p : Nat) (hp : 1 ≤ p) (e : Int) {y : ℚ} (h : (2 : ℚ) ^ e ≤ y) :
    (2 : ℚ) ^ e ≤
      (roundEven (y / (2 : ℚ) ^ (e - ((p : Int) - 1))) : ℚ) * (2 : ℚ) ^ (e - ((p : Int) - 1)) := by
  have h2 : (2 : ℚ) ≠ 0 := by norm_num
  have hpow : (((2 ^ (p - 1) : Nat) : Int) : ℚ) * (2 : ℚ) ^ (e - ((p : Int) - 1)) = (2 : ℚ) ^ e := by
    push_cast
    rw [← zpow_natCast, ← zpow_add₀ h2]
    congr 1
    rw [Nat.cast_sub hp]
    push_cast
    ring
  have hdiv : (((2 ^ (p - 1) : Nat) : Int) : ℚ) ≤ y / (2 : ℚ) ^ (e - ((p : Int) - 1)) := by
    rw [le_div_iff₀ (by positivity), hpow]
    exact h
  have h3 := roundEven_mono hdiv
  rw [roundEven_intCast] at h3
  rw [← hpow]
  apply mul_le_mul_of_nonneg_right _ (by positivity)
  exact_mod_cast h3

theorem fround_mono_pos (p : Nat) (hp : 1 ≤ p) (emin : Int) {x y : ℚ} (hx : 0 < x)
    (h : x ≤ y) : fround p emin x ≤ fround p emin y := by
  have hy : 0 < y := lt_of_lt_of_le hx h
  have hle : ilog2 x ≤ ilog2 y :=
    ilog2_mono hx.ne' hy.ne' (by rw [abs_of_pos hx, abs_of_pos hy]; exact h)
  unfold fround
  rw [if_neg hx.ne', if_neg hy.ne']
  have hexy : max (ilog2 x) emin ≤ max (ilog2 y) emin := max_le_max hle le_rfl
  rcases hexy.lt_or_eq with hlt | heq
  · have hxlt : x ≤ (2 : ℚ) ^ (max (ilog2 x) emin + 1) := by
      have h1 := (ilog2_spec x hx.ne').2
      rw [abs_of_pos hx] at h1
      exact h1.le.trans (zpow_le_zpow_right₀ (by norm_num)
        (by have := le_max_left (ilog2 x) emin; omega))
    have hey : max (ilog2 y) emin = ilog2 y := by
      have h1 : emin ≤ max (ilog2 x) emin := le_max_right _ _
      rcases max_cases (ilog2 y) emin with ⟨h2, _⟩ | ⟨h2, _⟩
      · exact h2
      · omega
    have hyge : (2 : ℚ) ^ (max (ilog2 y) emin) ≤ y := by
      rw [hey]
      have h1 := (ilog2_spec y hy.ne').1
      rwa [abs_of_pos hy] at h1
    calc _ ≤ (2 : ℚ) ^ (max (ilog2 x) emin + 1) := grid_le_pow p _ hxlt
      _ ≤ (2 : ℚ) ^ (max (ilog2 y) emin) := zpow_le_zpow_right₀ (by norm_num) (by omega)
      _ ≤ _ := pow_le_grid p hp _ hyge
  · rw [heq]
    apply mul_le_mul_of_nonneg_right _ (by positivity)
    have h1 := roundEven_mono (div_le_div_of_nonneg_right h
      (by positivity : (0 : ℚ) ≤ (2 : ℚ) ^ (max (ilog2 y) emin - ((p : Int) - 1))))
    exact_mod_cast h1

end Fp

namespace Rubik

variable {A : Angel}

/-! ## Basic facts -/

@[simp] theorem grid_rotate (c : Subcube A) (axis : Int) (angle : ℚ) :
    (c.rotate axis angle).grid = c.grid := rfl

@[simp] theorem isInSlice_rotate (c : Subcube A) (axis : Int) (angle : ℚ) (ax sl : Int) :
    (c.rotate axis angle).isInSlice ax sl = c.isInSlice ax sl := rfl

theorem isInSlice_eq (c : Subcube A) (axis slice : Int) :
    c.isInSlice axis slice = gridInSlice axis slice c.grid := rfl

theorem grid_updateGrid (axis slice direction : Int) (c : Subcube A)
    (h : c.isInSlice axis slice = true) :
    (updateGrid axis direction c).grid = gridMove axis slice direction c.grid := by
  rw [isInSlice_eq] at h
  unfold updateGrid gridMove Subcube.grid
  unfold Subcube.grid at h
  simp only [h, if_true]
  split_ifs <;> rfl

theorem gridMove_of_not_inSlice (axis slice direction : Int) (c : Subcube A)
    (h : ¬ c.isInSlice axis slice = true) :
    gridMove axis slice direction c.grid = c.grid := by
  rw [isInSlice_eq] at h
  unfold gridMove
  rw [if_neg h]

theorem gridOrder_eq : gridOrder =
    [(0,0,0),(0,0,1),(0,0,2),(0,1,0),(0,1,1),(0,1,2),(0,2,0),(0,2,1),(0,2,2),
     (1,0,0),(1,0,1),(1,0,2),(1,1,0),(1,1,1),(1,1,2),(1,2,0),(1,2,1),(1,2,2),
     (2,0,0),(2,0,1),(2,0,2),(2,1,0),(2,1,1),(2,1,2),(2,2,0),(2,2,1),(2,2,2)] := by
  decide

theorem mem_gridOrder (g : Int × Int × Int) :
    g ∈ gridOrder ↔
      (0 ≤ g.1 ∧ g.1 ≤ 2) ∧ (0 ≤ g.2.1 ∧ g.2.1 ≤ 2) ∧ (0 ≤ g.2.2 ∧ g.2.2 ≤ 2) := by
  constructor
  · revert g
    decide
  · obtain ⟨x, y, z⟩ := g
    intro h
    simp only at h
    have hx : x = 0 ∨ x = 1 ∨ x = 2 := by omega
    have hy : y = 0 ∨ y = 1 ∨ y = 2 := by omega
    have hz : z = 0 ∨ z = 1 ∨ z = 2 := by omega
    rcases hx with rfl | rfl | rfl <;> rcases hy with rfl | rfl | rfl <;>
      rcases hz with rfl | rfl | rfl <;> decide

theorem gridOrder_nodup : gridOrder.Nodup := by
  rw [gridOrder_eq]; decide

theorem gridMove_direction (axis slice direction : Int) :
    gridMove axis slice direction =
      gridMove axis slice (if direction > 0 then 1 else -1) := by
  funext g
  unfold gridMove
  by_cases hd : direction > 0
  · simp [hd]
  · simp [hd]

theorem gridMove_perm_gridOrder (axis slice direction : Int) :
    (gridOrder.map (gridMove axis slice direction)).Perm gridOrder := by
  by_cases hr : (0 ≤ axis ∧ axis ≤ 2) ∧ (0 ≤ slice ∧ slice ≤ 2)
  · have ha : axis = 0 ∨ axis = 1 ∨ axis = 2 := by omega
    have hs : slice = 0 ∨ slice = 1 ∨ slice = 2 := by omega
    rw [gridMove_direction]
    by_cases hd : direction > 0
    · rw [if_pos hd]
      rcases ha with rfl | rfl | rfl <;> rcases hs with rfl | rfl | rfl <;> decide
    · rw [if_neg hd]
      rcases ha with rfl | rfl | rfl <;> rcases hs with rfl | rfl | rfl <;> decide
  · have hid : ∀ g ∈ gridOrder, gridMove axis slice direction g = g := by
      intro g hg
      rw [mem_gridOrder] at hg
      unfold gridMove gridInSlice Xaxis Yaxis Zaxis
      split_ifs with h1 h2 h3 h4 h5 h6 <;> first | rfl | (exfalso; simp at *; done) | (exfalso; simp at *; omega)
    rw [List.map_congr_left hid]
    simp

/-! ## The branches of `update` -/

theorem startSliceRotation_active (axis slice direction : Int) (s : State A)
    (hr : s.isRotating = true) : startSliceRotation axis slice direction s = s := by
  simp [startSliceRotation, hr]

theorem startSliceRotation_idle (axis slice direction : Int) (s : State A)
    (hr : s.isRotating = false) :
    startSliceRotation axis slice direction s =
      { s with
        isRotating := true,
        rotatingSlice := slice,
        rotationAxis := axis,
        rotationDirection := direction,
        rotationAngle := 0 } := by
  simp [startSliceRotation, hr]

theorem subcubes_startSliceRotation (axis slice direction : Int) (s : State A) :
    (startSliceRotation axis slice direction s).subcubes = s.subcubes := by
  unfold startSliceRotation
  split_ifs <;> rfl

theorem subcubes_performRandomMove (s : State A) :
    (performRandomMove s).subcubes = s.subcubes := by
  unfold performRandomMove
  split_ifs
  · rfl
  · simp only [subcubes_startSliceRotation, rand]

theorem subcubes_startScrambling (moves : Int) (s : State A) :
    (startScrambling moves s).subcubes = s.subcubes := by
  unfold startScrambling
  split_ifs
  · rw [subcubes_performRandomMove]
  · rfl

theorem update_idle (s : State A) (hr : s.isRotating = false)
    (hs : s.isScrambling = false) : update s = s := by
  simp [update, hr, hs]

theorem update_step (s : State A) (hr : s.isRotating = true)
    (hc : s.completes = false) :
    update s =
      { s with
        rotationAngle := s.rotationAngle + s.rotationIncrement * (s.rotationDirection : ℚ),
        subcubes := s.subcubes.map (stepCube s) } := by
  simp only [State.completes, hr, Bool.true_and, decide_eq_false_iff_not] at hc
  simp only [update, hr, if_true, hc, if_false]
  rfl

theorem update_finish (s : State A) (hc : s.completes = true)
    (hs : s.isScrambling = false) :
    update s =
      { s with
        rotationAngle := s.rotationAngle + s.rotationIncrement * (s.rotationDirection : ℚ),
        subcubes := s.subcubes.map (finishCube s),
        isRotating := false } := by
  simp only [State.completes, Bool.and_eq_true, decide_eq_true_eq] at hc
  simp only [update, hc.1, if_true, hc.2, hs]
  rfl

theorem performRandomMove_idle (s : State A) (hr : s.isRotating = false) :
    performRandomMove s =
      { s with
        isRotating := true,
        rotatingSlice := ((s.randSeq (s.randPos + 1) % 3 : Nat) : Int),
        rotationAxis := ((s.randSeq s.randPos % 3 : Nat) : Int),
        rotationDirection := ((s.randSeq (s.randPos + 2) % 2 : Nat) : Int) * 2 - 1,
        rotationAngle := 0,
        randPos := s.randPos + 3 } := by
  simp [performRandomMove, hr, rand, startSliceRotation]

theorem update_finish_next (s : State A) (hc : s.completes = true)
    (hs : s.isScrambling = true)
    (hm : s.currentScramblingMove + 1 < s.maxScramblingMoves) :
    update s =
      performRandomMove
        { s with
          rotationAngle := s.rotationAngle + s.rotationIncrement * (s.rotationDirection : ℚ),
          subcubes := s.subcubes.map (finishCube s),
          isRotating := false,
          currentScramblingMove := s.currentScramblingMove + 1 } := by
  simp only [State.completes, Bool.and_eq_true, decide_eq_true_eq] at hc
  simp only [update, hc.1, if_true, hc.2, hs, hm]
  rfl

theorem update_finish_last (s : State A) (hc : s.completes = true)
    (hs : s.isScrambling = true)
    (hm : ¬ s.currentScramblingMove + 1 < s.maxScramblingMoves) :
    update s =
      { s with
        rotationAngle := s.rotationAngle + s.rotationIncrement * (s.rotationDirection : ℚ),
        subcubes := s.subcubes.map (finishCube s),
        isRotating := false,
        currentScramblingMove := s.currentScramblingMove + 1,
        isScrambling := false,
        rotationIncrement := 3 } := by
  simp only [State.completes, Bool.and_eq_true, decide_eq_true_eq] at hc
  simp only [update, hc.1, if_true, hc.2, hs, hm, if_false]
  rfl

theorem update_not_rotating (s : State A) (hr : s.isRotating = false) :
    (update s).subcubes = s.subcubes := by
  simp only [update, hr, Bool.false_eq_true, if_false]
  split_ifs
  · exact subcubes_performRandomMove s
  · rfl

/-! ## Grid tuples along a run -/

theorem grid_stepCube (s : State A) (c : Subcube A) : (stepCube s c).grid = c.grid := by
  unfold stepCube
  split_ifs <;> rfl

theorem grid_finishCube (s : State A) (c : Subcube A) :
    (finishCube s c).grid =
      gridMove s.rotationAxis s.rotatingSlice s.rotationDirection c.grid := by
  unfold finishCube
  by_cases h : c.isInSlice s.rotationAxis s.rotatingSlice = true
  · rw [if_pos h, grid_updateGrid _ s.rotatingSlice _ _ (by simpa using h), grid_rotate]
  · rw [if_neg h, gridMove_of_not_inSlice _ _ _ _ h]

theorem subcubes_update_completes (s : State A) (hc : s.completes = true) :
    (update s).subcubes = s.subcubes.map (finishCube s) := by
  by_cases hs : s.isScrambling = true
  · by_cases hm : s.currentScramblingMove + 1 < s.maxScramblingMoves
    · rw [update_finish_next s hc hs hm, subcubes_performRandomMove]
    · rw [update_finish_last s hc hs hm]
  · rw [update_finish s hc (by simpa using hs)]

theorem subcubes_update_not_completes (s : State A) (hc : s.completes = false) :
    (update s).subcubes = if s.isRotating then s.subcubes.map (stepCube s) else s.subcubes := by
  by_cases hr : s.isRotating = true
  · rw [update_step s hr hc, if_pos hr]
  · rw [update_not_rotating s (by simpa using hr), if_neg hr]

theorem grids_update (s : State A) :
    (update s).grids =
      if s.completes then
        s.grids.map (gridMove s.rotationAxis s.rotatingSlice s.rotationDirection)
      else s.grids := by
  unfold State.grids
  by_cases hc : s.completes = true
  · rw [subcubes_update_completes s hc, if_pos hc, List.map_map, List.map_map]
    apply List.map_congr_left
    intro c _
    exact grid_finishCube s c
  · rw [subcubes_update_not_completes s (by simpa using hc), if_neg hc]
    split_ifs
    · rw [List.map_map]
      apply List.map_congr_left
      intro c _
      exact grid_stepCube s c
    · rfl

theorem grids_initializeSubcubes (randSeq : Nat → Nat) :
    (initializeSubcubes (State.initial A randSeq)).grids = gridOrder := by
  rfl

theorem grids_perm_of_reachable {s : State A} (h : Reachable s) :
    s.grids.Perm gridOrder := by
  induction h with
  | init randSeq => rw [grids_initializeSubcubes]
  | rotation axis slice direction _ _ _ _ _ _ ih =>
    unfold State.grids at *
    rwa [subcubes_startSliceRotation]
  | scrambling moves _ ih =>
    unfold State.grids at *
    rwa [subcubes_startScrambling]
  | tick _ ih =>
    rw [grids_update]
    split_ifs
    · exact (ih.map _).trans (gridMove_perm_gridOrder _ _ _)
    · exact ih

/-! ## Permutation closure -/

/-- C1. Permutation closure: in every state reachable from
`initializeSubcubes()` by any interleaving of `startSliceRotation` calls (axis
and slice in 0..2, direction +1 or -1), `startScrambling` calls and `update`
ticks, the array holds 27 subcubes, their grid tuples are pairwise distinct, and
a tuple occurs among them exactly when each of its coordinates is 0, 1 or 2:
the set of grid tuples is the whole of {0,1,2}^3. -/
theorem permutation_closure (s : State A) (h : Reachable s) :
    s.subcubes.length = 27 ∧ s.grids.Nodup ∧
      ∀ g : Int × Int × Int, g ∈ s.grids ↔
        (0 ≤ g.1 ∧ g.1 ≤ 2) ∧ (0 ≤ g.2.1 ∧ g.2.1 ≤ 2) ∧ (0 ≤ g.2.2 ∧ g.2.2 ≤ 2) := by
  have hp := grids_perm_of_reachable h
  refine ⟨?_, hp.nodup_iff.mpr gridOrder_nodup, fun g => ?_⟩
  · have hl := hp.length_eq
    unfold State.grids at hl
    rw [List.length_map] at hl
    rw [hl]
    rfl
  · rw [hp.mem_iff, mem_gridOrder]

/-- Witness of C1: the state one tick after a rotation request on the freshly
initialised cube is reachable, and the invariant holds there. -/
theorem permutation_closure_witness :
    Reachable (update (startSliceRotation 0 0 1
        (initializeSubcubes (State.initial Angel.turns fun _ => 0)))) ∧
      ((update (startSliceRotation 0 0 1
        (initializeSubcubes (State.initial Angel.turns fun _ => 0)))).subcubes.length = 27 ∧
       (update (startSliceRotation 0 0 1
        (initializeSubcubes (State.initial Angel.turns fun _ => 0)))).grids.Nodup ∧
       ∀ g : Int × Int × Int,
        g ∈ (update (startSliceRotation 0 0 1
          (initializeSubcubes (State.initial Angel.turns fun _ => 0)))).grids ↔
        (0 ≤ g.1 ∧ g.1 ≤ 2) ∧ (0 ≤ g.2.1 ∧ g.2.1 ≤ 2) ∧ (0 ≤ g.2.2 ∧ g.2.2 ≤ 2)) :=
  ⟨Reachable.tick (Reachable.rotation 0 0 1 (Reachable.init _)
      (by decide) (by decide) (by decide) (by decide) (by decide)),
   permutation_closure _ (Reachable.tick (Reachable.rotation 0 0 1 (Reachable.init _)
      (by decide) (by decide) (by decide) (by decide) (by decide)))⟩

/-! ## Parameters of the active rotation -/

/-- The parameters of a rotation are well formed: axis and slice in 0..2 and
direction +1 or -1. -/
theorem performRandomMove_params (s : State A) (hr : s.isRotating = false) :
    (performRandomMove s).isRotating = true ∧
    (0 ≤ (performRandomMove s).rotationAxis ∧ (performRandomMove s).rotationAxis ≤ 2) ∧
    (0 ≤ (performRandomMove s).rotatingSlice ∧ (performRandomMove s).rotatingSlice ≤ 2) ∧
    ((performRandomMove s).rotationDirection = 1 ∨
      (performRandomMove s).rotationDirection = -1) ∧
    (performRandomMove s).rotationAngle = 0 := by
  rw [performRandomMove_idle s hr]
  simp only
  refine ⟨trivial, ?_, ?_, ?_, trivial⟩ <;> omega

theorem params_of_reachable {s : State A} (h : Reachable s) (hr : s.isRotating = true) :
    (0 ≤ s.rotationAxis ∧ s.rotationAxis ≤ 2) ∧
    (0 ≤ s.rotatingSlice ∧ s.rotatingSlice ≤ 2) ∧
    (s.rotationDirection = 1 ∨ s.rotationDirection = -1) := by
  induction h with
  | init randSeq => exact absurd hr (by simp [initializeSubcubes, State.initial])
  | @rotation s axis slice direction _ ha0 ha2 hs0 hs2 hd ih =>
    by_cases h0 : s.isRotating = true
    · rw [startSliceRotation_active axis slice direction s h0] at hr ⊢
      exact ih hr
    · rw [startSliceRotation_idle axis slice direction s (by simpa using h0)]
      exact ⟨⟨ha0, ha2⟩, ⟨hs0, hs2⟩, hd⟩
  | @scrambling s moves _ ih =>
    unfold startScrambling at hr ⊢
    by_cases h0 : (!s.isScrambling && !s.isRotating) = true
    · rw [if_pos h0]
      have h1 : s.isRotating = false := by
        simp only [Bool.and_eq_true, Bool.not_eq_true'] at h0
        exact h0.2
      have := performRandomMove_params
        { s with isScrambling := true, maxScramblingMoves := moves,
                 currentScramblingMove := 0 } h1
      exact ⟨this.2.1, this.2.2.1, this.2.2.2.1⟩
    · rw [if_neg h0] at hr ⊢
      exact ih hr
  | @tick s _ ih =>
    by_cases hc : s.completes = true
    · by_cases hs : s.isScrambling = true
      · by_cases hm : s.currentScramblingMove + 1 < s.maxScramblingMoves
        · rw [update_finish_next s hc hs hm]
          have := performRandomMove_params
            { s with
              rotationAngle := s.rotationAngle + s.rotationIncrement * (s.rotationDirection : ℚ),
              subcubes := s.subcubes.map (finishCube s),
              isRotating := false,
              currentScramblingMove := s.currentScramblingMove + 1 } rfl
          exact ⟨this.2.1, this.2.2.1, this.2.2.2.1⟩
        · rw [update_finish_last s hc hs hm] at hr
          exact absurd hr (by simp)
      · rw [update_finish s hc (by simpa using hs)] at hr
        exact absurd hr (by simp)
    · by_cases h0 : s.isRotating = true
      · rw [update_step s h0 (by simpa using hc)]
        exact ih h0
      · have h1 : s.isRotating = false := by simpa using h0
        simp only [update, h1, Bool.false_eq_true, if_false] at hr ⊢
        split_ifs at hr ⊢
        · have := performRandomMove_params s h1
          exact ⟨this.2.1, this.2.2.1, this.2.2.2.1⟩
        · exact absurd hr (by simp [h1])

/-! ## The completing tick -/

theorem axis_of_gridInSlice (g : Int × Int × Int) (axis slice : Int)
    (h : gridInSlice axis slice g = true) : axis = 0 ∨ axis = 1 ∨ axis = 2 := by
  simp only [gridInSlice, Xaxis, Yaxis, Zaxis] at h
  split_ifs at h with h0 h1 h2
  · exact Or.inl h0
  · exact Or.inr (Or.inl h1)
  · exact Or.inr (Or.inr h2)

theorem gridMove_eq_spec (g : Int × Int × Int) (axis slice direction : Int)
    (h : gridInSlice axis slice g = true) (hd : direction = 1 ∨ direction = -1) :
    gridMove axis slice direction g = specPermutation axis direction g := by
  have ha := axis_of_gridInSlice g axis slice h
  obtain ⟨x, y, z⟩ := g
  simp only [gridMove, h, if_true, specPermutation, Xaxis, Yaxis, Zaxis]
  rcases ha with rfl | rfl | rfl <;> rcases hd with rfl | rfl <;> simp

theorem gridInSlice_gridMove (g : Int × Int × Int) (axis slice direction : Int) :
    gridInSlice axis slice (gridMove axis slice direction g) = gridInSlice axis slice g := by
  by_cases h : gridInSlice axis slice g = true
  · have ha := axis_of_gridInSlice g axis slice h
    rw [h]
    obtain ⟨x, y, z⟩ := g
    simp only [gridMove, h, if_true]
    rcases ha with rfl | rfl | rfl <;>
      simp [gridInSlice, Xaxis, Yaxis, Zaxis] at h ⊢ <;> split_ifs <;> exact h
  · unfold gridMove
    rw [if_neg h]

theorem axis_coordinate_gridMove (g : Int × Int × Int) (axis slice direction : Int) :
    (axis = 0 → (gridMove axis slice direction g).1 = g.1) ∧
    (axis = 1 → (gridMove axis slice direction g).2.1 = g.2.1) ∧
    (axis = 2 → (gridMove axis slice direction g).2.2 = g.2.2) := by
  obtain ⟨x, y, z⟩ := g
  simp only [gridMove, Xaxis, Yaxis, Zaxis]
  refine ⟨fun h => ?_, fun h => ?_, fun h => ?_⟩ <;> subst h <;> split_ifs <;>
    first | rfl | (exfalso; omega)

theorem slice_count_of_perm (l : List (Int × Int × Int)) (hp : l.Perm gridOrder)
    (axis slice : Int) (ha : 0 ≤ axis ∧ axis ≤ 2) (hs : 0 ≤ slice ∧ slice ≤ 2) :
    l.countP (gridInSlice axis slice) = 9 := by
  rw [hp.countP_eq]
  have ha' : axis = 0 ∨ axis = 1 ∨ axis = 2 := by omega
  have hs' : slice = 0 ∨ slice = 1 ∨ slice = 2 := by omega
  rcases ha' with rfl | rfl | rfl <;> rcases hs' with rfl | rfl | rfl <;> decide

theorem slice_count_of_reachable {s : State A} (h : Reachable s)
    (hr : s.isRotating = true) :
    s.subcubes.countP (fun c => c.isInSlice s.rotationAxis s.rotatingSlice) = 9 := by
  obtain ⟨ha, hs, _⟩ := params_of_reachable h hr
  have := slice_count_of_perm s.grids (grids_perm_of_reachable h) _ _ ha hs
  unfold State.grids at this
  rw [List.countP_map] at this
  rw [← this]
  rfl

theorem sampleTurning_completes : sampleTurning.completes = true := by
  simp only [State.completes, sampleTurning, initializeSubcubes, State.initial]
  norm_num

/-- C2. On the tick of `update` that completes a rotation (direction +1 or -1),
every cube of the slice gets the grid tuple given by the fixed permutation of
the specification (`specPermutation`), the coordinate along the rotation axis
is unchanged, and a cube is in the slice after the tick exactly when it was
before; in a reachable state the slice has 9 cubes before and after. -/
theorem completion_permutes_slice (s : State A) (hc : s.completes = true)
    (hd : s.rotationDirection = 1 ∨ s.rotationDirection = -1) :
    (∀ (i : Nat) (c : Subcube A), s.subcubes[i]? = some c →
      ∃ c' : Subcube A, (update s).subcubes[i]? = some c' ∧
        c'.isInSlice s.rotationAxis s.rotatingSlice =
          c.isInSlice s.rotationAxis s.rotatingSlice ∧
        (c.isInSlice s.rotationAxis s.rotatingSlice = true →
          c'.grid = specPermutation s.rotationAxis s.rotationDirection c.grid ∧
          (s.rotationAxis = 0 → c'.x = c.x) ∧
          (s.rotationAxis = 1 → c'.y = c.y) ∧
          (s.rotationAxis = 2 → c'.z = c.z))) ∧
    (Reachable s →
      s.subcubes.countP (fun c => c.isInSlice s.rotationAxis s.rotatingSlice) = 9 ∧
      (update s).subcubes.countP
        (fun c => c.isInSlice s.rotationAxis s.rotatingSlice) = 9) := by
  have hsub := subcubes_update_completes s hc
  have hin : ∀ c : Subcube A,
      (finishCube s c).isInSlice s.rotationAxis s.rotatingSlice =
        c.isInSlice s.rotationAxis s.rotatingSlice := by
    intro c
    rw [isInSlice_eq, isInSlice_eq, grid_finishCube, gridInSlice_gridMove]
  refine ⟨fun i c hi => ⟨finishCube s c, ?_, hin c, fun hsl => ⟨?_, ?_⟩⟩, fun hreach => ?_⟩
  · rw [hsub, List.getElem?_map, hi]
    rfl
  · rw [grid_finishCube]
    exact gridMove_eq_spec _ _ _ _ (by rwa [isInSlice_eq] at hsl) hd
  · have h1 := axis_coordinate_gridMove c.grid s.rotationAxis s.rotatingSlice
      s.rotationDirection
    rw [← grid_finishCube] at h1
    exact h1
  · have hr : s.isRotating = true := by
      simp only [State.completes, Bool.and_eq_true] at hc
      exact hc.1
    have h9 := slice_count_of_reachable hreach hr
    refine ⟨h9, ?_⟩
    rw [hsub, List.countP_map]
    rw [← h9]
    apply List.countP_congr
    intro c _
    simp only [Function.comp, hin]

/-- Witness of C2 at `sampleTurning`, whose next tick completes a rotation of
slice 0 about X in direction +1. -/
theorem completion_permutes_slice_witness :
    sampleTurning.completes = true ∧
    (sampleTurning.rotationDirection = 1 ∨ sampleTurning.rotationDirection = -1) ∧
    ((∀ (i : Nat) (c : Subcube Angel.turns), sampleTurning.subcubes[i]? = some c →
      ∃ c' : Subcube Angel.turns, (update sampleTurning).subcubes[i]? = some c' ∧
        c'.isInSlice sampleTurning.rotationAxis sampleTurning.rotatingSlice =
          c.isInSlice sampleTurning.rotationAxis sampleTurning.rotatingSlice ∧
        (c.isInSlice sampleTurning.rotationAxis sampleTurning.rotatingSlice = true →
          c'.grid =
            specPermutation sampleTurning.rotationAxis sampleTurning.rotationDirection c.grid ∧
          (sampleTurning.rotationAxis = 0 → c'.x = c.x) ∧
          (sampleTurning.rotationAxis = 1 → c'.y = c.y) ∧
          (sampleTurning.rotationAxis = 2 → c'.z = c.z))) ∧
    (Reachable sampleTurning →
      sampleTurning.subcubes.countP
        (fun c => c.isInSlice sampleTurning.rotationAxis sampleTurning.rotatingSlice) = 9 ∧
      (update sampleTurning).subcubes.countP
        (fun c => c.isInSlice sampleTurning.rotationAxis sampleTurning.rotatingSlice) = 9)) :=
  ⟨sampleTurning_completes, Or.inl rfl,
    completion_permutes_slice sampleTurning sampleTurning_completes (Or.inl rfl)⟩

/-! ## A quarter turn at a constant increment -/

theorem ticks_succ (n : Nat) (s : State A) : ticks (n + 1) s = update (ticks n s) := by
  unfold ticks
  rw [Function.iterate_succ_apply']

theorem ticks_add (m n : Nat) (s : State A) : ticks (m + n) s = ticks m (ticks n s) := by
  unfold ticks
  rw [Function.iterate_add_apply]

theorem abs_turn (x : ℚ) (d : Int) (hd : d = 1 ∨ d = -1) : |x * (d : ℚ)| = |x| := by
  rcases hd with rfl | rfl <;> simp

theorem lt_of_lt_stepTicks (inc : ℚ) (hinc : 0 < inc) (k : Nat) (hk : k < stepTicks inc) :
    (k : ℚ) * inc < 90 := by
  unfold stepTicks at hk
  have h1 : (k : ℤ) < ⌈90 / inc⌉ := Int.lt_toNat.mp hk
  have h2 : ((k : ℤ) : ℚ) < 90 / inc := Int.lt_ceil.mp h1
  have h3 : (k : ℚ) < 90 / inc := by exact_mod_cast h2
  exact (lt_div_iff₀ hinc).mp h3

theorem stepTicks_le (inc : ℚ) (hinc : 0 < inc) : 90 ≤ (stepTicks inc : ℚ) * inc := by
  unfold stepTicks
  have h0 : (0 : ℤ) ≤ ⌈90 / inc⌉ := Int.ceil_nonneg (div_nonneg (by norm_num) hinc.le)
  have h1 : 90 / inc ≤ ((⌈90 / inc⌉ : ℤ) : ℚ) := Int.le_ceil _
  have h2 : ((⌈90 / inc⌉.toNat : ℕ) : ℚ) = ((⌈90 / inc⌉ : ℤ) : ℚ) := by
    have := Int.toNat_of_nonneg h0
    exact_mod_cast this
  rw [h2]
  exact (div_le_iff₀ hinc).mp h1

theorem midTurn_completes (s : State A)
    (hr : s.isRotating = true)
    (hd : s.rotationDirection = 1 ∨ s.rotationDirection = -1)
    (hinc : 0 < s.rotationIncrement) (k : Nat) :
    (midTurn s k).completes = decide (stepTicks s.rotationIncrement ≤ k) := by
  have habs : |(k : ℚ) * (s.rotationIncrement * (s.rotationDirection : ℚ)) +
      s.rotationIncrement * (s.rotationDirection : ℚ)| =
      (k : ℚ) * s.rotationIncrement + s.rotationIncrement := by
    have : (k : ℚ) * (s.rotationIncrement * (s.rotationDirection : ℚ)) +
        s.rotationIncrement * (s.rotationDirection : ℚ) =
        ((k : ℚ) * s.rotationIncrement + s.rotationIncrement) * (s.rotationDirection : ℚ) := by
      ring
    rw [this, abs_turn _ _ hd, abs_of_nonneg]
    positivity
  simp only [State.completes, midTurn, hr, Bool.true_and, habs]
  by_cases hk : stepTicks s.rotationIncrement ≤ k
  · have h1 := stepTicks_le s.rotationIncrement hinc
    have h2 : (stepTicks s.rotationIncrement : ℚ) ≤ (k : ℚ) := by exact_mod_cast hk
    have h3 : (stepTicks s.rotationIncrement : ℚ) * s.rotationIncrement ≤
        (k : ℚ) * s.rotationIncrement := mul_le_mul_of_nonneg_right h2 hinc.le
    simp only [hk, decide_True, decide_eq_true_eq, ge_iff_le]
    linarith
  · have h1 := lt_of_lt_stepTicks s.rotationIncrement hinc k (by omega)
    simp only [hk, decide_False, decide_eq_false_iff_not, ge_iff_le, not_le]
    linarith

theorem ticks_eq_midTurn (s : State A)
    (hr : s.isRotating = true) (h0 : s.rotationAngle = 0)
    (hd : s.rotationDirection = 1 ∨ s.rotationDirection = -1)
    (hinc : 0 < s.rotationIncrement) (k : Nat) (hk : k ≤ stepTicks s.rotationIncrement) :
    ticks k s = midTurn s k := by
  induction k with
  | zero =>
    unfold ticks midTurn
    cases s
    simp at h0
    simp [h0]
  | succ k ih =>
    rw [ticks_succ, ih (by omega)]
    have hc : (midTurn s k).completes = false := by
      rw [midTurn_completes s hr hd hinc]
      simp
      omega
    rw [update_step (midTurn s k) hr hc]
    unfold midTurn
    simp only
    congr 1
    · push_cast; ring
    · rw [List.map_map]
      apply List.map_congr_left
      intro c _
      rw [Function.iterate_succ_apply']
      rfl

theorem midTurn_isRotating (s : State A) (k : Nat) :
    (midTurn s k).isRotating = s.isRotating := rfl

theorem midTurn_grids (s : State A) (k : Nat) : (midTurn s k).grids = s.grids := by
  unfold State.grids midTurn
  simp only [List.map_map]
  apply List.map_congr_left
  intro c _
  induction k with
  | zero => rfl
  | succ k ih =>
    rw [Function.comp_apply] at ih ⊢
    rw [Function.iterate_succ_apply', grid_stepCube, ih]

/-- A rotation that has just been requested: active, at angle 0, direction +1
or -1, with a positive increment. -/
theorem ticks_turn (s : State A)
    (hr : s.isRotating = true) (h0 : s.rotationAngle = 0)
    (hd : s.rotationDirection = 1 ∨ s.rotationDirection = -1)
    (hinc : 0 < s.rotationIncrement) :
    (∀ k, k ≤ stepTicks s.rotationIncrement → (ticks k s).isRotating = true ∧
      (ticks k s).completes = decide (k = stepTicks s.rotationIncrement) ∧
      (ticks k s).grids = s.grids) ∧
    ticks (stepTicks s.rotationIncrement + 1) s =
      update (midTurn s (stepTicks s.rotationIncrement)) ∧
    (midTurn s (stepTicks s.rotationIncrement)).completes = true := by
  refine ⟨fun k hk => ?_, ?_, ?_⟩
  · rw [ticks_eq_midTurn s hr h0 hd hinc k hk, midTurn_completes s hr hd hinc,
      midTurn_grids]
    refine ⟨hr, ?_, rfl⟩
    by_cases h : k = stepTicks s.rotationIncrement
    · simp [h]
    · have : ¬ stepTicks s.rotationIncrement ≤ k := by omega
      simp [h, this]
  · rw [ticks_succ, ticks_eq_midTurn s hr h0 hd hinc _ le_rfl]
  · rw [midTurn_completes s hr hd hinc]
    simp

theorem tickUntilIdle_eq (n : Nat) : ∀ (fuel : Nat) (s : State A),
    (∀ k, k < n → (ticks k s).isRotating = true) →
    (ticks n s).isRotating = false → n ≤ fuel →
    tickUntilIdle fuel s = some (ticks n s) := by
  induction n with
  | zero =>
    intro fuel s _ h2 _
    have h2' : s.isRotating = false := h2
    cases fuel <;> simp [tickUntilIdle, h2', ticks]
  | succ n ih =>
    intro fuel s h1 h2 hf
    obtain ⟨f, rfl⟩ : ∃ f, fuel = f + 1 := ⟨fuel - 1, by omega⟩
    have hr : s.isRotating = true := h1 0 (by omega)
    have hshift : ∀ k, ticks k (update s) = ticks (k + 1) s := by
      intro k
      unfold ticks
      rw [Function.iterate_succ_apply]
    simp only [tickUntilIdle, hr, if_true]
    rw [ih f (update s) (fun k hk => by rw [hshift]; exact h1 (k + 1) (by omega))
      (by rw [hshift]; exact h2) (by omega), hshift]

theorem quarter_turn (s : State A)
    (hr : s.isRotating = true) (h0 : s.rotationAngle = 0)
    (hd : s.rotationDirection = 1 ∨ s.rotationDirection = -1)
    (hinc : 0 < s.rotationIncrement) (hs : s.isScrambling = false)
    (fuel : Nat) (hf : stepTicks s.rotationIncrement + 1 ≤ fuel) :
    tickUntilIdle fuel s = some (ticks (stepTicks s.rotationIncrement + 1) s) ∧
    (ticks (stepTicks s.rotationIncrement + 1) s).isRotating = false ∧
    (ticks (stepTicks s.rotationIncrement + 1) s).isScrambling = false ∧
    (ticks (stepTicks s.rotationIncrement + 1) s).rotationIncrement = s.rotationIncrement ∧
    (ticks (stepTicks s.rotationIncrement + 1) s).grids =
      s.grids.map (gridMove s.rotationAxis s.rotatingSlice s.rotationDirection) := by
  obtain ⟨hk, hlast, hc⟩ := ticks_turn s hr h0 hd hinc
  have hfin := update_finish (midTurn s (stepTicks s.rotationIncrement)) hc hs
  have hg := grids_update (midTurn s (stepTicks s.rotationIncrement))
  rw [if_pos hc, midTurn_grids] at hg
  have hrot : (ticks (stepTicks s.rotationIncrement + 1) s).isRotating = false := by
    rw [hlast, hfin]
  refine ⟨?_, hrot, ?_, ?_, ?_⟩
  · exact tickUntilIdle_eq _ fuel s (fun k hk' => (hk k (by omega)).1) hrot hf
  · rw [hlast, hfin]; exact hs
  · rw [hlast, hfin]; rfl
  · rw [hlast, hg]; rfl

theorem rotateToCompletion_idle (s : State A)
    (hr : s.isRotating = false) (hs : s.isScrambling = false)
    (hinc : 0 < s.rotationIncrement) (axis slice direction : Int)
    (hd : direction = 1 ∨ direction = -1)
    (fuel : Nat) (hf : stepTicks s.rotationIncrement + 1 ≤ fuel) :
    ∃ s' : State A, rotateToCompletion fuel axis slice direction s = some s' ∧
      s' = ticks (stepTicks s.rotationIncrement + 1)
        (startSliceRotation axis slice direction s) ∧
      s'.isRotating = false ∧ s'.isScrambling = false ∧
      s'.rotationIncrement = s.rotationIncrement ∧
      s'.grids = s.grids.map (gridMove axis slice direction) := by
  have h := quarter_turn (startSliceRotation axis slice direction s)
    (by rw [startSliceRotation_idle _ _ _ s hr])
    (by rw [startSliceRotation_idle _ _ _ s hr])
    (by rw [startSliceRotation_idle _ _ _ s hr]; exact hd)
    (by rw [startSliceRotation_idle _ _ _ s hr]; exact hinc)
    (by rw [startSliceRotation_idle _ _ _ s hr]; exact hs)
    fuel (by rw [startSliceRotation_idle _ _ _ s hr]; exact hf)
  have hinc' : (startSliceRotation axis slice direction s).rotationIncrement =
      s.rotationIncrement := by rw [startSliceRotation_idle _ _ _ s hr]
  rw [hinc'] at h
  refine ⟨_, h.1, rfl, h.2.1, h.2.2.1, h.2.2.2.1, ?_⟩
  rw [h.2.2.2.2, startSliceRotation_idle _ _ _ s hr]
  rfl

/-! ## Algebra of the grid permutation -/

theorem gridMove_X (x y z d : Int) :
    gridMove 0 x d (x, y, z) = if d > 0 then (x, 2 - z, y) else (x, z, 2 - y) := by
  simp [gridMove, gridInSlice, Xaxis]

theorem gridMove_Y (x y z d : Int) :
    gridMove 1 y d (x, y, z) = if d > 0 then (z, y, 2 - x) else (2 - z, y, x) := by
  simp [gridMove, gridInSlice, Xaxis, Yaxis]

theorem gridMove_Z (x y z d : Int) :
    gridMove 2 z d (x, y, z) = if d > 0 then (2 - y, x, z) else (y, 2 - x, z) := by
  simp [gridMove, gridInSlice, Xaxis, Yaxis, Zaxis]

theorem gridMove_not_inSlice (axis slice direction : Int) (g : Int × Int × Int)
    (h : ¬ gridInSlice axis slice g = true) : gridMove axis slice direction g = g := by
  unfold gridMove
  rw [if_neg h]

theorem slice_of_gridInSlice (g : Int × Int × Int) (axis slice : Int)
    (h : gridInSlice axis slice g = true) :
    (axis = 0 ∧ slice = g.1) ∨ (axis = 1 ∧ slice = g.2.1) ∨ (axis = 2 ∧ slice = g.2.2) := by
  rcases axis_of_gridInSlice g axis slice h with rfl | rfl | rfl <;>
    simp [gridInSlice, Xaxis, Yaxis, Zaxis] at h <;> simp [h]

theorem gridMove_round_trip (axis slice : Int) (g : Int × Int × Int) :
    gridMove axis slice (-1) (gridMove axis slice 1 g) = g := by
  by_cases h : gridInSlice axis slice g = true
  · obtain ⟨x, y, z⟩ := g
    rcases slice_of_gridInSlice _ _ _ h with ⟨rfl, rfl⟩ | ⟨rfl, rfl⟩ | ⟨rfl, rfl⟩
    · simp [gridMove_X]
    · simp [gridMove_Y]
    · simp [gridMove_Z]
  · rw [gridMove_not_inSlice _ _ _ _ h, gridMove_not_inSlice _ _ _ _ h]

theorem gridMove_four (axis slice : Int) (g : Int × Int × Int) :
    (gridMove axis slice 1)^[4] g = g := by
  simp only [Function.iterate_succ, Function.iterate_zero, Function.comp, id]
  by_cases h : gridInSlice axis slice g = true
  · obtain ⟨x, y, z⟩ := g
    rcases slice_of_gridInSlice _ _ _ h with ⟨rfl, rfl⟩ | ⟨rfl, rfl⟩ | ⟨rfl, rfl⟩
    · simp [gridMove_X]
    · simp [gridMove_Y]
    · simp [gridMove_Z]
  · simp only [gridMove_not_inSlice _ _ _ _ h]

/-- The corner tuple of a slice that a quarter turn moves. -/
theorem gridMove_moves_corner (axis slice : Int)
    (ha : 0 ≤ axis ∧ axis ≤ 2) (hs : 0 ≤ slice ∧ slice ≤ 2) :
    ∃ g ∈ gridOrder, ∀ k, 1 ≤ k → k ≤ 3 → (gridMove axis slice 1)^[k] g ≠ g := by
  have ha' : axis = 0 ∨ axis = 1 ∨ axis = 2 := by omega
  have hs' : slice = 0 ∨ slice = 1 ∨ slice = 2 := by omega
  have hk : ∀ k : Nat, 1 ≤ k → k ≤ 3 → k = 1 ∨ k = 2 ∨ k = 3 := by omega
  rcases ha' with rfl | rfl | rfl
  · refine ⟨(slice, 0, 0), by rcases hs' with rfl | rfl | rfl <;> decide, fun k h1 h3 => ?_⟩
    rcases hk k h1 h3 with rfl | rfl | rfl <;> rcases hs' with rfl | rfl | rfl <;> decide
  · refine ⟨(0, slice, 0), by rcases hs' with rfl | rfl | rfl <;> decide, fun k h1 h3 => ?_⟩
    rcases hk k h1 h3 with rfl | rfl | rfl <;> rcases hs' with rfl | rfl | rfl <;> decide
  · refine ⟨(0, 0, slice), by rcases hs' with rfl | rfl | rfl <;> decide, fun k h1 h3 => ?_⟩
    rcases hk k h1 h3 with rfl | rfl | rfl <;> rcases hs' with rfl | rfl | rfl <;> decide

theorem eq_of_map_eq_self {α : Type} (f : α → α) :
    ∀ l : List α, l.map f = l → ∀ x ∈ l, f x = x := by
  intro l
  induction l with
  | nil => intro _ x hx; cases hx
  | cons a l ih =>
    intro h x hx
    rw [List.map_cons, List.cons.injEq] at h
    rcases List.mem_cons.mp hx with rfl | hx'
    · exact h.1
    · exact ih h.2 x hx'

/-! ## Rotations run to completion -/

theorem repeatRotation_idle (axis slice direction : Int)
    (hd : direction = 1 ∨ direction = -1) (fuel : Nat) (n : Nat) :
    ∀ s : State A, s.isRotating = false → s.isScrambling = false →
      0 < s.rotationIncrement → stepTicks s.rotationIncrement + 1 ≤ fuel →
      ∃ s' : State A, repeatRotation fuel axis slice direction n s = some s' ∧
        s'.isRotating = false ∧ s'.isScrambling = false ∧
        s'.rotationIncrement = s.rotationIncrement ∧
        s'.grids = s.grids.map (gridMove axis slice direction)^[n] := by
  induction n with
  | zero =>
    intro s hr hs _ _
    exact ⟨s, rfl, hr, hs, rfl, by simp⟩
  | succ n ih =>
    intro s hr hs hinc hf
    obtain ⟨s1, h1, -, hr1, hs1, hi1, hg1⟩ :=
      rotateToCompletion_idle s hr hs hinc axis slice direction hd fuel hf
    obtain ⟨s2, h2, hr2, hs2, hi2, hg2⟩ :=
      ih s1 hr1 hs1 (by rw [hi1]; exact hinc) (by rw [hi1]; exact hf)
    refine ⟨s2, ?_, hr2, hs2, hi2.trans hi1, ?_⟩
    · simp only [repeatRotation, h1, Option.some_bind, h2]
    · rw [hg2, hg1, List.map_map, Function.iterate_succ]

/-- C3. Round trip: from an idle state (no rotation active, no scramble in
progress, positive increment), for every axis and slice and every grid
assignment, running the rotation (axis, slice, +1) to completion and then
(axis, slice, -1) to completion succeeds and restores the grid tuple of every
cube to its value before the first rotation. -/
theorem round_trip (s : State A)
    (hr : s.isRotating = false) (hs : s.isScrambling = false)
    (hinc : 0 < s.rotationIncrement) (axis slice : Int)
    (fuel : Nat) (hf : stepTicks s.rotationIncrement + 1 ≤ fuel) :
    ∃ s1 s2 : State A,
      rotateToCompletion fuel axis slice 1 s = some s1 ∧
      rotateToCompletion fuel axis slice (-1) s1 = some s2 ∧
      s1.isRotating = false ∧ s2.isRotating = false ∧
      s2.grids = s.grids := by
  obtain ⟨s1, h1, -, hr1, hs1, hi1, hg1⟩ :=
    rotateToCompletion_idle s hr hs hinc axis slice 1 (Or.inl rfl) fuel hf
  obtain ⟨s2, h2, -, hr2, -, -, hg2⟩ :=
    rotateToCompletion_idle s1 hr1 hs1 (by rw [hi1]; exact hinc) axis slice (-1)
      (Or.inr rfl) fuel (by rw [hi1]; exact hf)
  refine ⟨s1, s2, h1, h2, hr1, hr2, ?_⟩
  rw [hg2, hg1, List.map_map]
  conv_rhs => rw [← List.map_id s.grids]
  apply List.map_congr_left
  intro g _
  exact gridMove_round_trip axis slice g

/-- C4. Four-fold identity: from an idle state, for every axis and slice,
running the rotation (axis, slice, +1) to completion four times in a row
succeeds and returns every cube's grid tuple to its original value; and when
the grid tuples are a permutation of {0,1,2}^3 and axis and slice lie in 0..2,
after 1, 2 or 3 repetitions some cube's grid tuple differs from its original
value. -/
theorem fourfold_identity (s : State A)
    (hr : s.isRotating = false) (hs : s.isScrambling = false)
    (hinc : 0 < s.rotationIncrement) (axis slice : Int)
    (fuel : Nat) (hf : stepTicks s.rotationIncrement + 1 ≤ fuel) :
    (∃ s4 : State A, repeatRotation fuel axis slice 1 4 s = some s4 ∧
      s4.isRotating = false ∧ s4.grids = s.grids) ∧
    (s.grids.Perm gridOrder → 0 ≤ axis ∧ axis ≤ 2 → 0 ≤ slice ∧ slice ≤ 2 →
      ∀ k : Nat, 1 ≤ k → k ≤ 3 →
        ∃ sk : State A, repeatRotation fuel axis slice 1 k s = some sk ∧
          sk.grids ≠ s.grids) := by
  constructor
  · obtain ⟨s4, h4, hr4, -, -, hg4⟩ :=
      repeatRotation_idle axis slice 1 (Or.inl rfl) fuel 4 s hr hs hinc hf
    refine ⟨s4, h4, hr4, ?_⟩
    rw [hg4]
    conv_rhs => rw [← List.map_id s.grids]
    apply List.map_congr_left
    intro g _
    exact gridMove_four axis slice g
  · intro hp ha hsl k hk1 hk3
    obtain ⟨sk, hk, -, -, -, hgk⟩ :=
      repeatRotation_idle axis slice 1 (Or.inl rfl) fuel k s hr hs hinc hf
    refine ⟨sk, hk, fun heq => ?_⟩
    obtain ⟨g, hg, hmove⟩ := gridMove_moves_corner axis slice ha hsl
    rw [hgk] at heq
    exact hmove k hk1 hk3 (eq_of_map_eq_self _ _ heq g (hp.mem_iff.mpr hg))

/-! ## Evaluation on concrete states -/

theorem stepTicks_three : stepTicks 3 = 30 := by
  unfold stepTicks
  have h : ⌈(90 : ℚ) / 3⌉ = 30 := by
    rw [Int.ceil_eq_iff]
    norm_num
  rw [h]
  rfl

theorem stepTicks_ten : stepTicks 10 = 9 := by
  unfold stepTicks
  have h : ⌈(90 : ℚ) / 10⌉ = 9 := by
    rw [Int.ceil_eq_iff]
    norm_num
  rw [h]
  rfl

theorem freshCube_increment : freshCube.rotationIncrement = 3 := rfl

theorem freshCube_fuel : stepTicks freshCube.rotationIncrement + 1 ≤ 31 := by
  rw [freshCube_increment, stepTicks_three]

theorem freshCube_increment_pos : 0 < freshCube.rotationIncrement := by
  rw [freshCube_increment]
  norm_num

/-- Witness of C3 on the freshly initialised cube (increment 3, 31 ticks per
rotation), for slice 0 about X. -/
theorem round_trip_witness :
    (freshCube.isRotating = false ∧ freshCube.isScrambling = false ∧
      0 < freshCube.rotationIncrement ∧ stepTicks freshCube.rotationIncrement + 1 ≤ 31) ∧
    ∃ s1 s2 : State Angel.turns,
      rotateToCompletion 31 0 0 1 freshCube = some s1 ∧
      rotateToCompletion 31 0 0 (-1) s1 = some s2 ∧
      s1.isRotating = false ∧ s2.isRotating = false ∧
      s2.grids = freshCube.grids :=
  ⟨⟨rfl, rfl, freshCube_increment_pos, freshCube_fuel⟩,
    round_trip freshCube rfl rfl freshCube_increment_pos 0 0 31 freshCube_fuel⟩

/-- Witness of C4 on the freshly initialised cube, for slice 0 about X: the
cube at grid (0,0,0) is back at (0,0,0) after four quarter turns. -/
theorem fourfold_identity_witness :
    (freshCube.isRotating = false ∧ freshCube.isScrambling = false ∧
      0 < freshCube.rotationIncrement ∧ stepTicks freshCube.rotationIncrement + 1 ≤ 31) ∧
    ((∃ s4 : State Angel.turns, repeatRotation 31 0 0 1 4 freshCube = some s4 ∧
      s4.isRotating = false ∧ s4.grids = freshCube.grids) ∧
    (freshCube.grids.Perm gridOrder → 0 ≤ (0 : Int) ∧ (0 : Int) ≤ 2 →
      0 ≤ (0 : Int) ∧ (0 : Int) ≤ 2 →
      ∀ k : Nat, 1 ≤ k → k ≤ 3 →
        ∃ sk : State Angel.turns, repeatRotation 31 0 0 1 k freshCube = some sk ∧
          sk.grids ≠ freshCube.grids)) :=
  ⟨⟨rfl, rfl, freshCube_increment_pos, freshCube_fuel⟩,
    fourfold_identity freshCube rfl rfl freshCube_increment_pos 0 0 31 freshCube_fuel⟩

/-! ## Rotation requests -/

/-- C5. Single active rotation: in every state with `isRotating == true`,
`startSliceRotation(axis, slice, direction)` returns the state unchanged, so
`isRotating`, `rotatingSlice`, `rotationAxis`, `rotationDirection`,
`rotationAngle` and every cube (grid tuple and transform) are as before. -/
theorem single_active_rotation (s : State A) (axis slice direction : Int)
    (hr : s.isRotating = true) :
    startSliceRotation axis slice direction s = s ∧
    (startSliceRotation axis slice direction s).isRotating = s.isRotating ∧
    (startSliceRotation axis slice direction s).rotatingSlice = s.rotatingSlice ∧
    (startSliceRotation axis slice direction s).rotationAxis = s.rotationAxis ∧
    (startSliceRotation axis slice direction s).rotationDirection = s.rotationDirection ∧
    (startSliceRotation axis slice direction s).rotationAngle = s.rotationAngle ∧
    (startSliceRotation axis slice direction s).subcubes = s.subcubes := by
  have h : startSliceRotation axis slice direction s = s := by
    simp [startSliceRotation, hr]
  rw [h]
  exact ⟨rfl, rfl, rfl, rfl, rfl, rfl, rfl⟩

/-- Witness of C5: a request for slice 2 about Z, direction -1, while the
rotation of `sampleTurning` is active. -/
theorem single_active_rotation_witness :
    sampleTurning.isRotating = true ∧
    (startSliceRotation 2 2 (-1) sampleTurning = sampleTurning ∧
    (startSliceRotation 2 2 (-1) sampleTurning).isRotating = sampleTurning.isRotating ∧
    (startSliceRotation 2 2 (-1) sampleTurning).rotatingSlice = sampleTurning.rotatingSlice ∧
    (startSliceRotation 2 2 (-1) sampleTurning).rotationAxis = sampleTurning.rotationAxis ∧
    (startSliceRotation 2 2 (-1) sampleTurning).rotationDirection =
      sampleTurning.rotationDirection ∧
    (startSliceRotation 2 2 (-1) sampleTurning).rotationAngle = sampleTurning.rotationAngle ∧
    (startSliceRotation 2 2 (-1) sampleTurning).subcubes = sampleTurning.subcubes) :=
  ⟨rfl, single_active_rotation sampleTurning 2 2 (-1) rfl⟩

/-- C6. In every state with `isRotating == false`,
`startSliceRotation(axis, slice, direction)` sets `isRotating = true`,
`rotationAngle = 0`, `rotationAxis = axis`, `rotatingSlice = slice` and
`rotationDirection = direction`, and leaves every other part of the state as it
was; in particular no cube's grid tuple or transform changes. -/
theorem rotation_request_accepted (s : State A) (axis slice direction : Int)
    (hr : s.isRotating = false) :
    (startSliceRotation axis slice direction s).isRotating = true ∧
    (startSliceRotation axis slice direction s).rotationAngle = 0 ∧
    (startSliceRotation axis slice direction s).rotationAxis = axis ∧
    (startSliceRotation axis slice direction s).rotatingSlice = slice ∧
    (startSliceRotation axis slice direction s).rotationDirection = direction ∧
    (startSliceRotation axis slice direction s).subcubes = s.subcubes ∧
    startSliceRotation axis slice direction s =
      { s with
        isRotating := true,
        rotatingSlice := slice,
        rotationAxis := axis,
        rotationDirection := direction,
        rotationAngle := 0 } := by
  have h : startSliceRotation axis slice direction s =
      { s with
        isRotating := true,
        rotatingSlice := slice,
        rotationAxis := axis,
        rotationDirection := direction,
        rotationAngle := 0 } := by
    simp [startSliceRotation, hr]
  rw [h]
  exact ⟨rfl, rfl, rfl, rfl, rfl, rfl, rfl⟩

/-- Witness of C6: a request for slice 2 about Z, direction -1, on the freshly
initialised cube. -/
theorem rotation_request_accepted_witness :
    freshCube.isRotating = false ∧
    ((startSliceRotation 2 2 (-1) freshCube).isRotating = true ∧
    (startSliceRotation 2 2 (-1) freshCube).rotationAngle = 0 ∧
    (startSliceRotation 2 2 (-1) freshCube).rotationAxis = 2 ∧
    (startSliceRotation 2 2 (-1) freshCube).rotatingSlice = 2 ∧
    (startSliceRotation 2 2 (-1) freshCube).rotationDirection = -1 ∧
    (startSliceRotation 2 2 (-1) freshCube).subcubes = freshCube.subcubes ∧
    startSliceRotation 2 2 (-1) freshCube =
      { freshCube with
        isRotating := true,
        rotatingSlice := 2,
        rotationAxis := 2,
        rotationDirection := -1,
        rotationAngle := 0 }) :=
  ⟨rfl, rotation_request_accepted freshCube 2 2 (-1) rfl⟩

/-! ## The completing tick of a quarter turn -/

theorem transform_rotate (c : Subcube A) (axis : Int) (angle : ℚ) :
    (c.rotate axis angle).transform = A.mul (rotationMatrix A axis angle) c.transform := rfl

theorem vertices_rotate (c : Subcube A) (axis : Int) (angle : ℚ) :
    (c.rotate axis angle).vertices =
      unit_vertices.map
        (fun v => A.apply (c.rotate axis angle).transform (baseVertex v)) := rfl

theorem transform_updateGrid (axis direction : Int) (c : Subcube A) :
    (updateGrid axis direction c).transform = c.transform ∧
    (updateGrid axis direction c).vertices = c.vertices := by
  unfold updateGrid
  split_ifs <;> exact ⟨rfl, rfl⟩

theorem rotation_compose (hA : A.Exact) (axis : Int) (a b : ℚ) (m : A.mat4) :
    A.mul (rotationMatrix A axis a) (A.mul (rotationMatrix A axis b) m) =
      A.mul (rotationMatrix A axis (a + b)) m := by
  rw [← hA.mul_assoc]
  unfold rotationMatrix
  split_ifs
  · rw [hA.rotateX_add]
  · rw [hA.rotateY_add]
  · rw [hA.rotateZ_add]

theorem final_angle (angle inc : ℚ) (d : Int) (hd : d = 1 ∨ d = -1) :
    (if d > 0 then 90 + inc else -90 - inc) - (angle + inc * (d : ℚ)) =
      (d : ℚ) * 90 - angle := by
  rcases hd with rfl | rfl
  · simp
  · simp
    ring

theorem turnWith_transform (hA : A.Exact) (incs : List ℚ) :
    ∀ (s s' : State A), s.isRotating = true →
      (s.rotationDirection = 1 ∨ s.rotationDirection = -1) →
      turnWith incs s = some s' →
      ∀ (i : Nat) (c : Subcube A), s.subcubes[i]? = some c →
        c.isInSlice s.rotationAxis s.rotatingSlice = true →
        ∃ c' : Subcube A, s'.subcubes[i]? = some c' ∧
          c'.transform =
            A.mul (rotationMatrix A s.rotationAxis
              ((s.rotationDirection : ℚ) * 90 - s.rotationAngle)) c.transform ∧
          c'.vertices = unit_vertices.map (fun v => A.apply c'.transform (baseVertex v)) := by
  induction incs with
  | nil =>
    intro s s' _ _ h
    simp [turnWith] at h
  | cons inc rest ih =>
    intro s s' hr hd h i c hi hin
    by_cases hc : State.completes { s with rotationIncrement := inc } = true
    · simp only [turnWith, hc, if_true, Option.some.injEq] at h
      subst h
      refine ⟨finishCube { s with rotationIncrement := inc } c, ?_, ?_, ?_⟩
      · unfold tickWith
        rw [subcubes_update_completes _ hc, List.getElem?_map]
        show Option.map _ s.subcubes[i]? = _
        rw [hi]
        rfl
      · unfold finishCube
        simp only
        rw [if_pos hin, (transform_updateGrid _ _ _).1, transform_rotate,
          final_angle _ _ _ hd]
      · unfold finishCube
        simp only
        rw [if_pos hin, (transform_updateGrid _ _ _).2, (transform_updateGrid _ _ _).1,
          vertices_rotate]
    · have hc' : State.completes { s with rotationIncrement := inc } = false := by
        simpa using hc
      simp only [turnWith, hc', Bool.false_eq_true, if_false] at h
      have hstep : tickWith inc s = _ := update_step { s with rotationIncrement := inc } hr hc'
      have e1 : (tickWith inc s).isRotating = true := by rw [hstep]; exact hr
      have e2 : (tickWith inc s).rotationDirection = s.rotationDirection := by rw [hstep]
      have e3 : (tickWith inc s).rotationAxis = s.rotationAxis := by rw [hstep]
      have e4 : (tickWith inc s).rotatingSlice = s.rotatingSlice := by rw [hstep]
      have e5 : (tickWith inc s).rotationAngle =
          s.rotationAngle + inc * (s.rotationDirection : ℚ) := by rw [hstep]
      have e6 : (tickWith inc s).subcubes =
          s.subcubes.map (stepCube { s with rotationIncrement := inc }) := by rw [hstep]
      have e7 : stepCube { s with rotationIncrement := inc } c =
          c.rotate s.rotationAxis (inc * (s.rotationDirection : ℚ)) := by
        unfold stepCube
        simp only
        rw [if_pos hin]
      obtain ⟨c', h1, h2, h3⟩ := ih (tickWith inc s) s' e1 (by rw [e2]; exact hd) h i
        (stepCube { s with rotationIncrement := inc } c)
        (by rw [e6, List.getElem?_map, hi]; rfl)
        (by rw [e3, e4, e7]; exact hin)
      refine ⟨c', h1, ?_, h3⟩
      rw [h2, e2, e3, e5, e7, transform_rotate, rotation_compose hA]
      congr 2
      ring

theorem completes_with (s : State A) (inc : ℚ) (hr : s.isRotating = true)
    (hd : s.rotationDirection = 1 ∨ s.rotationDirection = -1) (hinc : 0 < inc)
    (ha : 0 ≤ s.rotationAngle * (s.rotationDirection : ℚ)) :
    State.completes { s with rotationIncrement := inc } =
      decide (90 ≤ s.rotationAngle * (s.rotationDirection : ℚ)) := by
  have habs : |s.rotationAngle + inc * (s.rotationDirection : ℚ)| =
      s.rotationAngle * (s.rotationDirection : ℚ) + inc := by
    rcases hd with h | h
    · rw [h] at ha ⊢
      simp only [Int.cast_one, mul_one] at ha ⊢
      rw [abs_of_nonneg (by linarith)]
    · rw [h] at ha ⊢
      simp only [Int.reduceNeg, Int.cast_neg, Int.cast_one, mul_neg, mul_one] at ha ⊢
      rw [abs_of_nonpos (by linarith)]
      ring
  simp only [State.completes, hr, Bool.true_and, habs]
  by_cases h : 90 ≤ s.rotationAngle * (s.rotationDirection : ℚ)
  · simp only [h, decide_True, decide_eq_true_eq, ge_iff_le]
    linarith
  · simp only [h, decide_False, decide_eq_false_iff_not, ge_iff_le, not_le]
    linarith

theorem turnWith_exists (incs : List ℚ) :
    ∀ s : State A, s.isRotating = true →
      (s.rotationDirection = 1 ∨ s.rotationDirection = -1) →
      0 ≤ s.rotationAngle * (s.rotationDirection : ℚ) →
      (∀ inc ∈ incs, 0 < inc) → incs ≠ [] →
      90 ≤ s.rotationAngle * (s.rotationDirection : ℚ) + incs.dropLast.sum →
      ∃ s' : State A, turnWith incs s = some s' := by
  induction incs with
  | nil => intro s _ _ _ _ hne; exact absurd rfl hne
  | cons inc rest ih =>
    intro s hr hd ha hpos _ hsum
    have hinc : 0 < inc := hpos inc (List.mem_cons_self _ _)
    have hcw := completes_with s inc hr hd hinc ha
    by_cases h90 : 90 ≤ s.rotationAngle * (s.rotationDirection : ℚ)
    · refine ⟨tickWith inc s, ?_⟩
      simp only [turnWith, hcw, h90, decide_True, if_true]
    · have hc' : State.completes { s with rotationIncrement := inc } = false := by
        rw [hcw]
        simpa using h90
      have hrest : rest ≠ [] := by
        intro h
        rw [h] at hsum
        simp at hsum
        exact h90 hsum
      have hstep : tickWith inc s = _ := update_step { s with rotationIncrement := inc } hr hc'
      have e1 : (tickWith inc s).isRotating = true := by rw [hstep]; exact hr
      have e2 : (tickWith inc s).rotationDirection = s.rotationDirection := by rw [hstep]
      have e5 : (tickWith inc s).rotationAngle =
          s.rotationAngle + inc * (s.rotationDirection : ℚ) := by rw [hstep]
      have hsq : (s.rotationDirection : ℚ) * (s.rotationDirection : ℚ) = 1 := by
        rcases hd with h | h <;> rw [h] <;> norm_num
      have e8 : (tickWith inc s).rotationAngle * ((tickWith inc s).rotationDirection : ℚ) =
          s.rotationAngle * (s.rotationDirection : ℚ) + inc := by
        rw [e5, e2, add_mul, mul_assoc, hsq, mul_one]
      have hdl : (inc :: rest).dropLast.sum = inc + rest.dropLast.sum := by
        obtain ⟨b, l, rfl⟩ := List.exists_cons_of_ne_nil hrest
        simp [List.dropLast]
      obtain ⟨s', hs'⟩ := ih (tickWith inc s) e1 (by rw [e2]; exact hd)
        (by rw [e8]; linarith)
        (fun x hx => hpos x (List.mem_cons_of_mem _ hx)) hrest
        (by rw [e8]; rw [hdl] at hsum; linarith)
      refine ⟨s', ?_⟩
      simp only [turnWith, hc', Bool.false_eq_true, if_false]
      exact hs'

theorem turnWith_replicate (inc : ℚ) (m : Nat) :
    ∀ s : State A, s.rotationIncrement = inc →
      (∀ k, k < m → (ticks k s).completes = false ∧ (ticks k s).isRotating = true) →
      (ticks m s).completes = true →
      turnWith (List.replicate (m + 1) inc) s = some (ticks (m + 1) s) := by
  induction m with
  | zero =>
    intro s hi _ hc
    have hs : ({ s with rotationIncrement := inc } : State A) = s := by
      subst hi
      rfl
    have hc' : s.completes = true := hc
    simp only [List.replicate, turnWith, tickWith, hs, hc', if_true]
    rfl
  | succ m ih =>
    intro s hi hk hc
    have hs : ({ s with rotationIncrement := inc } : State A) = s := by
      subst hi
      rfl
    have h0 : s.completes = false := (hk 0 (by omega)).1
    have hr : s.isRotating = true := (hk 0 (by omega)).2
    have hshift : ∀ k, ticks k (update s) = ticks (k + 1) s := by
      intro k
      unfold ticks
      rw [Function.iterate_succ_apply]
    have hi' : (update s).rotationIncrement = inc := by
      rw [update_step s hr h0]
      exact hi
    have := ih (update s) hi'
      (fun k hk' => by rw [hshift]; exact hk (k + 1) (by omega))
      (by rw [hshift]; exact hc)
    rw [hshift] at this
    rw [List.replicate_succ]
    simp only [turnWith, tickWith, hs, h0, Bool.false_eq_true, if_false]
    exact this

theorem angel_turns_exact : Angel.turns.Exact where
  mul_assoc := by
    intro m n p
    simp only [Angel.turns, add_assoc]
  rotateX_add := by
    intro a b
    simp only [Angel.turns, add_zero]
  rotateY_add := by
    intro a b
    simp only [Angel.turns, add_zero]
  rotateZ_add := by
    intro a b
    simp only [Angel.turns, add_zero]

/-- C8. Orientation exactness, in exact arithmetic (a matrix library `A` whose
product is associative and whose rotations about one axis add their angles).
For a rotation just requested (active, angle 0, direction +1 or -1) and any
positive values of `rotationIncrement`, also when it is set to a new value
before each tick (`incs`, whose entries before the last sum to at least 90, so
that a tick completes the rotation): the run reaches its completing tick, and
then every cube of the slice has as transform `Rotate_axis(direction * 90)`
times its transform at the time of the request, its vertices being recomputed
from that transform. The same holds for the ticks of `update` at the constant
increment of the state. In the instance `Angel.turns`, which adds up the angles
passed to `Subcube::rotate`, this says that they sum to `direction * 90`. -/
theorem orientation_exactness (hA : A.Exact) (s : State A)
    (hr : s.isRotating = true) (h0 : s.rotationAngle = 0)
    (hd : s.rotationDirection = 1 ∨ s.rotationDirection = -1)
    (incs : List ℚ) (hpos : ∀ inc ∈ incs, 0 < inc) (hsum : 90 ≤ incs.dropLast.sum) :
    (∃ s' : State A, turnWith incs s = some s' ∧
      ∀ (i : Nat) (c : Subcube A), s.subcubes[i]? = some c →
        c.isInSlice s.rotationAxis s.rotatingSlice = true →
        ∃ c' : Subcube A, s'.subcubes[i]? = some c' ∧
          c'.transform =
            A.mul (rotationMatrix A s.rotationAxis ((s.rotationDirection : ℚ) * 90))
              c.transform ∧
          c'.vertices = unit_vertices.map (fun v => A.apply c'.transform (baseVertex v))) ∧
    (0 < s.rotationIncrement →
      ∀ (i : Nat) (c : Subcube A), s.subcubes[i]? = some c →
        c.isInSlice s.rotationAxis s.rotatingSlice = true →
        ∃ c' : Subcube A,
          (ticks (stepTicks s.rotationIncrement + 1) s).subcubes[i]? = some c' ∧
          c'.transform =
            A.mul (rotationMatrix A s.rotationAxis ((s.rotationDirection : ℚ) * 90))
              c.transform ∧
          c'.vertices = unit_vertices.map (fun v => A.apply c'.transform (baseVertex v))) := by
  have hne : incs ≠ [] := by
    intro h
    rw [h] at hsum
    norm_num at hsum
  constructor
  · obtain ⟨s', hs'⟩ := turnWith_exists incs s hr hd (by rw [h0]; simp) hpos hne
      (by rw [h0]; simpa using hsum)
    refine ⟨s', hs', fun i c hi hin => ?_⟩
    have := turnWith_transform hA incs s s' hr hd hs' i c hi hin
    rw [h0, sub_zero] at this
    exact this
  · intro hinc i c hi hin
    obtain ⟨hk, -, hc⟩ := ticks_turn s hr h0 hd hinc
    have hrun := turnWith_replicate s.rotationIncrement (stepTicks s.rotationIncrement) s rfl
      (fun k hk' => ⟨by rw [(hk k (by omega)).2.1]; simp; omega, (hk k (by omega)).1⟩)
      (by rw [(hk _ le_rfl).2.1]; simp)
    have := turnWith_transform hA _ s _ hr hd hrun i c hi hin
    rw [h0, sub_zero] at this
    exact this

/-- Witness of C8: slice 0 about X, direction +1, requested on the freshly
initialised cube, with `rotationIncrement` 3 for 29 ticks and then 10 (as after
the `S` key) for two ticks; the applied angles are 29 times 3, then 10, then
-7 on the completing tick. -/
theorem orientation_exactness_witness :
    (∀ inc ∈ List.replicate 29 (3 : ℚ) ++ [10, 10], 0 < inc) ∧
    90 ≤ (List.replicate 29 (3 : ℚ) ++ [10, 10]).dropLast.sum ∧
    ((∃ s' : State Angel.turns,
      turnWith (List.replicate 29 (3 : ℚ) ++ [10, 10])
        (startSliceRotation 0 0 1 freshCube) = some s' ∧
      ∀ (i : Nat) (c : Subcube Angel.turns),
        (startSliceRotation 0 0 1 freshCube).subcubes[i]? = some c →
        c.isInSlice (startSliceRotation 0 0 1 freshCube).rotationAxis
          (startSliceRotation 0 0 1 freshCube).rotatingSlice = true →
        ∃ c' : Subcube Angel.turns, s'.subcubes[i]? = some c' ∧
          c'.transform =
            Angel.turns.mul (rotationMatrix Angel.turns
              (startSliceRotation 0 0 1 freshCube).rotationAxis
              (((startSliceRotation 0 0 1 freshCube).rotationDirection : ℚ) * 90))
              c.transform ∧
          c'.vertices =
            unit_vertices.map (fun v => Angel.turns.apply c'.transform (baseVertex v))) ∧
    (0 < (startSliceRotation 0 0 1 freshCube).rotationIncrement →
      ∀ (i : Nat) (c : Subcube Angel.turns),
        (startSliceRotation 0 0 1 freshCube).subcubes[i]? = some c →
        c.isInSlice (startSliceRotation 0 0 1 freshCube).rotationAxis
          (startSliceRotation 0 0 1 freshCube).rotatingSlice = true →
        ∃ c' : Subcube Angel.turns,
          (ticks (stepTicks (startSliceRotation 0 0 1 freshCube).rotationIncrement + 1)
            (startSliceRotation 0 0 1 freshCube)).subcubes[i]? = some c' ∧
          c'.transform =
            Angel.turns.mul (rotationMatrix Angel.turns
              (startSliceRotation 0 0 1 freshCube).rotationAxis
              (((startSliceRotation 0 0 1 freshCube).rotationDirection : ℚ) * 90))
              c.transform ∧
          c'.vertices =
            unit_vertices.map (fun v => Angel.turns.apply c'.transform (baseVertex v)))) := by
  have hpos : ∀ inc ∈ List.replicate 29 (3 : ℚ) ++ [10, 10], 0 < inc := by
    intro inc h
    rw [List.mem_append, List.mem_replicate] at h
    rcases h with ⟨-, rfl⟩ | h
    · norm_num
    · simp only [List.mem_cons, List.mem_singleton, List.not_mem_nil, or_false, or_self] at h
      rw [h]
      norm_num
  have hsum : 90 ≤ (List.replicate 29 (3 : ℚ) ++ [10, 10]).dropLast.sum := by
    have : (List.replicate 29 (3 : ℚ) ++ [10, 10]).dropLast = List.replicate 29 3 ++ [10] := by
      rw [show ([10, 10] : List ℚ) = [10] ++ [10] from rfl, ← List.append_assoc,
        List.dropLast_concat]
    rw [this, List.sum_append, List.sum_replicate]
    norm_num
  exact ⟨hpos, hsum,
    orientation_exactness angel_turns_exact (startSliceRotation 0 0 1 freshCube) rfl rfl
      (Or.inl rfl) _ hpos hsum⟩

/-! ## Scrambling -/

theorem ticks_shift (k : Nat) (s : State A) : ticks k (update s) = ticks (k + 1) s := by
  unfold ticks
  rw [Function.iterate_succ_apply]

theorem completions_snoc (n : Nat) : ∀ s : State A,
    completions (n + 1) s =
      completions n s + (if (ticks n s).completes then 1 else 0) := by
  induction n with
  | zero => intro s; simp [completions, ticks]
  | succ n ih =>
    intro s
    rw [completions, ih (update s), ticks_shift]
    conv_rhs => rw [completions]
    omega

theorem completions_add (m n : Nat) (s : State A) :
    completions (n + m) s = completions n s + completions m (ticks n s) := by
  induction m with
  | zero => simp [completions]
  | succ m ih =>
    rw [← Nat.add_assoc, completions_snoc, ih, completions_snoc, ← ticks_add,
      Nat.add_comm m n]
    omega

theorem completions_zero_of (n : Nat) (s : State A)
    (h : ∀ k, k < n → (ticks k s).completes = false) : completions n s = 0 := by
  induction n with
  | zero => rfl
  | succ n ih =>
    rw [completions_snoc, ih (fun k hk => h k (by omega)), h n (by omega)]
    simp

theorem completions_turn (s : State A)
    (hr : s.isRotating = true) (h0 : s.rotationAngle = 0)
    (hd : s.rotationDirection = 1 ∨ s.rotationDirection = -1)
    (hinc : 0 < s.rotationIncrement) :
    completions (stepTicks s.rotationIncrement + 1) s = 1 := by
  obtain ⟨hk, -, -⟩ := ticks_turn s hr h0 hd hinc
  rw [completions_snoc, completions_zero_of _ _ (fun k hk' => by
    rw [(hk k (by omega)).2.1]
    simp
    omega), (hk _ le_rfl).2.1]
  simp

theorem ticks_idle (n : Nat) (s : State A) (hr : s.isRotating = false)
    (hs : s.isScrambling = false) : ticks n s = s := by
  induction n with
  | zero => rfl
  | succ n ih => rw [ticks_succ, ih, update_idle s hr hs]

theorem completions_idle (n : Nat) (s : State A) (hr : s.isRotating = false)
    (hs : s.isScrambling = false) : completions n s = 0 := by
  apply completions_zero_of
  intro k _
  rw [ticks_idle k s hr hs]
  simp [State.completes, hr]

theorem turn_next (s : State A)
    (hr : s.isRotating = true) (h0 : s.rotationAngle = 0)
    (hd : s.rotationDirection = 1 ∨ s.rotationDirection = -1)
    (hinc : 0 < s.rotationIncrement) (hs : s.isScrambling = true)
    (hm : s.currentScramblingMove + 1 < s.maxScramblingMoves) :
    (ticks (stepTicks s.rotationIncrement + 1) s).isRotating = true ∧
    (ticks (stepTicks s.rotationIncrement + 1) s).rotationAngle = 0 ∧
    ((ticks (stepTicks s.rotationIncrement + 1) s).rotationDirection = 1 ∨
      (ticks (stepTicks s.rotationIncrement + 1) s).rotationDirection = -1) ∧
    (ticks (stepTicks s.rotationIncrement + 1) s).rotationIncrement = s.rotationIncrement ∧
    (ticks (stepTicks s.rotationIncrement + 1) s).isScrambling = true ∧
    (ticks (stepTicks s.rotationIncrement + 1) s).maxScramblingMoves =
      s.maxScramblingMoves ∧
    (ticks (stepTicks s.rotationIncrement + 1) s).currentScramblingMove =
      s.currentScramblingMove + 1 := by
  obtain ⟨-, hlast, hc⟩ := ticks_turn s hr h0 hd hinc
  rw [hlast, update_finish_next _ hc hs hm]
  have hp := performRandomMove_params
    { midTurn s (stepTicks s.rotationIncrement) with
      rotationAngle := (midTurn s (stepTicks s.rotationIncrement)).rotationAngle +
        (midTurn s (stepTicks s.rotationIncrement)).rotationIncrement *
          ((midTurn s (stepTicks s.rotationIncrement)).rotationDirection : ℚ),
      subcubes := (midTurn s (stepTicks s.rotationIncrement)).subcubes.map
        (finishCube (midTurn s (stepTicks s.rotationIncrement))),
      isRotating := false,
      currentScramblingMove :=
        (midTurn s (stepTicks s.rotationIncrement)).currentScramblingMove + 1 } rfl
  refine ⟨hp.1, hp.2.2.2.2, hp.2.2.2.1, ?_, ?_, ?_, ?_⟩ <;>
    rw [performRandomMove_idle _ rfl]
  · rfl
  · exact hs
  · rfl
  · rfl

theorem turn_last (s : State A)
    (hr : s.isRotating = true) (h0 : s.rotationAngle = 0)
    (hd : s.rotationDirection = 1 ∨ s.rotationDirection = -1)
    (hinc : 0 < s.rotationIncrement) (hs : s.isScrambling = true)
    (hm : ¬ s.currentScramblingMove + 1 < s.maxScramblingMoves) :
    (ticks (stepTicks s.rotationIncrement + 1) s).isRotating = false ∧
    (ticks (stepTicks s.rotationIncrement + 1) s).isScrambling = false ∧
    (ticks (stepTicks s.rotationIncrement + 1) s).rotationIncrement = 3 ∧
    (ticks (stepTicks s.rotationIncrement + 1) s).currentScramblingMove =
      s.currentScramblingMove + 1 := by
  obtain ⟨-, hlast, hc⟩ := ticks_turn s hr h0 hd hinc
  rw [hlast, update_finish_last _ hc hs hm]
  exact ⟨rfl, rfl, rfl, rfl⟩

theorem scramble_run (k : Nat) : ∀ s : State A,
    s.isRotating = true → s.rotationAngle = 0 →
    (s.rotationDirection = 1 ∨ s.rotationDirection = -1) →
    0 < s.rotationIncrement → s.isScrambling = true →
    (s.maxScramblingMoves - s.currentScramblingMove - 1).toNat = k →
    (ticks ((k + 1) * (stepTicks s.rotationIncrement + 1)) s).isRotating = false ∧
    (ticks ((k + 1) * (stepTicks s.rotationIncrement + 1)) s).isScrambling = false ∧
    (ticks ((k + 1) * (stepTicks s.rotationIncrement + 1)) s).rotationIncrement = 3 ∧
    (ticks ((k + 1) * (stepTicks s.rotationIncrement + 1)) s).currentScramblingMove =
      s.currentScramblingMove + (k + 1) ∧
    completions ((k + 1) * (stepTicks s.rotationIncrement + 1)) s = k + 1 ∧
    (∀ j, j < (k + 1) * (stepTicks s.rotationIncrement + 1) →
      (ticks j s).isRotating = true) := by
  induction k with
  | zero =>
    intro s hr h0 hd hinc hs hk
    have hm : ¬ s.currentScramblingMove + 1 < s.maxScramblingMoves := by omega
    obtain ⟨h1, h2, h3, h4⟩ := turn_last s hr h0 hd hinc hs hm
    obtain ⟨hk', -, -⟩ := ticks_turn s hr h0 hd hinc
    simp only [Nat.zero_add, Nat.one_mul]
    refine ⟨h1, h2, h3, ?_, completions_turn s hr h0 hd hinc, fun j hj => (hk' j (by omega)).1⟩
    rw [h4]
    simp
  | succ k ih =>
    intro s hr h0 hd hinc hs hk
    have hm : s.currentScramblingMove + 1 < s.maxScramblingMoves := by omega
    obtain ⟨e1, e2, e3, e4, e5, e6, e7⟩ := turn_next s hr h0 hd hinc hs hm
    obtain ⟨hk', -, -⟩ := ticks_turn s hr h0 hd hinc
    have hsplit : (k + 1 + 1) * (stepTicks s.rotationIncrement + 1) =
        (k + 1) * (stepTicks s.rotationIncrement + 1) + (stepTicks s.rotationIncrement + 1) := by
      ring
    have ih' := ih (ticks (stepTicks s.rotationIncrement + 1) s) e1 e2 e3
      (by rw [e4]; exact hinc) e5 (by rw [e6, e7]; omega)
    rw [e4, ← ticks_add] at ih'
    obtain ⟨i1, i2, i3, i4, i5, i6⟩ := ih'
    rw [hsplit]
    refine ⟨i1, i2, i3, ?_, ?_, fun j hj => ?_⟩
    · rw [i4, e7]
      push_cast
      ring
    · rw [Nat.add_comm, completions_add, completions_turn s hr h0 hd hinc, i5]
      omega
    · by_cases hj' : j ≤ stepTicks s.rotationIncrement
      · exact (hk' j hj').1
      · obtain ⟨j', rfl⟩ : ∃ j', j = j' + (stepTicks s.rotationIncrement + 1) :=
          ⟨j - (stepTicks s.rotationIncrement + 1), by omega⟩
        have := i6 j' (by omega)
        rw [← ticks_add] at this
        exact this

theorem startScrambling_idle (moves : Int) (s : State A)
    (hr : s.isRotating = false) (hs : s.isScrambling = false) :
    (startScrambling moves s).isRotating = true ∧
    (startScrambling moves s).rotationAngle = 0 ∧
    ((startScrambling moves s).rotationDirection = 1 ∨
      (startScrambling moves s).rotationDirection = -1) ∧
    (startScrambling moves s).rotationIncrement = s.rotationIncrement ∧
    (startScrambling moves s).isScrambling = true ∧
    (startScrambling moves s).maxScramblingMoves = moves ∧
    (startScrambling moves s).currentScramblingMove = 0 := by
  have h : startScrambling moves s =
      performRandomMove
        { s with isScrambling := true, maxScramblingMoves := moves,
                 currentScramblingMove := 0 } := by
    simp [startScrambling, hr, hs]
  have hp := performRandomMove_params
    { s with isScrambling := true, maxScramblingMoves := moves,
             currentScramblingMove := 0 } hr
  have hq := performRandomMove_idle
    { s with isScrambling := true, maxScramblingMoves := moves,
             currentScramblingMove := 0 } hr
  rw [h]
  refine ⟨hp.1, hp.2.2.2.2, hp.2.2.2.1, ?_, ?_, ?_, ?_⟩ <;> rw [hq]

/-- C10. Scramble termination: from an idle state (`isRotating == false`,
`isScrambling == false`) with a positive increment, for every sequence of
`rand()` outcomes, `startScrambling(20)` followed by ticks of `update`
completes exactly 20 slice rotations, the last on tick
`20 * (stepTicks inc + 1)`: a rotation is active at every earlier moment, after
that tick `isRotating` and `isScrambling` are both false, and further ticks
complete no rotation and change nothing, so no cube's grid tuple changes. -/
theorem scramble_termination (s : State A)
    (hr : s.isRotating = false) (hs : s.isScrambling = false)
    (hinc : 0 < s.rotationIncrement) :
    completions (20 * (stepTicks s.rotationIncrement + 1)) (startScrambling 20 s) = 20 ∧
    (∀ j, j < 20 * (stepTicks s.rotationIncrement + 1) →
      (ticks j (startScrambling 20 s)).isRotating = true) ∧
    (ticks (20 * (stepTicks s.rotationIncrement + 1)) (startScrambling 20 s)).isRotating
      = false ∧
    (ticks (20 * (stepTicks s.rotationIncrement + 1)) (startScrambling 20 s)).isScrambling
      = false ∧
    (ticks (20 * (stepTicks s.rotationIncrement + 1))
      (startScrambling 20 s)).currentScramblingMove = 20 ∧
    (∀ m : Nat,
      ticks (m + 20 * (stepTicks s.rotationIncrement + 1)) (startScrambling 20 s) =
        ticks (20 * (stepTicks s.rotationIncrement + 1)) (startScrambling 20 s) ∧
      (ticks (m + 20 * (stepTicks s.rotationIncrement + 1)) (startScrambling 20 s)).grids =
        (ticks (20 * (stepTicks s.rotationIncrement + 1)) (startScrambling 20 s)).grids ∧
      completions (20 * (stepTicks s.rotationIncrement + 1) + m) (startScrambling 20 s)
        = 20) := by
  obtain ⟨e1, e2, e3, e4, e5, e6, e7⟩ := startScrambling_idle 20 s hr hs
  have h := scramble_run 19 (startScrambling 20 s) e1 e2 e3 (by rw [e4]; exact hinc) e5
    (by rw [e6, e7]; rfl)
  rw [e4] at h
  obtain ⟨h1, h2, -, h4, h5, h6⟩ := h
  have hidle : ∀ m : Nat,
      ticks (m + 20 * (stepTicks s.rotationIncrement + 1)) (startScrambling 20 s) =
        ticks (20 * (stepTicks s.rotationIncrement + 1)) (startScrambling 20 s) := by
    intro m
    rw [ticks_add, ticks_idle m _ h1 h2]
  refine ⟨h5, h6, h1, h2, ?_, fun m => ⟨hidle m, by rw [hidle m], ?_⟩⟩
  · rw [h4, e7]
    norm_num
  · rw [completions_add, completions_idle m _ h1 h2, h5]

/-- Witness of C10: the freshly initialised cube with increment 10, as the `S`
key sets it before calling `startScrambling(20)`; the scramble takes 200
ticks. -/
theorem scramble_termination_witness :
    completions 200 (startScrambling 20 { freshCube with rotationIncrement := 10 }) = 20 ∧
    (ticks 200 (startScrambling 20 { freshCube with rotationIncrement := 10 })).isRotating
      = false ∧
    (ticks 200 (startScrambling 20 { freshCube with rotationIncrement := 10 })).isScrambling
      = false := by
  have h := scramble_termination { freshCube with rotationIncrement := 10 } rfl rfl
    (by show (0 : ℚ) < 10; norm_num)
  have h10 : stepTicks ({ freshCube with rotationIncrement := 10 } :
      State Angel.turns).rotationIncrement = 9 := stepTicks_ten
  rw [h10] at h
  exact ⟨h.1, h.2.2.1, h.2.2.2.1⟩

/-! ## Runs to completion -/

theorem startScrambling_active (moves : Int) (s : State A) (hr : s.isRotating = true) :
    startScrambling moves s = s := by
  simp [startScrambling, hr]

theorem performRandomMove_active (s : State A) (hr : s.isRotating = true) :
    performRandomMove s = s := by
  simp [performRandomMove, hr]

/-! ## Frame of a tick -/

theorem stepCube_of_not_inSlice (s : State A) (c : Subcube A)
    (h : c.isInSlice s.rotationAxis s.rotatingSlice = false) : stepCube s c = c := by
  unfold stepCube
  rw [h]
  rfl

theorem finishCube_of_not_inSlice (s : State A) (c : Subcube A)
    (h : c.isInSlice s.rotationAxis s.rotatingSlice = false) : finishCube s c = c := by
  unfold finishCube
  rw [h]
  rfl

/-- C12. Frame of a tick: for every call of `update`, every cube that is not
in the active slice (`rotationAxis`, `rotatingSlice`) is left as it was, with
its grid tuple, transform and vertices (and all other fields); when no
rotation is active no cube changes at all; and when `isRotating` and
`isScrambling` are both false, `update` returns the state unchanged. -/
theorem tick_frame (s : State A) :
    (∀ (i : Nat) (c : Subcube A), s.subcubes[i]? = some c →
      c.isInSlice s.rotationAxis s.rotatingSlice = false →
      (update s).subcubes[i]? = some c ∧
      ∃ c' : Subcube A, (update s).subcubes[i]? = some c' ∧
        c'.grid = c.grid ∧ c'.transform = c.transform ∧ c'.vertices = c.vertices) ∧
    (s.isRotating = false → (update s).subcubes = s.subcubes) ∧
    (s.isRotating = false → s.isScrambling = false → update s = s) := by
  refine ⟨fun i c hi hin => ?_, fun hr => update_not_rotating s hr,
    fun hr hs => update_idle s hr hs⟩
  have key : (update s).subcubes[i]? = some c := by
    by_cases hc : s.completes = true
    · rw [subcubes_update_completes s hc, List.getElem?_map, hi]
      simp only [Option.map_some']
      rw [finishCube_of_not_inSlice s c hin]
    · rw [subcubes_update_not_completes s (by simpa using hc)]
      split_ifs
      · rw [List.getElem?_map, hi]
        simp only [Option.map_some']
        rw [stepCube_of_not_inSlice s c hin]
      · exact hi
  exact ⟨key, c, key, rfl, rfl, rfl⟩

/-- Witness of C12 at `sampleTurning` (slice 0 about X is turning): the cube
of index 26, at grid (2,2,2), is outside the slice and is kept by the tick. -/
theorem tick_frame_witness :
    ∃ c : Subcube Angel.turns, sampleTurning.subcubes[26]? = some c ∧
      c.grid = (2, 2, 2) ∧ (update sampleTurning).subcubes[26]? = some c := by
  have h := (tick_frame sampleTurning).1 26
  obtain ⟨c, hc⟩ : ∃ c, sampleTurning.subcubes[26]? = some c := ⟨_, rfl⟩
  have hg : c.grid = (2, 2, 2) := by
    have : sampleTurning.subcubes[26]?.map Subcube.grid = some (2, 2, 2) := by decide
    rw [hc] at this
    simpa using this
  refine ⟨c, hc, hg, (h c hc ?_).1⟩
  rw [isInSlice_eq, hg]
  decide

/-! ## A completing tick during a scramble -/

/-- C18. When a tick of `update` completes a rotation while a scramble is in
progress, `currentScramblingMove` increases by exactly 1 and
`maxScramblingMoves` is kept; if the new count is still below
`maxScramblingMoves`, a new rotation is already active at the end of the same
tick (`isRotating` true, `rotationAngle` 0, the scramble still in progress);
otherwise `isScrambling` becomes false, `isRotating` is false and
`rotationIncrement` is reset to 3. -/
theorem scramble_step (s : State A) (hc : s.completes = true)
    (hs : s.isScrambling = true) :
    (update s).currentScramblingMove = s.currentScramblingMove + 1 ∧
    (update s).maxScramblingMoves = s.maxScramblingMoves ∧
    (s.currentScramblingMove + 1 < s.maxScramblingMoves →
      (update s).isRotating = true ∧ (update s).rotationAngle = 0 ∧
      (update s).isScrambling = true ∧
      (update s).rotationIncrement = s.rotationIncrement) ∧
    (¬ s.currentScramblingMove + 1 < s.maxScramblingMoves →
      (update s).isScrambling = false ∧ (update s).isRotating = false ∧
      (update s).rotationIncrement = 3) := by
  by_cases hm : s.currentScramblingMove + 1 < s.maxScramblingMoves
  · rw [update_finish_next s hc hs hm, performRandomMove_idle _ rfl]
    exact ⟨rfl, rfl, fun _ => ⟨rfl, rfl, hs, rfl⟩, fun h => absurd hm h⟩
  · rw [update_finish_last s hc hs hm]
    exact ⟨rfl, rfl, fun h => absurd h hm, fun _ => ⟨rfl, rfl, rfl⟩⟩

theorem sampleScrambling_completes : sampleScrambling.completes = true := by
  simp only [State.completes, sampleScrambling, sampleTurning, initializeSubcubes,
    State.initial]
  norm_num

/-- Witness of C18 at `sampleScrambling`: the third of twenty moves completes
and the fourth starts on the same tick. -/
theorem scramble_step_witness :
    sampleScrambling.completes = true ∧ sampleScrambling.isScrambling = true ∧
    (update sampleScrambling).currentScramblingMove = 3 ∧
    (update sampleScrambling).isRotating = true ∧
    (update sampleScrambling).rotationAngle = 0 := by
  have h := scramble_step sampleScrambling sampleScrambling_completes rfl
  have hm : sampleScrambling.currentScramblingMove + 1 <
      sampleScrambling.maxScramblingMoves := by decide
  exact ⟨sampleScrambling_completes, rfl, h.1, (h.2.2.1 hm).1, (h.2.2.1 hm).2.1⟩

/-! ## Random moves -/

/-- C19. `performRandomMove` called with no rotation active, for any three
non-negative `rand()` results `r1`, `r2`, `r3` (the next three outcomes of the
sequence), requests the rotation of axis `r1 % 3`, slice `r2 % 3` and direction
`(r3 % 2) * 2 - 1`: the axis and the slice are in 0..2, the direction is +1 or
-1, the rotation is active at angle 0 and no cube changes. Each of the 18
triples (axis, slice, direction) is requested for some `rand()` results. When
`isRotating` is already true the state is unchanged. -/
theorem random_move (s : State A) :
    (s.isRotating = false →
      performRandomMove s =
        startSliceRotation ((s.randSeq s.randPos % 3 : Nat) : Int)
          ((s.randSeq (s.randPos + 1) % 3 : Nat) : Int)
          (((s.randSeq (s.randPos + 2) % 2 : Nat) : Int) * 2 - 1)
          { s with randPos := s.randPos + 3 } ∧
      (performRandomMove s).isRotating = true ∧
      (0 ≤ (performRandomMove s).rotationAxis ∧ (performRandomMove s).rotationAxis ≤ 2) ∧
      (0 ≤ (performRandomMove s).rotatingSlice ∧
        (performRandomMove s).rotatingSlice ≤ 2) ∧
      ((performRandomMove s).rotationDirection = 1 ∨
        (performRandomMove s).rotationDirection = -1) ∧
      (performRandomMove s).rotationAngle = 0 ∧
      (performRandomMove s).subcubes = s.subcubes) ∧
    (s.isRotating = false →
      ∀ axis slice direction : Int, 0 ≤ axis ∧ axis ≤ 2 → 0 ≤ slice ∧ slice ≤ 2 →
        direction = 1 ∨ direction = -1 →
        ∃ r : Nat → Nat,
          (performRandomMove { s with randSeq := r }).rotationAxis = axis ∧
          (performRandomMove { s with randSeq := r }).rotatingSlice = slice ∧
          (performRandomMove { s with randSeq := r }).rotationDirection = direction ∧
          (performRandomMove { s with randSeq := r }).isRotating = true) ∧
    (s.isRotating = true → performRandomMove s = s) := by
  refine ⟨fun hr => ?_, fun hr axis slice direction ha hsl hd => ?_,
    fun hr => performRandomMove_active s hr⟩
  · have hp := performRandomMove_params s hr
    refine ⟨?_, hp.1, hp.2.1, hp.2.2.1, hp.2.2.2.1, hp.2.2.2.2, subcubes_performRandomMove s⟩
    rw [performRandomMove_idle s hr]
    exact (startSliceRotation_idle _ _ _ { s with randPos := s.randPos + 3 } hr).symm
  · have h := fun r : Nat → Nat => performRandomMove_idle ({ s with randSeq := r } : State A) hr
    refine ⟨fun n => if n = s.randPos then axis.toNat
      else if n = s.randPos + 1 then slice.toNat
      else if direction = 1 then 1 else 0, ?_⟩
    rw [h]
    simp only [if_true, Nat.succ_ne_self, if_false, Nat.add_right_eq_self,
      OfNat.ofNat_ne_zero, Nat.add_right_cancel_iff, OfNat.ofNat_ne_one]
    refine ⟨by omega, by omega, ?_, trivial⟩
    rcases hd with rfl | rfl <;> simp

/-! ## The number of moves of a scramble -/

theorem scramble_count (moves : Int) (s : State A)
    (hr : s.isRotating = false) (hs : s.isScrambling = false)
    (hinc : 0 < s.rotationIncrement) :
    completions (((moves - 1).toNat + 1) * (stepTicks s.rotationIncrement + 1))
      (startScrambling moves s) = (moves - 1).toNat + 1 ∧
    (ticks (((moves - 1).toNat + 1) * (stepTicks s.rotationIncrement + 1))
      (startScrambling moves s)).isRotating = false ∧
    (ticks (((moves - 1).toNat + 1) * (stepTicks s.rotationIncrement + 1))
      (startScrambling moves s)).isScrambling = false ∧
    (∀ j, j < ((moves - 1).toNat + 1) * (stepTicks s.rotationIncrement + 1) →
      (ticks j (startScrambling moves s)).isRotating = true) := by
  obtain ⟨e1, e2, e3, e4, e5, e6, e7⟩ := startScrambling_idle moves s hr hs
  have h := scramble_run (moves - 1).toNat (startScrambling moves s) e1 e2 e3
    (by rw [e4]; exact hinc) e5 (by rw [e6, e7]; simp)
  rw [e4] at h
  exact ⟨h.2.2.2.2.1, h.1, h.2.1, h.2.2.2.2.2⟩

theorem grids_after_turn (s : State A)
    (hr : s.isRotating = true) (h0 : s.rotationAngle = 0)
    (hd : s.rotationDirection = 1 ∨ s.rotationDirection = -1)
    (hinc : 0 < s.rotationIncrement) :
    (ticks (stepTicks s.rotationIncrement + 1) s).grids =
      s.grids.map (gridMove s.rotationAxis s.rotatingSlice s.rotationDirection) := by
  obtain ⟨-, hlast, hc⟩ := ticks_turn s hr h0 hd hinc
  rw [hlast, grids_update, if_pos hc, midTurn_grids]
  rfl

/-- C11 (as amended). From an idle state with a positive increment,
`startScrambling(N)` starts and completes exactly `max(N, 1)` slice rotations,
one at a time, before scrambling ends: `N` rotations for every `N ≥ 1`, and one
rotation for `N ≤ 0`. The scramble ends on tick `max(N, 1) * (stepTicks inc + 1)`;
a rotation is active at every earlier moment, and after that tick `isRotating`
and `isScrambling` are both false. -/
theorem scramble_rotation_count (s : State A) (N : Int)
    (hr : s.isRotating = false) (hs : s.isScrambling = false)
    (hinc : 0 < s.rotationIncrement) :
    ∃ T : Nat,
      T = (max N 1).toNat * (stepTicks s.rotationIncrement + 1) ∧
      completions T (startScrambling N s) = (max N 1).toNat ∧
      (1 ≤ N → (completions T (startScrambling N s) : Int) = N) ∧
      (ticks T (startScrambling N s)).isRotating = false ∧
      (ticks T (startScrambling N s)).isScrambling = false ∧
      (∀ j, j < T → (ticks j (startScrambling N s)).isRotating = true) := by
  have h := scramble_count N s hr hs hinc
  have hN : (N - 1).toNat + 1 = (max N 1).toNat := by
    rcases le_total N 1 with h1 | h1
    · rw [max_eq_right h1]
      have : (N - 1).toNat = 0 := by omega
      rw [this]
      rfl
    · rw [max_eq_left h1]
      omega
  rw [hN] at h
  refine ⟨_, rfl, h.1, fun h1 => ?_, h.2.1, h.2.2.1, h.2.2.2⟩
  rw [h.1, max_eq_left h1]
  omega

/-- Witness of C11 (as amended): `startScrambling(3)` on the freshly
initialised cube (increment 3) completes three rotations in 93 ticks. -/
theorem scramble_rotation_count_witness :
    freshCube.isRotating = false ∧ freshCube.isScrambling = false ∧
    0 < freshCube.rotationIncrement ∧
    ∃ T : Nat, T = 93 ∧ completions T (startScrambling 3 freshCube) = 3 ∧
      (ticks T (startScrambling 3 freshCube)).isScrambling = false := by
  refine ⟨rfl, rfl, freshCube_increment_pos, ?_⟩
  obtain ⟨T, h1, h2, -, -, h5, -⟩ :=
    scramble_rotation_count freshCube 3 rfl rfl freshCube_increment_pos
  rw [freshCube_increment, stepTicks_three] at h1
  exact ⟨T, h1, h2, h5⟩

/-- Counterexample to C11 as stated, at `N = 0`: `startScrambling(0)` issued on
the freshly initialised, idle cube starts a rotation at once; that rotation runs
and completes on the 31st tick, the one rotation completed before the scramble
ends, and it moves grid tuples. -/
theorem scramble_zero_rotates :
    freshCube.isRotating = false ∧ freshCube.isScrambling = false ∧
    (startScrambling 0 freshCube).isRotating = true ∧
    (startScrambling 0 freshCube).isScrambling = true ∧
    completions 31 (startScrambling 0 freshCube) = 1 ∧
    (ticks 31 (startScrambling 0 freshCube)).isRotating = false ∧
    (ticks 31 (startScrambling 0 freshCube)).isScrambling = false ∧
    (ticks 31 (startScrambling 0 freshCube)).grids ≠ freshCube.grids := by
  have h := scramble_count 0 freshCube rfl rfl freshCube_increment_pos
  rw [freshCube_increment, stepTicks_three] at h
  have hg := grids_after_turn (startScrambling 0 freshCube) rfl rfl (Or.inr rfl)
    freshCube_increment_pos
  have h30 : stepTicks (startScrambling 0 freshCube).rotationIncrement = 30 :=
    stepTicks_three
  rw [h30] at hg
  refine ⟨rfl, rfl, rfl, rfl, h.1, h.2.1, h.2.2.1, ?_⟩
  rw [hg]
  decide

/-! ## Face colours -/

theorem exists_of_mem_zipWith {α β γ : Type} (f : α → β → γ) :
    ∀ (l1 : List α) (l2 : List β) (c : γ), c ∈ List.zipWith f l1 l2 →
      ∃ a ∈ l1, ∃ b ∈ l2, c = f a b := by
  intro l1
  induction l1 with
  | nil => intro l2 c h; simp at h
  | cons a l1 ih =>
    intro l2 c h
    cases l2 with
    | nil => simp at h
    | cons b l2 =>
      rw [List.zipWith_cons_cons, List.mem_cons] at h
      rcases h with rfl | h
      · exact ⟨a, List.mem_cons_self _ _, b, List.mem_cons_self _ _, rfl⟩
      · obtain ⟨a', ha', b', hb', rfl⟩ := ih l2 c h
        exact ⟨a', List.mem_cons_of_mem _ ha', b', List.mem_cons_of_mem _ hb', rfl⟩

/-- The colours that `generateSubcubeGeometry` assigns: six entries per face,
in the order front, back, right, left, top, bottom. -/
theorem colors_generateSubcubeGeometry (cube : Subcube A) :
    (generateSubcubeGeometry cube).colors =
      List.replicate 6 (if cube.z = 2 then (⟨1, 0, 0, 1⟩ : color4) else black) ++
      List.replicate 6 (if cube.z = 0 then (⟨1, 1 / 2, 0, 1⟩ : color4) else black) ++
      List.replicate 6 (if cube.x = 2 then (⟨0, 1, 0, 1⟩ : color4) else black) ++
      List.replicate 6 (if cube.x = 0 then (⟨0, 0, 1, 1⟩ : color4) else black) ++
      List.replicate 6 (if cube.y = 2 then (⟨1, 1, 1, 1⟩ : color4) else black) ++
      List.replicate 6 (if cube.y = 0 then (⟨1, 1, 0, 1⟩ : color4) else black) := by
  simp only [generateSubcubeGeometry, face_colors, decide_eq_true_eq]
  rfl

theorem grid_generateSubcubeGeometry (cube : Subcube A) :
    (generateSubcubeGeometry cube).x = cube.x ∧ (generateSubcubeGeometry cube).y = cube.y ∧
    (generateSubcubeGeometry cube).z = cube.z := ⟨rfl, rfl, rfl⟩

theorem face_entries (f b r l t d : color4) (k : Nat) (hk : k < 6) :
    (List.replicate 6 f ++ List.replicate 6 b ++ List.replicate 6 r ++
      List.replicate 6 l ++ List.replicate 6 t ++ List.replicate 6 d)[k]? = some f ∧
    (List.replicate 6 f ++ List.replicate 6 b ++ List.replicate 6 r ++
      List.replicate 6 l ++ List.replicate 6 t ++ List.replicate 6 d)[6 + k]? = some b ∧
    (List.replicate 6 f ++ List.replicate 6 b ++ List.replicate 6 r ++
      List.replicate 6 l ++ List.replicate 6 t ++ List.replicate 6 d)[12 + k]? = some r ∧
    (List.replicate 6 f ++ List.replicate 6 b ++ List.replicate 6 r ++
      List.replicate 6 l ++ List.replicate 6 t ++ List.replicate 6 d)[18 + k]? = some l ∧
    (List.replicate 6 f ++ List.replicate 6 b ++ List.replicate 6 r ++
      List.replicate 6 l ++ List.replicate 6 t ++ List.replicate 6 d)[24 + k]? = some t ∧
    (List.replicate 6 f ++ List.replicate 6 b ++ List.replicate 6 r ++
      List.replicate 6 l ++ List.replicate 6 t ++ List.replicate 6 d)[30 + k]? = some d := by
  interval_cases k <;> exact ⟨rfl, rfl, rfl, rfl, rfl, rfl⟩

theorem colors_eq_spec (cube : Subcube A) :
    (generateSubcubeGeometry cube).colors = specFaceColors cube.x cube.y cube.z :=
  colors_generateSubcubeGeometry cube

theorem colors_initializeSubcubes (s : State A) :
    ∀ c ∈ (initializeSubcubes s).subcubes, c.colors = specFaceColors c.x c.y c.z := by
  intro c hc
  obtain ⟨a, -, g, -, rfl⟩ := exists_of_mem_zipWith _ _ _ c hc
  exact colors_eq_spec _

/-- C13. Exterior-face colouring at initialisation: after
`initializeSubcubes()`, every cube has 36 colour entries, six per face in the
order front, back, right, left, top, bottom, and the six entries of a face all
equal the face's colour when the face is exterior for the cube's grid tuple
(front red iff `z == 2`, back orange iff `z == 0`, right green iff `x == 2`,
left blue iff `x == 0`, top white iff `y == 2`, bottom yellow iff `y == 0`) and
black otherwise. The cube at grid (2,1,1) (index 22) has only its right face
coloured, and the cube at (1,1,1) (index 13) has all 36 entries black. -/
theorem initial_face_colors (randSeq : Nat → Nat) :
    (∀ c ∈ (initializeSubcubes (State.initial A randSeq)).subcubes,
      c.colors = specFaceColors c.x c.y c.z ∧ c.colors.length = 36 ∧
      ∀ k : Nat, k < 6 →
        c.colors[k]? = some (if c.z = 2 then (⟨1, 0, 0, 1⟩ : color4) else black) ∧
        c.colors[6 + k]? = some (if c.z = 0 then (⟨1, 1 / 2, 0, 1⟩ : color4) else black) ∧
        c.colors[12 + k]? = some (if c.x = 2 then (⟨0, 1, 0, 1⟩ : color4) else black) ∧
        c.colors[18 + k]? = some (if c.x = 0 then (⟨0, 0, 1, 1⟩ : color4) else black) ∧
        c.colors[24 + k]? = some (if c.y = 2 then (⟨1, 1, 1, 1⟩ : color4) else black) ∧
        c.colors[30 + k]? = some (if c.y = 0 then (⟨1, 1, 0, 1⟩ : color4) else black)) ∧
    (∃ c : Subcube A,
      (initializeSubcubes (State.initial A randSeq)).subcubes[22]? = some c ∧
      c.grid = (2, 1, 1) ∧
      c.colors = List.replicate 12 black ++ List.replicate 6 (⟨0, 1, 0, 1⟩ : color4) ++
        List.replicate 18 black) ∧
    (∃ c : Subcube A,
      (initializeSubcubes (State.initial A randSeq)).subcubes[13]? = some c ∧
      c.grid = (1, 1, 1) ∧ c.colors = List.replicate 36 black) := by
  refine ⟨fun c hc => ?_, ?_, ?_⟩
  · have h := colors_initializeSubcubes _ c hc
    refine ⟨h, ?_, fun k hk => ?_⟩
    · rw [h]
      simp [specFaceColors]
    · rw [h]
      exact face_entries _ _ _ _ _ _ k hk
  · refine ⟨generateSubcubeGeometry ((Subcube.zero A).init 2 1 1), rfl, rfl, ?_⟩
    rw [colors_generateSubcubeGeometry]
    rfl
  · refine ⟨generateSubcubeGeometry ((Subcube.zero A).init 1 1 1), rfl, rfl, ?_⟩
    rw [colors_generateSubcubeGeometry]
    rfl

theorem colors_stepCube (s : State A) (c : Subcube A) :
    (stepCube s c).colors = c.colors ∧ (stepCube s c).indices = c.indices := by
  unfold stepCube
  split_ifs <;> exact ⟨rfl, rfl⟩

theorem colors_updateGrid (axis direction : Int) (c : Subcube A) :
    (updateGrid axis direction c).colors = c.colors ∧
    (updateGrid axis direction c).indices = c.indices := by
  unfold updateGrid
  split_ifs <;> exact ⟨rfl, rfl⟩

theorem colors_finishCube (s : State A) (c : Subcube A) :
    (finishCube s c).colors = c.colors ∧ (finishCube s c).indices = c.indices := by
  unfold finishCube
  by_cases h : c.isInSlice s.rotationAxis s.rotatingSlice = true
  · rw [if_pos h]
    exact ⟨(colors_updateGrid _ _ _).1, (colors_updateGrid _ _ _).2⟩
  · rw [if_neg h]
    exact ⟨rfl, rfl⟩

theorem colors_update (s : State A) :
    (update s).subcubes.map Subcube.colors = s.subcubes.map Subcube.colors := by
  by_cases hc : s.completes = true
  · rw [subcubes_update_completes s hc, List.map_map]
    apply List.map_congr_left
    intro c _
    exact (colors_finishCube s c).1
  · rw [subcubes_update_not_completes s (by simpa using hc)]
    split_ifs
    · rw [List.map_map]
      apply List.map_congr_left
      intro c _
      exact (colors_stepCube s c).1
    · rfl

theorem colors_ticks (n : Nat) (s : State A) :
    (ticks n s).subcubes.map Subcube.colors = s.subcubes.map Subcube.colors := by
  induction n with
  | zero => rfl
  | succ n ih => rw [ticks_succ, colors_update, ih]

theorem reachable_ticks (n : Nat) {s : State A} (h : Reachable s) : Reachable (ticks n s) := by
  induction n with
  | zero => exact h
  | succ n ih =>
    rw [ticks_succ]
    exact Reachable.tick ih

theorem colors_initial (randSeq : Nat → Nat) :
    (initializeSubcubes (State.initial A randSeq)).subcubes.map Subcube.colors =
      gridOrder.map (fun g => specFaceColors g.1 g.2.1 g.2.2) := by
  rfl

theorem colors_of_reachable {s : State A} (h : Reachable s) :
    s.subcubes.map Subcube.colors =
      gridOrder.map (fun g => specFaceColors g.1 g.2.1 g.2.2) := by
  induction h with
  | init randSeq => exact colors_initial randSeq
  | rotation axis slice direction _ _ _ _ _ _ ih => rwa [subcubes_startSliceRotation]
  | scrambling moves _ ih => rwa [subcubes_startScrambling]
  | tick _ ih => rwa [colors_update]

/-- C14 (as amended). In every reachable state, each cube's face-colour
assignment is the one computed at initialisation from the grid tuple the cube
had then, the `i`-th tuple of the initialisation order for `subcubes[i]`: a
face's colour entries are that face's colour if the face was exterior for that
initial tuple and black otherwise. No tick of `update` changes a colour
entry. -/
theorem colors_fixed_at_initialisation (s : State A) (h : Reachable s) :
    s.subcubes.map Subcube.colors =
      gridOrder.map (fun g => specFaceColors g.1 g.2.1 g.2.2) ∧
    (∀ (i : Nat) (c : Subcube A), s.subcubes[i]? = some c →
      ∃ g : Int × Int × Int, gridOrder[i]? = some g ∧
        c.colors = specFaceColors g.1 g.2.1 g.2.2) ∧
    (update s).subcubes.map Subcube.colors = s.subcubes.map Subcube.colors := by
  have hcol := colors_of_reachable h
  refine ⟨hcol, fun i c hi => ?_, colors_update s⟩
  have h1 : (s.subcubes.map Subcube.colors)[i]? = some c.colors := by
    rw [List.getElem?_map, hi]
    rfl
  rw [hcol, List.getElem?_map] at h1
  cases hg : gridOrder[i]? with
  | none => rw [hg] at h1; simp at h1
  | some g =>
    rw [hg] at h1
    simp only [Option.map_some', Option.some.injEq] at h1
    exact ⟨g, rfl, h1.symm⟩

/-- Witness of C14 (as amended): the state one tick after a rotation request on
the freshly initialised cube. -/
theorem colors_fixed_at_initialisation_witness :
    Reachable (update (startSliceRotation 0 0 1 freshCube)) ∧
    (update (startSliceRotation 0 0 1 freshCube)).subcubes.map Subcube.colors =
      gridOrder.map (fun g => specFaceColors g.1 g.2.1 g.2.2) :=
  ⟨Reachable.tick (Reachable.rotation 0 0 1 (Reachable.init _)
      (by decide) (by decide) (by decide) (by decide) (by decide)),
   (colors_fixed_at_initialisation _ (Reachable.tick (Reachable.rotation 0 0 1
      (Reachable.init _) (by decide) (by decide) (by decide) (by decide) (by decide)))).1⟩

/-- Counterexample to C14 as stated: after the rotation of slice 0 about X in
direction +1 has completed on the freshly initialised cube (31 ticks), the
state is reachable and no rotation is in progress; the cube of index 0 is at
grid (0,2,0), yet its top entries are black although `y == 2` and its bottom
entries are yellow although `y != 0`: its colours are those of its initial
tuple (0,0,0), not of its current one. -/
theorem colors_counterexample :
    Reachable (ticks 31 (startSliceRotation 0 0 1 freshCube)) ∧
    (ticks 31 (startSliceRotation 0 0 1 freshCube)).isRotating = false ∧
    ∃ c : Subcube Angel.turns,
      (ticks 31 (startSliceRotation 0 0 1 freshCube)).subcubes[0]? = some c ∧
      c.grid = (0, 2, 0) ∧
      c.colors[24]? = some black ∧ c.colors[30]? = some (⟨1, 1, 0, 1⟩ : color4) ∧
      c.colors ≠ specFaceColors c.x c.y c.z := by
  have hreach : Reachable (ticks 31 (startSliceRotation 0 0 1 freshCube)) :=
    reachable_ticks 31 (Reachable.rotation 0 0 1 (Reachable.init _)
      (by decide) (by decide) (by decide) (by decide) (by decide))
  have h30 : stepTicks (startSliceRotation 0 0 1 freshCube).rotationIncrement = 30 :=
    stepTicks_three
  have hq := quarter_turn (startSliceRotation 0 0 1 freshCube) rfl rfl (Or.inl rfl)
    freshCube_increment_pos rfl 31 (by rw [h30])
  rw [h30] at hq
  have hg : (ticks 31 (startSliceRotation 0 0 1 freshCube)).grids[0]? = some (0, 2, 0) := by
    rw [hq.2.2.2.2]
    decide
  have hcol : ((ticks 31 (startSliceRotation 0 0 1 freshCube)).subcubes.map
      Subcube.colors)[0]? = some (specFaceColors 0 0 0) := by
    rw [colors_ticks]
    rfl
  unfold State.grids at hg
  rw [List.getElem?_map] at hg hcol
  cases hc : (ticks 31 (startSliceRotation 0 0 1 freshCube)).subcubes[0]? with
  | none => rw [hc] at hg; simp at hg
  | some c =>
    rw [hc] at hg hcol
    simp only [Option.map_some', Option.some.injEq] at hg hcol
    have hx : c.x = 0 ∧ c.y = 2 ∧ c.z = 0 := by
      unfold Subcube.grid at hg
      simpa using hg
    refine ⟨hreach, hq.2.1, c, rfl, hg, ?_, ?_, ?_⟩
    · rw [hcol]; rfl
    · rw [hcol]; rfl
    · rw [hcol, hx.1, hx.2.1, hx.2.2]
      intro heq
      have h1 : (specFaceColors 0 0 0)[24]? = (specFaceColors 0 2 0)[24]? := by rw [heq]
      have h2 : (specFaceColors 0 0 0)[24]? = some ⟨0, 0, 0, 1⟩ := rfl
      have h3 : (specFaceColors 0 2 0)[24]? = some ⟨1, 1, 1, 1⟩ := rfl
      rw [h2, h3] at h1
      simp at h1

/-! ## Key bindings -/

theorem requestedBy_rotationKeys (s : State A) (hr : s.isRotating = false) :
    rotationKeys.map (fun k => requestedBy k s) =
      [some (0, 0, 1), some (0, 0, -1), some (0, 1, 1), some (0, 1, -1),
       some (0, 2, 1), some (0, 2, -1),
       some (1, 2, 1), some (1, 2, -1), some (1, 1, 1), some (1, 1, -1),
       some (1, 0, 1), some (1, 0, -1),
       some (2, 0, 1), some (2, 0, -1), some (2, 1, 1), some (2, 1, -1),
       some (2, 2, 1), some (2, 2, -1)] := by
  simp [rotationKeys, requestedBy, key_callback, startSliceRotation, hr, Xaxis, Yaxis, Zaxis]

theorem key_callback_rotationKeys (s : State A) :
    ∀ k ∈ rotationKeys, ∃ axis slice direction : Int,
      (axis, slice, direction) ∈ allTriples ∧
      key_callback k Action.PRESS s = some (startSliceRotation axis slice direction s) ∧
      key_callback k Action.REPEAT s = some (startSliceRotation axis slice direction s) ∧
      key_callback k Action.RELEASE s = some s := by
  intro k hk
  simp only [rotationKeys, List.mem_cons, List.mem_singleton, List.not_mem_nil, or_false] at hk
  rcases hk with rfl | rfl | rfl | rfl | rfl | rfl | rfl | rfl | rfl | rfl | rfl | rfl |
    rfl | rfl | rfl | rfl | rfl | rfl
  · exact ⟨Xaxis, 0, 1, by decide, rfl, rfl, rfl⟩
  · exact ⟨Xaxis, 0, -1, by decide, rfl, rfl, rfl⟩
  · exact ⟨Xaxis, 1, 1, by decide, rfl, rfl, rfl⟩
  · exact ⟨Xaxis, 1, -1, by decide, rfl, rfl, rfl⟩
  · exact ⟨Xaxis, 2, 1, by decide, rfl, rfl, rfl⟩
  · exact ⟨Xaxis, 2, -1, by decide, rfl, rfl, rfl⟩
  · exact ⟨Yaxis, 2, 1, by decide, rfl, rfl, rfl⟩
  · exact ⟨Yaxis, 2, -1, by decide, rfl, rfl, rfl⟩
  · exact ⟨Yaxis, 1, 1, by decide, rfl, rfl, rfl⟩
  · exact ⟨Yaxis, 1, -1, by decide, rfl, rfl, rfl⟩
  · exact ⟨Yaxis, 0, 1, by decide, rfl, rfl, rfl⟩
  · exact ⟨Yaxis, 0, -1, by decide, rfl, rfl, rfl⟩
  · exact ⟨Zaxis, 0, 1, by decide, rfl, rfl, rfl⟩
  · exact ⟨Zaxis, 0, -1, by decide, rfl, rfl, rfl⟩
  · exact ⟨Zaxis, 1, 1, by decide, rfl, rfl, rfl⟩
  · exact ⟨Zaxis, 1, -1, by decide, rfl, rfl, rfl⟩
  · exact ⟨Zaxis, 2, 1, by decide, rfl, rfl, rfl⟩
  · exact ⟨Zaxis, 2, -1, by decide, rfl, rfl, rfl⟩

/-- C15. The 18 slice-rotation keys of `key_callback` map one-to-one onto the
18 triples of {Xaxis, Yaxis, Zaxis} x {0,1,2} x {+1,-1}: on a press (or repeat)
each key calls `startSliceRotation` with one of the triples; read off on a state
with no rotation active, the requests of the 18 keys are a rearrangement of the
18 triples, so no two keys request the same triple and every triple is requested
by some key. -/
theorem rotation_keys_bijective (s : State A) (hr : s.isRotating = false) :
    (rotationKeys.length = 18 ∧ rotationKeys.Nodup ∧
      allTriples.length = 18 ∧ allTriples.Nodup) ∧
    (∀ k ∈ rotationKeys, ∃ axis slice direction : Int,
      (axis, slice, direction) ∈ allTriples ∧
      key_callback k Action.PRESS s = some (startSliceRotation axis slice direction s) ∧
      key_callback k Action.REPEAT s = some (startSliceRotation axis slice direction s) ∧
      key_callback k Action.RELEASE s = some s) ∧
    (rotationKeys.map (fun k => requestedBy k s)).Perm (allTriples.map some) ∧
    (∀ k1 ∈ rotationKeys, ∀ k2 ∈ rotationKeys,
      requestedBy k1 s = requestedBy k2 s → k1 = k2) ∧
    (∀ t ∈ allTriples, ∃ k ∈ rotationKeys, requestedBy k s = some t) := by
  have hperm : (rotationKeys.map (fun k => requestedBy k s)).Perm (allTriples.map some) := by
    rw [requestedBy_rotationKeys s hr]
    decide
  have hnd : allTriples.Nodup := by decide
  have hnd' : (rotationKeys.map (fun k => requestedBy k s)).Nodup :=
    hperm.nodup_iff.mpr (hnd.map (Option.some_injective _))
  refine ⟨⟨rfl, by decide, rfl, hnd⟩, key_callback_rotationKeys s, hperm, ?_, ?_⟩
  · intro k1 h1 k2 h2 heq
    exact List.inj_on_of_nodup_map hnd' h1 h2 heq
  · intro t ht
    have : some t ∈ rotationKeys.map (fun k => requestedBy k s) :=
      hperm.mem_iff.mpr (List.mem_map_of_mem _ ht)
    obtain ⟨k, hk, hk'⟩ := List.mem_map.mp this
    exact ⟨k, hk, hk'⟩

/-- Witness of C15 on the freshly initialised cube. -/
theorem rotation_keys_bijective_witness :
    freshCube.isRotating = false ∧
    (rotationKeys.map (fun k => requestedBy k freshCube)).Perm (allTriples.map some) ∧
    (∀ t ∈ allTriples, ∃ k ∈ rotationKeys, requestedBy k freshCube = some t) :=
  ⟨rfl, (rotation_keys_bijective freshCube rfl).2.2.1,
    (rotation_keys_bijective freshCube rfl).2.2.2.2⟩

/-- Counterexample to C16 as stated. The key `F`, which the help text names
the front slice, requests on the freshly initialised cube the rotation of slice
0 about X, the cubes with `x == 0`: the cube of index 0, at grid (0,0,0), is in
that slice although `generateSubcubeGeometry` gave it black front entries and
blue left entries, and the cube of index 14, at grid (1,1,2), has red front
entries and is not in the slice. Likewise `B` (back) requests the slice
`x == 2`, `L` (left) the slice `z == 0` and `R` (right) the slice `z == 2`,
while `T` and `U` request `y == 2` and `y == 0`. -/
theorem front_key_turns_left_face :
    key_callback Key.F Action.PRESS freshCube = some (startSliceRotation Xaxis 0 1 freshCube) ∧
    key_callback Key.C Action.PRESS freshCube =
      some (startSliceRotation Xaxis 0 (-1) freshCube) ∧
    (∃ c : Subcube Angel.turns, freshCube.subcubes[0]? = some c ∧ c.grid = (0, 0, 0) ∧
      c.isInSlice Xaxis 0 = true ∧
      c.colors[0]? = some black ∧ c.colors[18]? = some (⟨0, 0, 1, 1⟩ : color4)) ∧
    (∃ c : Subcube Angel.turns, freshCube.subcubes[14]? = some c ∧ c.grid = (1, 1, 2) ∧
      c.isInSlice Xaxis 0 = false ∧ c.colors[0]? = some (⟨1, 0, 0, 1⟩ : color4)) ∧
    key_callback Key.B Action.PRESS freshCube = some (startSliceRotation Xaxis 2 1 freshCube) ∧
    key_callback Key.L Action.PRESS freshCube = some (startSliceRotation Zaxis 0 1 freshCube) ∧
    key_callback Key.R Action.PRESS freshCube = some (startSliceRotation Zaxis 2 1 freshCube) ∧
    key_callback Key.T Action.PRESS freshCube = some (startSliceRotation Yaxis 2 1 freshCube) ∧
    key_callback Key.U Action.PRESS freshCube = some (startSliceRotation Yaxis 0 1 freshCube) := by
  refine ⟨rfl, rfl, ⟨_, rfl, rfl, rfl, rfl, rfl⟩, ⟨_, rfl, rfl, rfl, rfl⟩, rfl, rfl, rfl, rfl, rfl⟩

theorem entry_of_colors (cube : Subcube A) (k : Nat)
    (col : color4) (test : Prop) [Decidable test]
    (hcol : col ≠ black)
    (h : (generateSubcubeGeometry cube).colors[k]? = some (if test then col else black)) :
    (generateSubcubeGeometry cube).colors[k]? = some col ↔ test := by
  rw [h]
  by_cases ht : test
  · simp [ht]
  · simp only [ht, if_false, Option.some.injEq, iff_false]
    exact fun e => hcol e.symm

/-- C16 (as amended). Each face-named key pair of the help text requests the
slice of its axis group as the help text and the `case` comments document it:
`f/c` (front) and `b/v` (back) turn the slices 0 and 2 about X, the cubes with
`x == 0` and `x == 2`; `t/y` (top) and `u/i` (bottom) turn the slices 2 and 0
about Y, the cubes with `y == 2` and `y == 0`; `l/k` (left) and `r/e` (right)
turn the slices 0 and 2 about Z, the cubes with `z == 0` and `z == 2`; the
first key of a pair turns in direction +1, the second in direction -1.
`generateSubcubeGeometry` colours a face when `z == 2` (front, red), `z == 0`
(back, orange), `x == 2` (right, green), `x == 0` (left, blue), `y == 2` (top,
white), `y == 0` (bottom, yellow). So the slices of `t/y` and `u/i` are the
cubes it treats as exterior on the face of the same name, while the slices of
`f/c`, `b/v`, `l/k`, `r/e` are the cubes it treats as exterior on its left,
right, back and front face. -/
theorem face_keys_slices (s : State A) (c : Subcube A) :
    (key_callback Key.F Action.PRESS s = some (startSliceRotation Xaxis 0 1 s) ∧
      key_callback Key.C Action.PRESS s = some (startSliceRotation Xaxis 0 (-1) s) ∧
      key_callback Key.B Action.PRESS s = some (startSliceRotation Xaxis 2 1 s) ∧
      key_callback Key.V Action.PRESS s = some (startSliceRotation Xaxis 2 (-1) s) ∧
      key_callback Key.T Action.PRESS s = some (startSliceRotation Yaxis 2 1 s) ∧
      key_callback Key.Y Action.PRESS s = some (startSliceRotation Yaxis 2 (-1) s) ∧
      key_callback Key.U Action.PRESS s = some (startSliceRotation Yaxis 0 1 s) ∧
      key_callback Key.I Action.PRESS s = some (startSliceRotation Yaxis 0 (-1) s) ∧
      key_callback Key.L Action.PRESS s = some (startSliceRotation Zaxis 0 1 s) ∧
      key_callback Key.K Action.PRESS s = some (startSliceRotation Zaxis 0 (-1) s) ∧
      key_callback Key.R Action.PRESS s = some (startSliceRotation Zaxis 2 1 s) ∧
      key_callback Key.E Action.PRESS s = some (startSliceRotation Zaxis 2 (-1) s)) ∧
    ((c.isInSlice Xaxis 0 = true ↔ c.x = 0) ∧ (c.isInSlice Xaxis 2 = true ↔ c.x = 2) ∧
      (c.isInSlice Yaxis 2 = true ↔ c.y = 2) ∧ (c.isInSlice Yaxis 0 = true ↔ c.y = 0) ∧
      (c.isInSlice Zaxis 0 = true ↔ c.z = 0) ∧ (c.isInSlice Zaxis 2 = true ↔ c.z = 2)) ∧
    (((generateSubcubeGeometry c).colors[0]? = some (⟨1, 0, 0, 1⟩ : color4) ↔ c.z = 2) ∧
      ((generateSubcubeGeometry c).colors[6]? = some (⟨1, 1 / 2, 0, 1⟩ : color4) ↔ c.z = 0) ∧
      ((generateSubcubeGeometry c).colors[12]? = some (⟨0, 1, 0, 1⟩ : color4) ↔ c.x = 2) ∧
      ((generateSubcubeGeometry c).colors[18]? = some (⟨0, 0, 1, 1⟩ : color4) ↔ c.x = 0) ∧
      ((generateSubcubeGeometry c).colors[24]? = some (⟨1, 1, 1, 1⟩ : color4) ↔ c.y = 2) ∧
      ((generateSubcubeGeometry c).colors[30]? = some (⟨1, 1, 0, 1⟩ : color4) ↔ c.y = 0)) := by
  refine ⟨⟨rfl, rfl, rfl, rfl, rfl, rfl, rfl, rfl, rfl, rfl, rfl, rfl⟩, ?_, ?_⟩
  · simp [Subcube.isInSlice, Xaxis, Yaxis, Zaxis]
  · have hc := colors_generateSubcubeGeometry c
    refine ⟨?_, ?_, ?_, ?_, ?_, ?_⟩
    · exact entry_of_colors c 0 _ (c.z = 2) (by simp [black])
        (by rw [hc]; rfl)
    · exact entry_of_colors c 6 _ (c.z = 0) (by simp [black])
        (by rw [hc]; rfl)
    · exact entry_of_colors c 12 _ (c.x = 2) (by simp [black])
        (by rw [hc]; rfl)
    · exact entry_of_colors c 18 _ (c.x = 0) (by simp [black])
        (by rw [hc]; rfl)
    · exact entry_of_colors c 24 _ (c.y = 2) (by simp [black])
        (by rw [hc]; rfl)
    · exact entry_of_colors c 30 _ (c.y = 0) (by simp [black])
        (by rw [hc]; rfl)

/-! ## Scrambling implies rotating -/

theorem scrambling_rotating_of_reachable {s : State A} (h : Reachable s)
    (hs : s.isScrambling = true) : s.isRotating = true := by
  induction h with
  | init randSeq => exact absurd hs (by simp [initializeSubcubes, State.initial])
  | @rotation s axis slice direction _ _ _ _ _ _ ih =>
    by_cases h0 : s.isRotating = true
    · rw [startSliceRotation_active axis slice direction s h0] at hs ⊢
      exact h0
    · rw [startSliceRotation_idle axis slice direction s (by simpa using h0)]
  | @scrambling s moves _ ih =>
    by_cases h0 : s.isRotating = true
    · rw [startScrambling_active moves s h0] at hs ⊢
      exact h0
    · have hr : s.isRotating = false := by simpa using h0
      by_cases h1 : s.isScrambling = true
      · exact absurd (ih h1) h0
      · exact (startScrambling_idle moves s hr (by simpa using h1)).1
  | @tick s _ ih =>
    by_cases hc : s.completes = true
    · by_cases h1 : s.isScrambling = true
      · by_cases hm : s.currentScramblingMove + 1 < s.maxScramblingMoves
        · rw [update_finish_next s hc h1 hm]
          exact (performRandomMove_params _ rfl).1
        · rw [update_finish_last s hc h1 hm] at hs
          exact absurd hs (by simp)
      · rw [update_finish s hc (by simpa using h1)] at hs
        exact absurd hs h1
    · by_cases h0 : s.isRotating = true
      · rw [update_step s h0 (by simpa using hc)]
        exact h0
      · have hr : s.isRotating = false := by simpa using h0
        by_cases h1 : s.isScrambling = true
        · exact absurd (ih h1) h0
        · rw [update_idle s hr (by simpa using h1)] at hs
          exact absurd hs h1

/-- C26. In every state reachable through `startSliceRotation`,
`startScrambling` and `update`, `isScrambling` implies `isRotating`.
Consequently the condition of the branch of `update` that starts a random move
when no rotation is active (`!isRotating && isScrambling &&
currentScramblingMove < maxScramblingMoves`) never holds, a tick with no
rotation active returns the state unchanged, and every rotation request made
while a scramble is in progress returns the state unchanged. -/
theorem scrambling_implies_rotating (s : State A) (h : Reachable s) :
    (s.isScrambling = true → s.isRotating = true) ∧
    ¬ (s.isRotating = false ∧ s.isScrambling = true ∧
        s.currentScramblingMove < s.maxScramblingMoves) ∧
    (s.isRotating = false → update s = s) ∧
    (s.isScrambling = true →
      ∀ axis slice direction : Int, startSliceRotation axis slice direction s = s) := by
  have hinv := scrambling_rotating_of_reachable h
  refine ⟨hinv, fun hn => ?_, fun hr => ?_, fun hs axis slice direction =>
    startSliceRotation_active axis slice direction s (hinv hs)⟩
  · have := hinv hn.2.1
    rw [hn.1] at this
    exact absurd this (by simp)
  · have hs : s.isScrambling = false := by
      by_cases h1 : s.isScrambling = true
      · have := hinv h1
        rw [hr] at this
        exact absurd this (by simp)
      · simpa using h1
    exact update_idle s hr hs

/-- Witness of C26: the state right after `startScrambling(20)` on the freshly
initialised cube is reachable and has a scramble in progress; a request for
slice 2 about Z is dropped there. -/
theorem scrambling_implies_rotating_witness :
    Reachable (startScrambling 20 freshCube) ∧
    (startScrambling 20 freshCube).isScrambling = true ∧
    (startScrambling 20 freshCube).isRotating = true ∧
    startSliceRotation 2 2 1 (startScrambling 20 freshCube) = startScrambling 20 freshCube :=
  ⟨Reachable.scrambling 20 (Reachable.init _), rfl,
    (scrambling_implies_rotating _ (Reachable.scrambling 20 (Reachable.init _))).1 rfl,
    (scrambling_implies_rotating _ (Reachable.scrambling 20 (Reachable.init _))).2.2.2 rfl
      2 2 1⟩

/-! ## Vertex indices of the faces -/

theorem indices_generateSubcubeGeometry (cube : Subcube A) :
    (generateSubcubeGeometry cube).indices =
      [1, 0, 3, 1, 3, 2,
       5, 4, 7, 5, 7, 6,
       2, 3, 7, 2, 7, 6,
       1, 5, 4, 1, 4, 0,
       1, 5, 6, 1, 6, 2,
       0, 4, 7, 0, 7, 3] := rfl

theorem face_corners (face j : Nat) (hf : face < 6) (hj : j < 8) (v : point4)
    (hv : unit_vertices[j]? = some v) :
    (j : Int) ∈ (([1, 0, 3, 1, 3, 2,
       5, 4, 7, 5, 7, 6,
       2, 3, 7, 2, 7, 6,
       1, 5, 4, 1, 4, 0,
       1, 5, 6, 1, 6, 2,
       0, 4, 7, 0, 7, 3] : List Int).drop (6 * face)).take 6 ↔ onFacePlane face v := by
  interval_cases face <;> interval_cases j <;>
    simp [unit_vertices] at hv <;> subst hv <;> simp [onFacePlane] <;> norm_num

theorem eight_entries {α : Type} (l : List α) (h : l.length = 8) :
    ∃ v0 v1 v2 v3 v4 v5 v6 v7 : α, l = [v0, v1, v2, v3, v4, v5, v6, v7] := by
  match l, h with
  | [v0, v1, v2, v3, v4, v5, v6, v7], _ => exact ⟨v0, v1, v2, v3, v4, v5, v6, v7, rfl⟩

theorem drawSubcube_generateSubcubeGeometry (cube : Subcube A)
    (hv : cube.vertices.length = 8) (hd : cube.drawn = true) :
    ∃ d : List point4 × List color4,
      drawSubcube (generateSubcubeGeometry cube) = some d ∧
      d.1.length = 36 ∧ d.2 = (generateSubcubeGeometry cube).colors := by
  obtain ⟨v0, v1, v2, v3, v4, v5, v6, v7, hl⟩ := eight_entries cube.vertices hv
  have hvert : (generateSubcubeGeometry cube).vertices = [v0, v1, v2, v3, v4, v5, v6, v7] := hl
  have hdr : (generateSubcubeGeometry cube).drawn = true := hd
  have hcol := colors_generateSubcubeGeometry cube
  have hidx := indices_generateSubcubeGeometry cube
  unfold drawSubcube
  rw [hdr, hvert, hcol, hidx]
  refine ⟨_, rfl, rfl, ?_⟩
  rfl

/-- C27. After `generateSubcubeGeometry`, `cube.indices` has 36 entries, all in
0..7; for a drawn cube with its 8 vertices (as after `init`), every lookup
`cube.vertices[cube.indices[i]]` of `drawSubcube` is in bounds and 36 vertices
are produced. For each of the six faces (entries `6*face .. 6*face+5`), the
first three and the last three indices are two triangles with three distinct
corners each, and a corner of `unit_vertices` occurs among the six indices
exactly when it lies on the plane of that face (front `z = +0.5`, back
`z = -0.5`, right `x = +0.5`, left `x = -0.5`, top `y = +0.5`, bottom
`y = -0.5`). -/
theorem face_indices (cube : Subcube A) :
    (generateSubcubeGeometry cube).indices.length = 36 ∧
    (∀ i ∈ (generateSubcubeGeometry cube).indices, 0 ≤ i ∧ i ≤ 7) ∧
    (∀ x y z : Int, ∃ d : List point4 × List color4,
      drawSubcube (generateSubcubeGeometry (cube.init x y z)) = some d ∧
      d.1.length = 36) ∧
    (∀ face : Nat, face < 6 →
      ((((generateSubcubeGeometry cube).indices.drop (6 * face)).take 6).take 3).Nodup ∧
      ((((generateSubcubeGeometry cube).indices.drop (6 * face)).take 6).drop 3).Nodup ∧
      (((generateSubcubeGeometry cube).indices.drop (6 * face)).take 6).length = 6 ∧
      ∀ (j : Nat) (v : point4), unit_vertices[j]? = some v →
        ((j : Int) ∈ ((generateSubcubeGeometry cube).indices.drop (6 * face)).take 6 ↔
          onFacePlane face v)) := by
  rw [indices_generateSubcubeGeometry]
  refine ⟨rfl, by decide, fun x y z => ?_, fun face hf => ?_⟩
  · obtain ⟨d, h1, h2, -⟩ := drawSubcube_generateSubcubeGeometry (cube.init x y z) rfl rfl
    exact ⟨d, h1, h2⟩
  · refine ⟨?_, ?_, ?_, fun j v hv => ?_⟩
    · interval_cases face <;> decide
    · interval_cases face <;> decide
    · interval_cases face <;> rfl
    · have hj : j < 8 := by
        have := List.getElem?_eq_some_iff.mp hv
        obtain ⟨h, -⟩ := this
        exact h
      exact face_corners face j hf hj v hv

/-! ## Whole-cube view angles -/

/-- C24 (the code at the failing input). From the initial view
(`Theta = {30, 30, 0}`), the left button is pressed with the cursor at
(100, 100) and the cursor then moves to (0, 100), a displacement `dx = -100`:
`Theta[Yaxis]` was 30, inside [0, 360], and becomes `fmod(-20, 360) = -20`,
outside [0, 360]; `Theta[Xaxis]` stays 30. A move to (100, 0) does the same to
`Theta[Xaxis]`. -/
theorem drag_left_leaves_range :
    (mouse_button_callback MouseButton.LEFT Action.PRESS 100 100
      ViewState.initial).leftMousePressed = true ∧
    (0 ≤ (mouse_button_callback MouseButton.LEFT Action.PRESS 100 100
      ViewState.initial).ThetaY ∧
     (mouse_button_callback MouseButton.LEFT Action.PRESS 100 100
      ViewState.initial).ThetaY ≤ 360) ∧
    (cursor_position_callback 0 100
      (mouse_button_callback MouseButton.LEFT Action.PRESS 100 100
        ViewState.initial)).ThetaY = -20 ∧
    (cursor_position_callback 0 100
      (mouse_button_callback MouseButton.LEFT Action.PRESS 100 100
        ViewState.initial)).ThetaX = 30 ∧
    (cursor_position_callback 100 0
      (mouse_button_callback MouseButton.LEFT Action.PRESS 100 100
        ViewState.initial)).ThetaX = -20 := by
  have hc : ⌈(-20 : ℚ) / 360⌉ = 0 := by
    rw [Int.ceil_eq_iff]
    norm_num
  have hf : ⌊(30 : ℚ) / 360⌋ = 0 := by
    rw [Int.floor_eq_iff]
    norm_num
  have h1 : fmod (-20) 360 = -20 := by
    unfold fmod
    rw [if_neg (by norm_num), hc]
    norm_num
  have h2 : fmod 30 360 = 30 := by
    unfold fmod
    rw [if_pos (by norm_num), hf]
    norm_num
  refine ⟨rfl, ⟨?_, ?_⟩, ?_, ?_, ?_⟩
  · simp [mouse_button_callback, ViewState.initial]
  · simp [mouse_button_callback, ViewState.initial]
    norm_num
  · simp only [cursor_position_callback, mouse_button_callback, ViewState.initial, if_true]
    norm_num
    exact h1
  · simp only [cursor_position_callback, mouse_button_callback, ViewState.initial, if_true]
    norm_num
    exact h2
  · simp only [cursor_position_callback, mouse_button_callback, ViewState.initial, if_true]
    norm_num
    exact h1

/-! ## Grid permutation and geometry -/

theorem rotation_zero_gridCentre (hG : A.Geometric) (axis : Int) (g : Int × Int × Int) :
    A.apply (rotationMatrix A axis 0) (gridCentre g) = gridCentre g := by
  unfold rotationMatrix gridCentre
  split_ifs
  · exact hG.rotateX_zero _ _ _
  · exact hG.rotateY_zero _ _ _
  · exact hG.rotateZ_zero _ _ _

theorem rotation_add_apply (hG : A.Geometric) (axis : Int) (a b : ℚ) (v : vec4) :
    A.apply (rotationMatrix A axis a) (A.apply (rotationMatrix A axis b) v) =
      A.apply (rotationMatrix A axis (a + b)) v := by
  unfold rotationMatrix
  split_ifs
  · exact hG.rotateX_add a b v
  · exact hG.rotateY_add a b v
  · exact hG.rotateZ_add a b v

theorem rotateX_back (hG : A.Geometric) (x y z : ℚ) :
    A.apply (A.RotateX (-90)) ⟨x, y, z, 1⟩ = ⟨x, z, -y, 1⟩ := by
  have h := hG.rotateX_add (-90) 90 ⟨x, z, -y, 1⟩
  rw [hG.rotateX_quarter, neg_neg, neg_add_cancel, hG.rotateX_zero] at h
  exact h

theorem rotateY_back (hG : A.Geometric) (x y z : ℚ) :
    A.apply (A.RotateY (-90)) ⟨x, y, z, 1⟩ = ⟨-z, y, x, 1⟩ := by
  have h := hG.rotateY_add (-90) 90 ⟨-z, y, x, 1⟩
  rw [hG.rotateY_quarter, neg_neg, neg_add_cancel, hG.rotateY_zero] at h
  exact h

theorem rotateZ_back (hG : A.Geometric) (x y z : ℚ) :
    A.apply (A.RotateZ (-90)) ⟨x, y, z, 1⟩ = ⟨y, -x, z, 1⟩ := by
  have h := hG.rotateZ_add (-90) 90 ⟨y, -x, z, 1⟩
  rw [hG.rotateZ_quarter, neg_neg, neg_add_cancel, hG.rotateZ_zero] at h
  exact h

/-- The grid tuple assigned on completion, taken relative to the centre
`(1,1,1)`, is the quarter turn of the old one. -/
theorem updateGrid_quarter (axis direction : Int) (c : Subcube A)
    (ha : axis = 0 ∨ axis = 1 ∨ axis = 2) (hd : direction = 1 ∨ direction = -1) :
    ((updateGrid axis direction c).x - 1, (updateGrid axis direction c).y - 1,
      (updateGrid axis direction c).z - 1) =
      specQuarterTurn axis direction (c.x - 1, c.y - 1, c.z - 1) := by
  rcases ha with rfl | rfl | rfl <;> rcases hd with rfl | rfl <;>
    simp [updateGrid, specQuarterTurn, Xaxis, Yaxis, Zaxis] <;> omega

/-- The quarter turn of the matrix library moves the point of a grid tuple to
the point of the tuple assigned on completion. -/
theorem rotation_quarter_gridCentre (hG : A.Geometric) (axis direction : Int)
    (c : Subcube A)
    (ha : axis = 0 ∨ axis = 1 ∨ axis = 2) (hd : direction = 1 ∨ direction = -1) :
    A.apply (rotationMatrix A axis ((direction : ℚ) * 90)) (gridCentre c.grid) =
      gridCentre (updateGrid axis direction c).grid := by
  rcases ha with rfl | rfl | rfl <;> rcases hd with rfl | rfl
  · simp only [rotationMatrix, Xaxis, Yaxis, gridCentre, Int.cast_one, one_mul, if_true]
    rw [hG.rotateX_quarter]
    simp [updateGrid, Subcube.grid, Xaxis]
    ring
  · simp only [rotationMatrix, Xaxis, Yaxis, gridCentre, Int.cast_neg, Int.cast_one,
      neg_one_mul, if_true]
    rw [rotateX_back hG]
    simp [updateGrid, Subcube.grid, Xaxis]
    ring
  · simp only [rotationMatrix, Xaxis, Yaxis, gridCentre, Int.cast_one, one_mul, if_true,
      one_ne_zero, if_false]
    rw [hG.rotateY_quarter]
    simp [updateGrid, Subcube.grid, Xaxis, Yaxis]
    ring
  · simp only [rotationMatrix, Xaxis, Yaxis, gridCentre, Int.cast_neg, Int.cast_one,
      neg_one_mul, if_true, one_ne_zero, if_false]
    rw [rotateY_back hG]
    simp [updateGrid, Subcube.grid, Xaxis, Yaxis]
    ring
  · simp only [rotationMatrix, Xaxis, Yaxis, gridCentre, Int.cast_one, one_mul,
      OfNat.ofNat_ne_zero, OfNat.ofNat_ne_one, if_false]
    rw [hG.rotateZ_quarter]
    simp [updateGrid, Subcube.grid, Xaxis, Yaxis]
    ring
  · simp only [rotationMatrix, Xaxis, Yaxis, gridCentre, Int.cast_neg, Int.cast_one,
      neg_one_mul, OfNat.ofNat_ne_zero, OfNat.ofNat_ne_one, if_false]
    rw [rotateZ_back hG]
    simp [updateGrid, Subcube.grid, Xaxis, Yaxis]
    ring

theorem centred_of_atRest (hG : A.Geometric) (s : State A) (h : AtRest s.subcubes)
    (h0 : s.isRotating = true → s.rotationAngle = 0) : Centred s := by
  intro c hc
  split_ifs with hi
  · simp only [Bool.and_eq_true] at hi
    rw [h0 hi.1, rotation_zero_gridCentre hG]
    exact h c hc
  · exact h c hc

theorem atRest_of_centred (s : State A) (h : Centred s) (hr : s.isRotating = false) :
    AtRest s.subcubes := by
  intro c hc
  have := h c hc
  rw [hr] at this
  simpa using this

theorem atRest_initial (hG : A.Geometric) (randSeq : Nat → Nat) :
    AtRest (initializeSubcubes (State.initial A randSeq)).subcubes := by
  intro c hc
  unfold initializeSubcubes at hc
  obtain ⟨a, _, g, _, rfl⟩ := exists_of_mem_zipWith _ _ _ c hc
  show A.apply (A.Translate _) ⟨0, 0, 0, 1⟩ = _
  rw [hG.apply_translate]
  rfl

theorem renderedCentre_rotate (hG : A.Geometric) (c : Subcube A) (axis : Int) (angle : ℚ) :
    renderedCentre (c.rotate axis angle) =
      A.apply (rotationMatrix A axis angle) (renderedCentre c) := by
  unfold renderedCentre
  rw [transform_rotate, hG.apply_mul]

theorem renderedCentre_updateGrid (axis direction : Int) (c : Subcube A) :
    renderedCentre (updateGrid axis direction c) = renderedCentre c := by
  unfold renderedCentre
  rw [(transform_updateGrid axis direction c).1]

theorem grid_updateGrid_rotate (axis direction ax : Int) (angle : ℚ) (c : Subcube A) :
    (updateGrid axis direction (c.rotate ax angle)).grid = (updateGrid axis direction c).grid := by
  unfold updateGrid
  split_ifs <;> rfl

/-- The completion loop leaves every cube at the point of its grid tuple. -/
theorem atRest_finish (hG : A.Geometric) (s : State A) (h : Centred s)
    (hr : s.isRotating = true)
    (hd : s.rotationDirection = 1 ∨ s.rotationDirection = -1) :
    AtRest (s.subcubes.map (finishCube s)) := by
  intro c' hc'
  obtain ⟨c, hc, rfl⟩ := List.mem_map.1 hc'
  have hcen := h c hc
  by_cases hi : c.isInSlice s.rotationAxis s.rotatingSlice = true
  · have ha := axis_of_gridInSlice c.grid s.rotationAxis s.rotatingSlice
      (by rw [← isInSlice_eq]; exact hi)
    rw [hr, hi] at hcen
    simp only [Bool.and_self, if_true] at hcen
    unfold finishCube
    rw [if_pos hi, final_angle _ _ _ hd, renderedCentre_updateGrid,
      renderedCentre_rotate hG, hcen, rotation_add_apply hG, sub_add_cancel,
      rotation_quarter_gridCentre hG _ _ c ha hd, grid_updateGrid_rotate]
  · have hi' : c.isInSlice s.rotationAxis s.rotatingSlice = false := by simpa using hi
    rw [finishCube_of_not_inSlice s c hi']
    rw [hi'] at hcen
    simpa using hcen

/-- An incremental tick keeps the cubes in position. -/
theorem centred_step (hG : A.Geometric) (s : State A) (h : Centred s)
    (hr : s.isRotating = true) (hc : s.completes = false) : Centred (update s) := by
  rw [update_step s hr hc]
  intro c' hc'
  obtain ⟨c, hc, rfl⟩ := List.mem_map.1 hc'
  have hcen := h c hc
  show renderedCentre (stepCube s c) =
    if s.isRotating && (stepCube s c).isInSlice s.rotationAxis s.rotatingSlice then
      A.apply (rotationMatrix A s.rotationAxis
        (s.rotationAngle + s.rotationIncrement * (s.rotationDirection : ℚ)))
        (gridCentre (stepCube s c).grid)
    else gridCentre (stepCube s c).grid
  rw [grid_stepCube, isInSlice_eq, grid_stepCube, ← isInSlice_eq]
  by_cases hi : c.isInSlice s.rotationAxis s.rotatingSlice = true
  · rw [hr, hi] at hcen ⊢
    simp only [Bool.and_self, if_true] at hcen ⊢
    unfold stepCube
    rw [if_pos hi, renderedCentre_rotate hG, hcen, rotation_add_apply hG, add_comm]
  · have hi' : c.isInSlice s.rotationAxis s.rotatingSlice = false := by simpa using hi
    rw [stepCube_of_not_inSlice s c hi']
    rw [hi'] at hcen ⊢
    simpa using hcen

theorem centred_performRandomMove (hG : A.Geometric) (t : State A)
    (hr : t.isRotating = false) (h : AtRest t.subcubes) :
    Centred (performRandomMove t) :=
  centred_of_atRest hG _ (by rw [subcubes_performRandomMove]; exact h)
    (fun _ => (performRandomMove_params t hr).2.2.2.2)

/-- In every reachable state the cubes are in position. -/
theorem centred_of_reachable (hG : A.Geometric) {s : State A} (h : Reachable s) :
    Centred s := by
  induction h with
  | init randSeq => exact centred_of_atRest hG _ (atRest_initial hG randSeq) (fun h => by
      simp [initializeSubcubes, State.initial] at h)
  | @rotation s axis slice direction hs _ _ _ _ _ ih =>
    by_cases h0 : s.isRotating = true
    · rw [startSliceRotation_active axis slice direction s h0]
      exact ih
    · have hr : s.isRotating = false := by simpa using h0
      rw [startSliceRotation_idle axis slice direction s hr]
      exact centred_of_atRest hG _ (atRest_of_centred s ih hr) (fun _ => rfl)
  | @scrambling s moves hs ih =>
    by_cases h0 : s.isRotating = true
    · rw [startScrambling_active moves s h0]
      exact ih
    · have hr : s.isRotating = false := by simpa using h0
      unfold startScrambling
      split_ifs
      · exact centred_performRandomMove hG _ hr (atRest_of_centred s ih hr)
      · exact ih
  | @tick s hs ih =>
    by_cases hc : s.completes = true
    · have hr : s.isRotating = true := by
        simp only [State.completes, Bool.and_eq_true] at hc
        exact hc.1
      have hd := (params_of_reachable hs hr).2.2
      have hrest := atRest_finish hG s ih hr hd
      by_cases h1 : s.isScrambling = true
      · by_cases hm : s.currentScramblingMove + 1 < s.maxScramblingMoves
        · rw [update_finish_next s hc h1 hm]
          exact centred_performRandomMove hG _ rfl hrest
        · rw [update_finish_last s hc h1 hm]
          exact centred_of_atRest hG _ hrest (fun h => by simp at h)
      · rw [update_finish s hc (by simpa using h1)]
        exact centred_of_atRest hG _ hrest (fun h => by simp at h)
    · by_cases h0 : s.isRotating = true
      · exact centred_step hG s ih h0 (by simpa using hc)
      · have hr : s.isRotating = false := by simpa using h0
        simp only [update, hr, Bool.false_eq_true, if_false]
        split_ifs
        · exact centred_performRandomMove hG s hr (atRest_of_centred s ih hr)
        · exact ih

/-! ### The laws in the instance `Angel.quarters` -/

theorem iterate_mod_four {α : Type} (Q : α → α) (hQ : ∀ p, Q (Q (Q (Q p))) = p) (p : α) :
    ∀ n : Nat, Q^[n] p = Q^[n % 4] p := by
  intro n
  induction n using Nat.strong_induction_on with
  | _ n ih =>
    by_cases hn : n < 4
    · rw [Nat.mod_eq_of_lt hn]
    · obtain ⟨m, rfl⟩ : ∃ m, n = m + 4 := ⟨n - 4, by omega⟩
      rw [Function.iterate_add_apply]
      have h4 : Q^[4] p = p := hQ p
      rw [h4, ih m (by omega)]
      congr 1
      omega

theorem iterate_quarters {α : Type} (Q : α → α) (hQ : ∀ p, Q (Q (Q (Q p))) = p) (p : α)
    (q1 q2 : Int) :
    Q^[(q2 % 4).toNat] (Q^[(q1 % 4).toNat] p) = Q^[((q2 + q1) % 4).toNat] p := by
  rw [← Function.iterate_add_apply, iterate_mod_four Q hQ p ((q2 % 4).toNat + (q1 % 4).toNat)]
  congr 1
  omega

theorem turn_add (Q : ℚ × ℚ × ℚ → ℚ × ℚ × ℚ) (hQ : ∀ p, Q (Q (Q (Q p))) = p)
    (a b : ℚ) (v : vec4) : turn Q a (turn Q b v) = turn Q (a + b) v := by
  have hq : ⌊(1 + (v.w - 1 + b - 90 * ((⌊(v.w - 1 + b) / 90⌋ : Int) : ℚ)) - 1 + a) / 90⌋
      + ⌊(v.w - 1 + b) / 90⌋ = ⌊(v.w - 1 + (a + b)) / 90⌋ := by
    rw [← Int.floor_add_int]
    congr 1
    ring
  unfold turn
  simp only
  rw [iterate_quarters Q hQ, hq]
  congr 1
  rw [← hq]
  push_cast
  ring

theorem turn_zero (Q : ℚ × ℚ × ℚ → ℚ × ℚ × ℚ) (x y z : ℚ) :
    turn Q 0 ⟨x, y, z, 1⟩ = ⟨x, y, z, 1⟩ := by
  simp [turn]

theorem turn_quarter (Q : ℚ × ℚ × ℚ → ℚ × ℚ × ℚ) (x y z : ℚ) :
    turn Q 90 ⟨x, y, z, 1⟩ = ⟨(Q (x, y, z)).1, (Q (x, y, z)).2.1, (Q (x, y, z)).2.2, 1⟩ := by
  have h : ⌊((1 : ℚ) - 1 + 90) / 90⌋ = 1 := by norm_num
  unfold turn
  simp only [h]
  norm_num

theorem quarters_geometric : Angel.quarters.Geometric where
  apply_mul := fun _ _ _ => rfl
  apply_translate := by
    intro p
    simp [Angel.quarters]
  rotateX_add := fun a b v =>
    turn_add quarterX (fun p => by simp [quarterX]) a b v
  rotateY_add := fun a b v =>
    turn_add quarterY (fun p => by simp [quarterY]) a b v
  rotateZ_add := fun a b v =>
    turn_add quarterZ (fun p => by simp [quarterZ]) a b v
  rotateX_zero := turn_zero quarterX
  rotateY_zero := turn_zero quarterY
  rotateZ_zero := turn_zero quarterZ
  rotateX_quarter := turn_quarter quarterX
  rotateY_quarter := turn_quarter quarterY
  rotateZ_quarter := turn_quarter quarterZ

theorem turnedCube_reachable : Reachable turnedCube :=
  reachable_ticks 31
    (Reachable.rotation 0 0 1 (Reachable.init fun _ => 0)
      (by decide) (by decide) (by decide) (by decide) (Or.inl rfl))

theorem turnedCube_idle : turnedCube.isRotating = false := by
  have h := (quarter_turn
    (startSliceRotation 0 0 1 (initializeSubcubes (State.initial Angel.quarters fun _ => 0)))
    rfl rfl (Or.inl rfl) (by show (0 : ℚ) < 3; norm_num) rfl 31
    (by show stepTicks 3 + 1 ≤ 31; rw [stepTicks_three])).2.1
  have e : stepTicks (startSliceRotation 0 0 1
      (initializeSubcubes (State.initial Angel.quarters fun _ => 0))).rotationIncrement + 1
      = 31 := by
    show stepTicks 3 + 1 = 31
    rw [stepTicks_three]
  rw [e] at h
  exact h

theorem turnedCube_grids : turnedCube.grids =
    gridOrder.map (gridMove 0 0 1) := by
  have h := (quarter_turn
    (startSliceRotation 0 0 1 (initializeSubcubes (State.initial Angel.quarters fun _ => 0)))
    rfl rfl (Or.inl rfl) (by show (0 : ℚ) < 3; norm_num) rfl 31
    (by show stepTicks 3 + 1 ≤ 31; rw [stepTicks_three])).2.2.2.2
  have e : stepTicks (startSliceRotation 0 0 1
      (initializeSubcubes (State.initial Angel.quarters fun _ => 0))).rotationIncrement + 1
      = 31 := by
    show stepTicks 3 + 1 = 31
    rw [stepTicks_three]
  rw [e] at h
  exact h

/-- Claim C25. The grid permutation agrees with the geometry. For every axis in
0..2, direction +1 or -1 and cube, the grid tuple that `update` assigns on
completion, taken relative to `(1,1,1)`, is the quarter turn by
`direction * 90` degrees about that axis of the old tuple relative to
`(1,1,1)` (`specQuarterTurn`: X maps `(y,z)` to `(-z,y)`, Y maps `(x,z)` to
`(z,-x)`, Z maps `(x,y)` to `(-y,x)`), and the rotation matrix of that turn
moves the point `(grid - (1,1,1)) * (cubeSize + gap)` of the old tuple to the
point of the new tuple. Hence, in exact arithmetic (`A.Geometric`), in every
reachable state with no rotation in progress each cube is rendered at
`(grid - (1,1,1)) * (cubeSize + gap)`; while a rotation is in progress this still
holds for the cubes outside the rotating slice. -/
theorem grid_agrees_with_geometry (hG : A.Geometric) (s : State A) (h : Reachable s) :
    (∀ (axis direction : Int) (c : Subcube A),
      axis = 0 ∨ axis = 1 ∨ axis = 2 → direction = 1 ∨ direction = -1 →
      ((updateGrid axis direction c).x - 1, (updateGrid axis direction c).y - 1,
        (updateGrid axis direction c).z - 1) =
        specQuarterTurn axis direction (c.x - 1, c.y - 1, c.z - 1) ∧
      A.apply (rotationMatrix A axis ((direction : ℚ) * 90)) (gridCentre c.grid) =
        gridCentre (updateGrid axis direction c).grid) ∧
    (s.isRotating = false →
      ∀ c ∈ s.subcubes, renderedCentre c =
        ⟨((c.x - 1 : Int) : ℚ) * (cubeSize + gap), ((c.y - 1 : Int) : ℚ) * (cubeSize + gap),
          ((c.z - 1 : Int) : ℚ) * (cubeSize + gap), 1⟩) ∧
    (∀ c ∈ s.subcubes, c.isInSlice s.rotationAxis s.rotatingSlice = false →
      renderedCentre c = gridCentre c.grid) := by
  refine ⟨fun axis direction c ha hd =>
    ⟨updateGrid_quarter axis direction c ha hd,
      rotation_quarter_gridCentre hG axis direction c ha hd⟩, ?_, ?_⟩
  · intro hr c hc
    exact atRest_of_centred s (centred_of_reachable hG h) hr c hc
  · intro c hc hi
    have := centred_of_reachable hG h c hc
    rw [hi] at this
    simpa using this

/-- Claim C25 in the instance `Angel.quarters`, on the freshly initialised cube
after a completed rotation of slice 0 about X in direction +1: the laws hold,
the state is reachable and idle, the grid tuples are the permuted ones, and
every cube is rendered at the point of its grid tuple. -/
theorem grid_agrees_with_geometry_witness :
    Angel.quarters.Geometric ∧ Reachable turnedCube ∧ turnedCube.isRotating = false ∧
    turnedCube.grids = gridOrder.map (gridMove 0 0 1) ∧
    ∀ c ∈ turnedCube.subcubes, renderedCentre c =
      ⟨((c.x - 1 : Int) : ℚ) * (cubeSize + gap), ((c.y - 1 : Int) : ℚ) * (cubeSize + gap),
        ((c.z - 1 : Int) : ℚ) * (cubeSize + gap), 1⟩ :=
  ⟨quarters_geometric, turnedCube_reachable, turnedCube_idle, turnedCube_grids,
    (grid_agrees_with_geometry quarters_geometric turnedCube turnedCube_reachable).2.1
      turnedCube_idle⟩

/-! ## Runs in binary32 arithmetic -/

theorem exactIncrement_three : ExactIncrement 3 := by decide!

theorem exactIncrement_ten : ExactIncrement 10 := by decide!

/-- Where the `float` operations of a tick are exact, `updateF` is `update`. -/
theorem updateF_eq_update (t : State A)
    (hd : Fp.fl32 (t.rotationDirection : ℚ) = (t.rotationDirection : ℚ))
    (h1 : Fp.fl32 (t.rotationIncrement * (t.rotationDirection : ℚ)) =
      t.rotationIncrement * (t.rotationDirection : ℚ))
    (h2 : Fp.fl32 (t.rotationAngle + t.rotationIncrement * (t.rotationDirection : ℚ)) =
      t.rotationAngle + t.rotationIncrement * (t.rotationDirection : ℚ))
    (h3 : Fp.fl32 (90 + t.rotationIncrement) = 90 + t.rotationIncrement)
    (h4 : Fp.fl32 (-90 - t.rotationIncrement) = -90 - t.rotationIncrement)
    (h5 : t.completes = true →
      Fp.fl32 ((if t.rotationDirection > 0 then 90 + t.rotationIncrement
          else -90 - t.rotationIncrement) -
          (t.rotationAngle + t.rotationIncrement * (t.rotationDirection : ℚ))) =
        (if t.rotationDirection > 0 then 90 + t.rotationIncrement
          else -90 - t.rotationIncrement) -
          (t.rotationAngle + t.rotationIncrement * (t.rotationDirection : ℚ))) :
    updateF t = update t := by
  by_cases hr : t.isRotating = true
  · by_cases hc : t.completes = true
    · have h5' := h5 hc
      simp only [State.completes, hr, Bool.true_and, decide_eq_true_eq] at hc
      simp only [updateF, update, hr, if_true, hd, h1, h2, h3, h4, hc, h5']
    · have hc' : t.completes = false := by simpa using hc
      simp only [State.completes, hr, Bool.true_and, decide_eq_false_iff_not] at hc'
      simp only [updateF, update, hr, if_true, hd, h1, h2, h3, hc', if_false]
  · have hr' : t.isRotating = false := by simpa using hr
    simp only [updateF, update, hr', Bool.false_eq_true, if_false]

theorem ticksF_succ (n : Nat) (s : State A) : ticksF (n + 1) s = updateF (ticksF n s) := by
  unfold ticksF
  rw [Function.iterate_succ_apply']

/-- At an exact increment the `float` run of a rotation just requested is the
exact run, up to and including the completing tick. -/
theorem ticksF_eq_ticks (s : State A)
    (hr : s.isRotating = true) (h0 : s.rotationAngle = 0)
    (hd : s.rotationDirection = 1 ∨ s.rotationDirection = -1)
    (hex : ExactIncrement s.rotationIncrement) (k : Nat)
    (hk : k ≤ stepTicks s.rotationIncrement + 1) : ticksF k s = ticks k s := by
  have hturn : ExactTurn s.rotationIncrement s.rotationDirection := by
    rcases hd with h | h
    · rw [h]; exact hex.2.1
    · rw [h]; exact hex.2.2
  obtain ⟨e1, e2, e3, e4, e5, e6⟩ := hturn
  induction k with
  | zero => rfl
  | succ k ih =>
    rw [ticksF_succ, ticks_succ, ih (by omega),
      ticks_eq_midTurn s hr h0 hd hex.1 k (by omega)]
    apply updateF_eq_update
    · exact e1
    · exact e2
    · exact e5 k (by omega)
    · exact e3
    · exact e4
    · intro hc
      rw [midTurn_completes s hr hd hex.1] at hc
      have hk' : k = stepTicks s.rotationIncrement := by
        simp only [decide_eq_true_eq] at hc
        omega
      rw [hk']
      exact e6

theorem updateF_step (t : State A) (hr : t.isRotating = true)
    (hc : t.completesF = false) :
    updateF t =
      { t with
        rotationAngle := Fp.fl32 (t.rotationAngle +
          Fp.fl32 (t.rotationIncrement * Fp.fl32 (t.rotationDirection : ℚ))),
        subcubes := t.subcubes.map fun (c : Subcube A) =>
          if c.isInSlice t.rotationAxis t.rotatingSlice then
            c.rotate t.rotationAxis
              (Fp.fl32 (t.rotationIncrement * Fp.fl32 (t.rotationDirection : ℚ)))
          else c } := by
  simp only [State.completesF, hr, Bool.true_and, decide_eq_false_iff_not] at hc
  simp only [updateF, hr, if_true, hc, if_false]

/-- With the increment `1e-6f` and direction +1, an angle in `[0, 32]` stays in
`[0, 32]`: the `float` sum `32 + 1e-6f` is 32. -/
theorem tiny_step (t : State A) (hr : t.isRotating = true)
    (hd : t.rotationDirection = 1) (hi : t.rotationIncrement = tinyIncrement)
    (h0 : 0 ≤ t.rotationAngle) (h32 : t.rotationAngle ≤ 32) :
    (updateF t).isRotating = true ∧ (updateF t).rotationDirection = 1 ∧
    (updateF t).rotationIncrement = tinyIncrement ∧
    0 ≤ (updateF t).rotationAngle ∧ (updateF t).rotationAngle ≤ 32 := by
  have e1 : Fp.fl32 ((1 : Int) : ℚ) = 1 := by decide!
  have e2 : Fp.fl32 (tinyIncrement * 1) = tinyIncrement := by decide!
  have e3 : Fp.fl32 (90 + tinyIncrement) = 90 := by decide!
  have e4 : Fp.fl32 (32 + tinyIncrement) = 32 := by decide!
  have hpos : 0 < tinyIncrement := by decide!
  have hlo : 0 ≤ Fp.fl32 (t.rotationAngle + tinyIncrement) :=
    Fp.fround_nonneg 24 (-126) (by linarith)
  have hhi : Fp.fl32 (t.rotationAngle + tinyIncrement) ≤ 32 := by
    have := Fp.fround_mono_pos 24 (by norm_num) (-126)
      (by linarith : 0 < t.rotationAngle + tinyIncrement)
      (by linarith : t.rotationAngle + tinyIncrement ≤ 32 + tinyIncrement)
    calc Fp.fl32 (t.rotationAngle + tinyIncrement)
        ≤ Fp.fl32 (32 + tinyIncrement) := this
      _ = 32 := e4
  have hc : t.completesF = false := by
    simp only [State.completesF, hr, hd, hi, e1, e2, e3, Bool.true_and,
      decide_eq_false_iff_not, not_le, abs_of_nonneg hlo]
    linarith
  rw [updateF_step t hr hc]
  simp only [hd, hi, e1, e2]
  exact ⟨hr, trivial, trivial, hlo, hhi⟩

theorem tiny_run (n : Nat) :
    (ticksF n (startSliceRotation 0 0 1 tinyCube)).isRotating = true ∧
    (ticksF n (startSliceRotation 0 0 1 tinyCube)).rotationDirection = 1 ∧
    (ticksF n (startSliceRotation 0 0 1 tinyCube)).rotationIncrement = tinyIncrement ∧
    0 ≤ (ticksF n (startSliceRotation 0 0 1 tinyCube)).rotationAngle ∧
    (ticksF n (startSliceRotation 0 0 1 tinyCube)).rotationAngle ≤ 32 := by
  induction n with
  | zero =>
    refine ⟨rfl, rfl, rfl, ?_, ?_⟩
    · show (0 : ℚ) ≤ 0
      exact le_rfl
    · show (0 : ℚ) ≤ 32
      norm_num
  | succ n ih =>
    rw [ticksF_succ]
    exact tiny_step _ ih.1 ih.2.1 ih.2.2.1 ih.2.2.2.1 ih.2.2.2.2

/-- C9 (as amended). Runs to completion in the `float` arithmetic of the
program (`updateF`): from an idle state (no rotation active, no scramble in
progress) whose increment is positive and such that the `float` operations of
a rotation are exact (`ExactIncrement`; it holds at 3 and 10, the values the
program assigns), a rotation requested with direction +1 or -1 is active for
exactly `stepTicks inc + 1` ticks and inactive after them, and up to that tick
the `float` run is the run of `update` in exact arithmetic. And no
cancellation: in a state with an active rotation, `startSliceRotation`,
`startScrambling` and `performRandomMove` change nothing, and a tick that is
not the completing tick leaves the rotation active with its axis, slice and
direction. -/
theorem runs_to_completion (s : State A) (axis slice direction : Int)
    (hr : s.isRotating = false) (hs : s.isScrambling = false)
    (hd : direction = 1 ∨ direction = -1) (hex : ExactIncrement s.rotationIncrement) :
    (∃ n : Nat,
      n = stepTicks s.rotationIncrement + 1 ∧
      (ticksF n (startSliceRotation axis slice direction s)).isRotating = false ∧
      (∀ k, k < n →
        (ticksF k (startSliceRotation axis slice direction s)).isRotating = true) ∧
      (∀ k, k ≤ n →
        ticksF k (startSliceRotation axis slice direction s) =
          ticks k (startSliceRotation axis slice direction s))) ∧
    (ExactIncrement 3 ∧ ExactIncrement 10) ∧
    (∀ t : State A, t.isRotating = true →
      (∀ a sl d : Int, startSliceRotation a sl d t = t) ∧
      (∀ moves : Int, startScrambling moves t = t) ∧
      performRandomMove t = t ∧
      (t.completesF = false →
        (updateF t).isRotating = true ∧
        (updateF t).rotationAxis = t.rotationAxis ∧
        (updateF t).rotatingSlice = t.rotatingSlice ∧
        (updateF t).rotationDirection = t.rotationDirection)) := by
  refine ⟨?_, ⟨exactIncrement_three, exactIncrement_ten⟩,
    fun t ht => ⟨fun a sl d => startSliceRotation_active a sl d t ht,
    fun moves => startScrambling_active moves t ht, performRandomMove_active t ht,
    fun hc => ?_⟩⟩
  · have hst := startSliceRotation_idle axis slice direction s hr
    have e1 : (startSliceRotation axis slice direction s).isRotating = true := by rw [hst]
    have e2 : (startSliceRotation axis slice direction s).rotationAngle = 0 := by rw [hst]
    have e3 : (startSliceRotation axis slice direction s).rotationDirection = 1 ∨
        (startSliceRotation axis slice direction s).rotationDirection = -1 := by
      rw [hst]; exact hd
    have e4 : (startSliceRotation axis slice direction s).rotationIncrement =
        s.rotationIncrement := by rw [hst]
    have e5 : (startSliceRotation axis slice direction s).isScrambling = false := by
      rw [hst]; exact hs
    have hinc : 0 < s.rotationIncrement := hex.1
    have hF : ∀ k, k ≤ stepTicks s.rotationIncrement + 1 →
        ticksF k (startSliceRotation axis slice direction s) =
          ticks k (startSliceRotation axis slice direction s) := by
      intro k hk
      exact ticksF_eq_ticks _ e1 e2 e3 (by rw [e4]; exact hex) k (by rw [e4]; exact hk)
    obtain ⟨hk, -, -⟩ := ticks_turn _ e1 e2 e3 (by rw [e4]; exact hinc)
    rw [e4] at hk
    refine ⟨stepTicks s.rotationIncrement + 1, rfl, ?_, fun k hk' => ?_, hF⟩
    · have := (quarter_turn _ e1 e2 e3 (by rw [e4]; exact hinc) e5
        (stepTicks s.rotationIncrement + 1) (by rw [e4])).2.1
      rw [e4] at this
      rw [hF _ le_rfl]
      exact this
    · rw [hF k (by omega)]
      exact (hk k (by omega)).1
  · rw [updateF_step t ht hc]
    exact ⟨ht, rfl, rfl, rfl⟩

/-- Witness of C9: slice 1 about Y, direction -1, requested on the freshly
initialised cube (increment 3): inactive after 31 ticks of `updateF`. -/
theorem runs_to_completion_witness :
    ExactIncrement freshCube.rotationIncrement ∧
    ∃ n : Nat, (ticksF n (startSliceRotation 1 1 (-1) freshCube)).isRotating = false :=
  ⟨exactIncrement_three,
    (runs_to_completion freshCube 1 1 (-1) rfl rfl (Or.inr rfl)
      exactIncrement_three).1.imp fun _ h => h.2.1⟩

/-- Counterexample to C9 as stated, in the `float` arithmetic of the program:
on the freshly initialised cube with `rotationIncrement` set to `1e-6f`, a
positive value, a rotation requested from the idle state with direction +1 is
still active after every number of ticks. The angle never exceeds 32, where
adding `1e-6f` no longer changes it. -/
theorem runs_to_completion_counterexample :
    tinyCube.isRotating = false ∧ tinyCube.isScrambling = false ∧
    0 < tinyCube.rotationIncrement ∧
    Fp.fl32 (32 + tinyCube.rotationIncrement) = 32 ∧
    ∀ n : Nat, (ticksF n (startSliceRotation 0 0 1 tinyCube)).isRotating = true :=
  ⟨rfl, rfl, by show 0 < tinyIncrement; decide!,
    by show Fp.fl32 (32 + tinyIncrement) = 32; decide!, fun n => (tiny_run n).1⟩

/-! ### The exact tick is the `float` tick on the states the program reaches -/

theorem fl32_small_nat : ∀ k : Nat, k ≤ 512 →
    Fp.fl32 ((k : ℚ) - 256) = (k : ℚ) - 256 := by decide!

/-- Whole numbers of absolute value at most 256 are `float` values. -/
theorem fl32_small_int (m : Int) (h1 : -256 ≤ m) (h2 : m ≤ 256) :
    Fp.fl32 (m : ℚ) = (m : ℚ) := by
  have h := fl32_small_nat (m + 256).toNat (by omega)
  have e : (((m + 256).toNat : Nat) : ℚ) = (m : ℚ) + 256 := by
    have : (((m + 256).toNat : Nat) : Int) = m + 256 := Int.toNat_of_nonneg (by omega)
    exact_mod_cast this
  rw [e] at h
  simpa using h

theorem wholeAngles_of_idle (s : State A) (hr : s.isRotating = false)
    (hi : s.rotationIncrement = 3 ∨ s.rotationIncrement = 10) : WholeAngles s :=
  ⟨hi, fun h => by rw [hr] at h; exact absurd h (by simp)⟩

theorem wholeAngles_startSliceRotation (axis slice direction : Int) (s : State A)
    (hd : direction = 1 ∨ direction = -1) (h : WholeAngles s) :
    WholeAngles (startSliceRotation axis slice direction s) := by
  by_cases hr : s.isRotating = true
  · rw [startSliceRotation_active axis slice direction s hr]
    exact h
  · rw [startSliceRotation_idle axis slice direction s (by simpa using hr)]
    exact ⟨h.1, fun _ => ⟨hd, 0, by simp, by norm_num, by norm_num⟩⟩

theorem increment_performRandomMove (s : State A) :
    (performRandomMove s).rotationIncrement = s.rotationIncrement := by
  unfold performRandomMove startSliceRotation rand
  dsimp only
  split_ifs <;> rfl

theorem wholeAngles_performRandomMove (s : State A) (hr : s.isRotating = false)
    (hi : s.rotationIncrement = 3 ∨ s.rotationIncrement = 10) :
    WholeAngles (performRandomMove s) := by
  have hp := performRandomMove_params s hr
  refine ⟨by rw [increment_performRandomMove]; exact hi, fun _ => ⟨hp.2.2.2.1, 0, ?_, by norm_num, by norm_num⟩⟩
  rw [hp.2.2.2.2]
  simp

theorem wholeAngles_startScrambling (moves : Int) (s : State A) (h : WholeAngles s) :
    WholeAngles (startScrambling moves s) := by
  unfold startScrambling
  split_ifs with hg
  · simp only [Bool.and_eq_true, Bool.not_eq_true'] at hg
    exact wholeAngles_performRandomMove _ hg.2 h.1
  · exact h

theorem whole_step (m d : Int) (inc : ℚ) (hi : inc = 3 ∨ inc = 10)
    (h : |(m : ℚ) + inc * (d : ℚ)| < 90 + inc) :
    ∃ n : Int, (m : ℚ) + inc * (d : ℚ) = (n : ℚ) ∧ -100 < n ∧ n < 100 := by
  rcases hi with rfl | rfl
  · refine ⟨m + 3 * d, by push_cast; ring, ?_⟩
    have h1 : |((m + 3 * d : Int) : ℚ)| < ((93 : Int) : ℚ) := by
      have e : ((93 : Int) : ℚ) = 90 + 3 := by norm_num
      rw [e]
      push_cast
      exact h
    rw [← Int.cast_abs, Int.cast_lt] at h1
    have h2 := abs_lt.mp h1
    omega
  · refine ⟨m + 10 * d, by push_cast; ring, ?_⟩
    have h1 : |((m + 10 * d : Int) : ℚ)| < ((100 : Int) : ℚ) := by
      have e : ((100 : Int) : ℚ) = 90 + 10 := by norm_num
      rw [e]
      push_cast
      exact h
    rw [← Int.cast_abs, Int.cast_lt] at h1
    have h2 := abs_lt.mp h1
    omega

theorem wholeAngles_update (s : State A) (h : WholeAngles s) : WholeAngles (update s) := by
  by_cases hc : s.completes = true
  · by_cases h1 : s.isScrambling = true
    · by_cases hm : s.currentScramblingMove + 1 < s.maxScramblingMoves
      · rw [update_finish_next s hc h1 hm]
        exact wholeAngles_performRandomMove _ rfl h.1
      · rw [update_finish_last s hc h1 hm]
        exact wholeAngles_of_idle _ rfl (Or.inl rfl)
    · rw [update_finish s hc (by simpa using h1)]
      exact wholeAngles_of_idle _ rfl h.1
  · by_cases hr : s.isRotating = true
    · have hc' : s.completes = false := by simpa using hc
      rw [update_step s hr hc']
      obtain ⟨hd, m, hm, -, -⟩ := h.2 hr
      simp only [State.completes, hr, Bool.true_and, decide_eq_false_iff_not, not_le] at hc'
      rw [hm] at hc'
      obtain ⟨n, hn, hn1, hn2⟩ := whole_step m s.rotationDirection s.rotationIncrement h.1 hc'
      refine ⟨h.1, fun _ => ⟨hd, n, ?_, hn1, hn2⟩⟩
      show s.rotationAngle + s.rotationIncrement * (s.rotationDirection : ℚ) = (n : ℚ)
      rw [hm, hn]
    · have hr' : s.isRotating = false := by simpa using hr
      simp only [update, hr', Bool.false_eq_true, if_false]
      split_ifs
      · exact wholeAngles_performRandomMove s hr' h.1
      · exact h

theorem wholeAngles_key_callback (k : Key) (a : Action) (s t : State A)
    (h : WholeAngles s) (hk : key_callback k a s = some t) : WholeAngles t := by
  unfold key_callback at hk
  split_ifs at hk with ha
  · cases hk
    exact h
  · cases k <;> simp only [Option.some.injEq, reduceCtorEq] at hk <;> subst hk
    all_goals first
      | exact h
      | exact wholeAngles_startSliceRotation _ _ _ s (Or.inl rfl) h
      | exact wholeAngles_startSliceRotation _ _ _ s (Or.inr rfl) h
      | exact wholeAngles_startScrambling 20 _ ⟨Or.inr rfl, h.2⟩

theorem wholeAngles_of_played {s : State A} (h : Played s) : WholeAngles s := by
  induction h with
  | init randSeq => exact wholeAngles_of_idle _ rfl (Or.inl rfl)
  | key k a _ hk ih => exact wholeAngles_key_callback k a _ _ ih hk
  | tick _ ih => exact wholeAngles_update _ ih

/-- On every state that the program reaches by key events and ticks, the tick
in `float` arithmetic, `updateF`, is the tick in exact arithmetic, `update`:
the increment is 3 or 10 and the angle a whole number below 100 in absolute
value, so every `float` operation of the tick is exact. -/
theorem updateF_eq_update_of_played {s : State A} (h : Played s) :
    updateF s = update s := by
  obtain ⟨hi, hrot⟩ := wholeAngles_of_played h
  by_cases hr : s.isRotating = true
  · obtain ⟨hd, m, hm, hm1, hm2⟩ := hrot hr
    obtain ⟨i, hi', hi3⟩ : ∃ i : Int, s.rotationIncrement = (i : ℚ) ∧ (i = 3 ∨ i = 10) := by
      rcases hi with hi | hi
      · exact ⟨3, by rw [hi]; norm_num, Or.inl rfl⟩
      · exact ⟨10, by rw [hi]; norm_num, Or.inr rfl⟩
    have hdb : -1 ≤ s.rotationDirection ∧ s.rotationDirection ≤ 1 := by
      rcases hd with hd | hd <;> rw [hd] <;> constructor <;> norm_num
    have hib : 3 ≤ i ∧ i ≤ 10 := by rcases hi3 with rfl | rfl <;> constructor <;> norm_num
    have hprod : -10 ≤ i * s.rotationDirection ∧ i * s.rotationDirection ≤ 10 := by
      rcases hd with hd | hd <;> rw [hd] <;> constructor <;> omega
    apply updateF_eq_update
    · exact fl32_small_int _ (by omega) (by omega)
    · rw [hi']
      have := fl32_small_int (i * s.rotationDirection) (by omega) (by omega)
      push_cast at this
      exact this
    · rw [hi', hm]
      have := fl32_small_int (m + i * s.rotationDirection) (by omega) (by omega)
      push_cast at this
      exact this
    · rw [hi']
      have := fl32_small_int (90 + i) (by omega) (by omega)
      push_cast at this
      exact this
    · rw [hi']
      have := fl32_small_int (-90 - i) (by omega) (by omega)
      push_cast at this
      exact this
    · intro _
      rw [hi', hm]
      split_ifs
      · have := fl32_small_int (90 + i - (m + i * s.rotationDirection)) (by omega) (by omega)
        push_cast at this
        exact this
      · have := fl32_small_int (-90 - i - (m + i * s.rotationDirection)) (by omega) (by omega)
        push_cast at this
        exact this
  · have hr' : s.isRotating = false := by simpa using hr
    simp only [updateF, update, hr', Bool.false_eq_true, if_false]

end Rubik

namespace Shading

/-! ## Theorems about the shading demo -/

/-- C17 (the code at the failing input). An UP-arrow key event on the initial
angles leaves `Theta[Xaxis]` at 0: the `UP` case adds 3 and, having no `break`,
runs on into the `DOWN` case, which subtracts 3. The same happens for every
`Theta[Xaxis]` from -360 to 357: the UP key changes nothing. DOWN changes
`Theta[Xaxis]` by -3, and LEFT and RIGHT, whose cases end with `break`, change
`Theta[Yaxis]` by +3 and -3. -/
theorem up_key_does_not_rotate :
    key_callback ArrowKey.UP Theta0 = Theta0 ∧
    (key_callback ArrowKey.UP Theta0).Xaxis ≠ Theta0.Xaxis + 3 ∧
    (∀ Theta : Angles, -360 ≤ Theta.Xaxis → Theta.Xaxis ≤ 357 →
      key_callback ArrowKey.UP Theta = Theta) ∧
    (key_callback ArrowKey.DOWN Theta0).Xaxis = Theta0.Xaxis - 3 ∧
    (key_callback ArrowKey.LEFT Theta0).Yaxis = Theta0.Yaxis + 3 ∧
    (key_callback ArrowKey.RIGHT Theta0).Yaxis = Theta0.Yaxis - 3 := by
  have hup : ∀ Theta : Angles, -360 ≤ Theta.Xaxis → Theta.Xaxis ≤ 357 →
      key_callback ArrowKey.UP Theta = Theta := by
    intro Theta h1 h2
    obtain ⟨x, y, z⟩ := Theta
    simp only at h1 h2
    have h3 : ¬ (x + 3 > 360) := by linarith
    have h4 : ¬ (x + 3 - 3 < -360) := by linarith
    simp only [key_callback, caseUP, caseDOWN, h3, if_false, h4]
    simp
  have h0 : key_callback ArrowKey.UP Theta0 = Theta0 :=
    hup Theta0 (by simp [Theta0]) (by simp [Theta0])
  refine ⟨h0, ?_, hup, ?_, ?_, ?_⟩
  · rw [h0]
    simp [Theta0]
  · simp [key_callback, caseDOWN, Theta0]
    norm_num
  · simp [key_callback, caseLEFT, Theta0]
    norm_num
  · simp [key_callback, caseRIGHT, Theta0]
    norm_num

/-! ## Subdivision of the tetrahedron -/

theorem divide_triangle_of_nonpos (L : Lib) (a b c : point4) (count : Int) (m : Mesh)
    (h : ¬ count > 0) : divide_triangle L a b c count m = triangle L a b c m := by
  rw [divide_triangle, dif_neg h]

theorem divide_triangle_of_pos (L : Lib) (a b c : point4) (count : Int) (m : Mesh)
    (h : count > 0) :
    divide_triangle L a b c count m =
      (divide_triangle L a (unit L (L.add a b)) (unit L (L.add a c)) (count - 1) m).bind
        fun m =>
        (divide_triangle L c (unit L (L.add a c)) (unit L (L.add b c)) (count - 1) m).bind
          fun m =>
          (divide_triangle L b (unit L (L.add b c)) (unit L (L.add a b)) (count - 1) m).bind
            fun m =>
            divide_triangle L (unit L (L.add a b)) (unit L (L.add b c))
              (unit L (L.add a c)) (count - 1) m := by
  rw [divide_triangle, dif_pos h]

theorem runTriangles_append (L : Lib) (l1 l2 : List (point4 × point4 × point4)) :
    ∀ m : Mesh, runTriangles L (l1 ++ l2) m = (runTriangles L l1 m).bind (runTriangles L l2) := by
  induction l1 with
  | nil => intro m; rfl
  | cons t l1 ih =>
    intro m
    simp only [List.cons_append, runTriangles]
    cases triangle L t.1 t.2.1 t.2.2 m with
    | none => rfl
    | some m1 => exact ih m1

theorem divide_triangle_eq_run (L : Lib) (n : Nat) :
    ∀ (a b c : point4) (m : Mesh),
      divide_triangle L a b c (n : Int) m = runTriangles L (triangleCalls L a b c n) m := by
  induction n with
  | zero =>
    intro a b c m
    rw [divide_triangle_of_nonpos L a b c _ m (by simp)]
    simp [triangleCalls, runTriangles]
  | succ n ih =>
    intro a b c m
    rw [divide_triangle_of_pos L a b c _ m (by push_cast; omega)]
    have hn : ((n + 1 : Nat) : Int) - 1 = (n : Int) := by push_cast; ring
    rw [hn]
    simp only [ih, triangleCalls, runTriangles_append]
    cases runTriangles L (triangleCalls L a (unit L (L.add a b)) (unit L (L.add a c)) n) m with
    | none => rfl
    | some m1 =>
      simp only [Option.some_bind]
      cases runTriangles L
          (triangleCalls L c (unit L (L.add a c)) (unit L (L.add b c)) n) m1 with
      | none => rfl
      | some m2 => rfl

theorem length_triangleCalls (L : Lib) (n : Nat) :
    ∀ a b c : point4, (triangleCalls L a b c n).length = 4 ^ n := by
  induction n with
  | zero => intro a b c; rfl
  | succ n ih =>
    intro a b c
    simp only [triangleCalls, List.length_append, ih]
    ring

theorem length_tetrahedronCalls (L : Lib) (n : Nat) :
    (tetrahedronCalls L n).length = 4 ^ (n + 1) := by
  simp only [tetrahedronCalls, List.length_append, length_triangleCalls]
  ring

theorem tetrahedron_eq_run (L : Lib) (n : Nat) (m : Mesh) :
    tetrahedron L (n : Int) m = runTriangles L (tetrahedronCalls L n) m := by
  simp only [tetrahedron, divide_triangle_eq_run, tetrahedronCalls, runTriangles_append]
  cases runTriangles L (triangleCalls L ⟨0, 0, 1, 1⟩
      ⟨0, 942809 / 1000000, -333333 / 1000000, 1⟩
      ⟨-816497 / 1000000, -471405 / 1000000, -333333 / 1000000, 1⟩ n) m with
  | none => rfl
  | some m1 =>
    simp only [Option.some_bind]
    cases runTriangles L (triangleCalls L
        ⟨816497 / 1000000, -471405 / 1000000, -333333 / 1000000, 1⟩
        ⟨-816497 / 1000000, -471405 / 1000000, -333333 / 1000000, 1⟩
        ⟨0, 942809 / 1000000, -333333 / 1000000, 1⟩ n) m1 with
    | none => rfl
    | some m2 => rfl

theorem emitAll_append (L : Lib) (l1 l2 : List point4) :
    ∀ m : Mesh, emitAll L (l1 ++ l2) m = (emitAll L l1 m).bind (emitAll L l2) := by
  induction l1 with
  | nil => intro m; rfl
  | cons v l1 ih =>
    intro m
    simp only [List.cons_append, emitAll]
    cases emit L v m with
    | none => rfl
    | some m1 => exact ih m1

theorem triangle_eq_emitAll (L : Lib) (a b c : point4) (m : Mesh) :
    triangle L a b c m = emitAll L [a, b, c] m := by
  simp only [triangle, emitAll]
  cases emit L a m with
  | none => rfl
  | some m1 =>
    simp only [Option.some_bind]
    cases emit L b m1 with
    | none => rfl
    | some m2 =>
      simp only [Option.some_bind]
      cases emit L c m2 <;> rfl

theorem runTriangles_eq_emitAll (L : Lib) (ts : List (point4 × point4 × point4)) :
    ∀ m : Mesh, runTriangles L ts m = emitAll L (vertexList ts) m := by
  induction ts with
  | nil => intro m; rfl
  | cons t ts ih =>
    intro m
    have hv : vertexList (t :: ts) = [t.1, t.2.1, t.2.2] ++ vertexList ts := by
      simp [vertexList]
    rw [hv, emitAll_append, ← triangle_eq_emitAll]
    simp only [runTriangles]
    cases triangle L t.1 t.2.1 t.2.2 m with
    | none => rfl
    | some m1 => exact ih m1

theorem length_vertexList (ts : List (point4 × point4 × point4)) :
    (vertexList ts).length = 3 * ts.length := by
  induction ts with
  | nil => rfl
  | cons t ts ih =>
    have hv : vertexList (t :: ts) = [t.1, t.2.1, t.2.2] ++ vertexList ts := by
      simp [vertexList]
    rw [hv, List.length_append, ih, List.length_cons]
    simp only [List.length_cons, List.length_nil]
    omega

theorem store_append {α : Type} (pre : List α) (x : α) (post : List α) (v : α) :
    store (pre ++ x :: post) pre.length v = some (pre ++ v :: post) := by
  unfold store
  rw [if_pos (by simp)]
  congr 1
  induction pre with
  | nil => rfl
  | cons p pre ih => simp only [List.cons_append, List.length_cons, List.set_cons_succ, ih]

theorem store_out_of_bounds {α : Type} (arr : List α) (i : Nat) (v : α)
    (h : arr.length ≤ i) : store arr i v = none := by
  unfold store
  rw [if_neg (by omega)]

/-- The effect of a run of `emit` on arrays with room for the vertices: the
entries from `Index` on are overwritten in order. -/
theorem emitAll_spec (L : Lib) (vs : List point4) :
    ∀ (pre rest : List point4) (npre nrest : List vec3) (tpre trest : List vec2),
      npre.length = pre.length → tpre.length = pre.length →
      vs.length ≤ rest.length → vs.length ≤ nrest.length → vs.length ≤ trest.length →
      emitAll L vs ⟨pre.length, pre ++ rest, npre ++ nrest, tpre ++ trest⟩ =
        some ⟨pre.length + vs.length,
          pre ++ vs ++ rest.drop vs.length,
          npre ++ vs.map (fun a => L.normalize ⟨a.x, a.y, a.z⟩) ++ nrest.drop vs.length,
          tpre ++ vs.map (calculateTexCoords L) ++ trest.drop vs.length⟩ := by
  induction vs with
  | nil =>
    intro pre rest npre nrest tpre trest _ _ _ _ _
    simp [emitAll]
  | cons v vs ih =>
    intro pre rest npre nrest tpre trest hn ht hr hnr htr
    obtain ⟨x, rest', rfl⟩ : ∃ x rest', rest = x :: rest' := by
      cases rest with
      | nil => simp at hr
      | cons x r => exact ⟨x, r, rfl⟩
    obtain ⟨nx, nrest', rfl⟩ : ∃ x rest', nrest = x :: rest' := by
      cases nrest with
      | nil => simp at hnr
      | cons x r => exact ⟨x, r, rfl⟩
    obtain ⟨tx, trest', rfl⟩ : ∃ x rest', trest = x :: rest' := by
      cases trest with
      | nil => simp at htr
      | cons x r => exact ⟨x, r, rfl⟩
    have h1 : emit L v ⟨pre.length, pre ++ x :: rest', npre ++ nx :: nrest',
        tpre ++ tx :: trest'⟩ =
        some ⟨(pre ++ [v]).length, (pre ++ [v]) ++ rest',
          (npre ++ [L.normalize ⟨v.x, v.y, v.z⟩]) ++ nrest',
          (tpre ++ [calculateTexCoords L v]) ++ trest'⟩ := by
      unfold emit
      simp only
      rw [← hn, store_append, hn, store_append, ← ht, store_append]
      simp [ht]
    simp only [emitAll, h1, Option.some_bind]
    rw [ih (pre ++ [v]) rest' (npre ++ [L.normalize ⟨v.x, v.y, v.z⟩]) nrest'
      (tpre ++ [calculateTexCoords L v]) trest' (by simp [hn]) (by simp [ht])
      (by simpa using hr) (by simpa using hnr) (by simpa using htr)]
    simp [Nat.add_assoc, Nat.add_comm 1]

theorem tetrahedron_spec (L : Lib) (n : Nat) (points : List point4) (normals : List vec3)
    (texCoords : List vec2) (hn : normals.length = points.length)
    (ht : texCoords.length = points.length) (hcap : 3 * 4 ^ (n + 1) ≤ points.length) :
    tetrahedron L (n : Int) ⟨0, points, normals, texCoords⟩ =
      some ⟨3 * 4 ^ (n + 1),
        vertexList (tetrahedronCalls L n) ++ points.drop (3 * 4 ^ (n + 1)),
        (vertexList (tetrahedronCalls L n)).map (fun a => L.normalize ⟨a.x, a.y, a.z⟩) ++
          normals.drop (3 * 4 ^ (n + 1)),
        (vertexList (tetrahedronCalls L n)).map (calculateTexCoords L) ++
          texCoords.drop (3 * 4 ^ (n + 1))⟩ := by
  have hlen : (vertexList (tetrahedronCalls L n)).length = 3 * 4 ^ (n + 1) := by
    rw [length_vertexList, length_tetrahedronCalls]
  have h := emitAll_spec L (vertexList (tetrahedronCalls L n)) [] points [] normals []
    texCoords rfl rfl (by rw [hlen]; exact hcap) (by rw [hlen, hn]; exact hcap)
    (by rw [hlen, ht]; exact hcap)
  rw [tetrahedron_eq_run, runTriangles_eq_emitAll]
  simp only [List.length_nil, List.nil_append, Nat.zero_add, hlen] at h
  exact h

/-- C20. For every `count ≥ 0` (`count = n`), started at `Index = 0` on arrays
with room for `3 * 4^(n+1)` entries, `tetrahedron(count)` is the same as
`4^(n+1)` successive calls of `triangle` (on the triples `tetrahedronCalls`),
succeeds with every write in bounds, and leaves `Index = 3 * 4^(n+1)` with the
first `3 * 4^(n+1)` entries of `points`, `normals` and `texCoords` written in
order, the later entries untouched. For `count = NumTimesToSubdivide = 5` on
the arrays of the program this is `NumTriangles = 4096` triangles and
`NumVertices = 12288` entries: `Index` ends at `NumVertices` and every slot of
the three arrays is written. `divide_triangle` is a total function; for
`count ≤ 0` it is a single call of `triangle`. -/
theorem tetrahedron_fills_arrays (L : Lib) :
    (∀ (n : Nat) (points : List point4) (normals : List vec3) (texCoords : List vec2),
      normals.length = points.length → texCoords.length = points.length →
      3 * 4 ^ (n + 1) ≤ points.length →
      (tetrahedronCalls L n).length = 4 ^ (n + 1) ∧
      tetrahedron L (n : Int) ⟨0, points, normals, texCoords⟩ =
        runTriangles L (tetrahedronCalls L n) ⟨0, points, normals, texCoords⟩ ∧
      tetrahedron L (n : Int) ⟨0, points, normals, texCoords⟩ =
        some ⟨3 * 4 ^ (n + 1),
          vertexList (tetrahedronCalls L n) ++ points.drop (3 * 4 ^ (n + 1)),
          (vertexList (tetrahedronCalls L n)).map (fun a => L.normalize ⟨a.x, a.y, a.z⟩) ++
            normals.drop (3 * 4 ^ (n + 1)),
          (vertexList (tetrahedronCalls L n)).map (calculateTexCoords L) ++
            texCoords.drop (3 * 4 ^ (n + 1))⟩ ∧
      (vertexList (tetrahedronCalls L n)).length = 3 * 4 ^ (n + 1)) ∧
    (NumTriangles = 4 ^ (5 + 1) ∧ NumTriangles = 4096 ∧ NumVertices = 12288 ∧
      (tetrahedronCalls L 5).length = NumTriangles ∧
      (vertexList (tetrahedronCalls L 5)).length = NumVertices ∧
      tetrahedron L NumTimesToSubdivide Mesh.initial =
        some ⟨NumVertices,
          vertexList (tetrahedronCalls L 5),
          (vertexList (tetrahedronCalls L 5)).map (fun a => L.normalize ⟨a.x, a.y, a.z⟩),
          (vertexList (tetrahedronCalls L 5)).map (calculateTexCoords L)⟩) ∧
    (∀ (a b c : point4) (count : Int) (m : Mesh), count ≤ 0 →
      divide_triangle L a b c count m = triangle L a b c m) := by
  have h5 : (4 : Nat) ^ (5 + 1) = 4096 := by norm_num
  refine ⟨fun n points normals texCoords hn ht hcap => ?_, ?_, fun a b c count m h => ?_⟩
  · refine ⟨length_tetrahedronCalls L n, tetrahedron_eq_run L n _,
      tetrahedron_spec L n points normals texCoords hn ht hcap, ?_⟩
    rw [length_vertexList, length_tetrahedronCalls]
  · have hc : (tetrahedronCalls L 5).length = NumTriangles := by
      rw [length_tetrahedronCalls, h5]
      rfl
    have hv : (vertexList (tetrahedronCalls L 5)).length = NumVertices := by
      rw [length_vertexList, hc]
      rfl
    refine ⟨by rw [h5]; rfl, rfl, rfl, hc, hv, ?_⟩
    have h := tetrahedron_spec L 5 (List.replicate NumVertices ⟨0, 0, 0, 0⟩)
      (List.replicate NumVertices ⟨0, 0, 0⟩) (List.replicate NumVertices ⟨0, 0⟩)
      (by simp) (by simp) (by rw [List.length_replicate, h5]; decide)
    have hd : ∀ {α : Type} (x : α),
        (List.replicate NumVertices x).drop (3 * 4 ^ (5 + 1)) = [] := by
      intro α x
      apply List.drop_eq_nil_of_le
      rw [List.length_replicate, h5]
      decide
    rw [hd, hd, hd, List.append_nil, List.append_nil, List.append_nil] at h
    have e : (3 * 4 ^ (5 + 1) : Nat) = NumVertices := by rw [h5]; rfl
    rw [e] at h
    exact h
  · exact divide_triangle_of_nonpos L a b c count m (by omega)

/-- Witness of C20 in the instance `Lib.plain`, for `count = 0` on arrays of 12
entries: four calls of `triangle` fill them and `Index` ends at 12. -/
theorem tetrahedron_fills_arrays_witness :
    (tetrahedronCalls Lib.plain 0).length = 4 ∧
    ∃ m : Mesh,
      tetrahedron Lib.plain 0 ⟨0, List.replicate 12 ⟨0, 0, 0, 0⟩,
        List.replicate 12 ⟨0, 0, 0⟩, List.replicate 12 ⟨0, 0⟩⟩ = some m ∧
      m.Index = 12 ∧ m.points.length = 12 := by
  have h := (tetrahedron_fills_arrays Lib.plain).1 0 (List.replicate 12 ⟨0, 0, 0, 0⟩)
    (List.replicate 12 ⟨0, 0, 0⟩) (List.replicate 12 ⟨0, 0⟩) (by simp) (by simp)
    (by simp)
  refine ⟨h.1, _, h.2.2.1, rfl, ?_⟩
  simp only [List.length_append, h.2.2.2, List.length_drop, List.length_replicate]
  norm_num

/-- Claim C21. On the PPM file `P3 / # c / 2 1 / 255 / 255 0 0 0 255 0` (one
line each) `readPPMImage` returns `false`: `ignoreComments` meets the newline
that ends the magic number line, puts it back and stops; `file >> imageWidth`
then skips that newline, finds `#`, stores `0` and sets `failbit`; nothing more
is read, no sample is stored, and the final `file.fail()` test fails the call.
Without the comment line the same file is read, and so it is when the comment is
the first line of the file, the one place where `ignoreComments` skips it. -/
theorem comment_after_magic_rejected :
    readPPMImage (some ppmWithComment) ImageGlobals.initial
      = some (false, { imageWidth := 0, imageHeight := 0, imageData := none }) ∧
    (ignoreComments ((readString (ignoreComments
        { before := [], after := ppmWithComment, eofbit := false, failbit := false })).2)).after
      = ppmWithComment.drop 2 ∧
    readPPMImage (some ppmPlain) ImageGlobals.initial
      = some (true, { imageWidth := 2, imageHeight := 1,
                      imageData := some [255, 0, 0, 0, 255, 0] }) ∧
    readPPMImage (some ppmCommentFirst) ImageGlobals.initial
      = some (true, { imageWidth := 2, imageHeight := 1,
                      imageData := some [255, 0, 0, 0, 255, 0] }) := by
  refine ⟨?_, ?_, ?_, ?_⟩ <;> rfl

end Shading

namespace Bounce

/-! ## Theorems about the bouncing shape demo -/

/-- Recording a trajectory point changes neither position nor velocity. -/
theorem recordTrajectory_position (s : State) :
    (recordTrajectory s).position = s.position ∧
    (recordTrajectory s).velocity = s.velocity := by
  unfold recordTrajectory
  dsimp only
  split_ifs <;> exact ⟨rfl, rfl⟩

/-- The trajectory after the recording block, case by case. -/
theorem recordTrajectory_points (s : State) :
    (recordTrajectory s).trajectoryPoints =
      if Fp.fl32 (Fp.fl64 (s.trajectoryTimer + Fp.fl64 (1 / 120))) ≥ trajectoryInterval then
        if (s.trajectoryPoints ++ [s.position]).length > maxTrajectoryPoints then
          (s.trajectoryPoints ++ [s.position]).eraseIdx 0
        else s.trajectoryPoints ++ [s.position]
      else s.trajectoryPoints := by
  unfold recordTrajectory
  dsimp only
  split_ifs <;> rfl

/-- The recording block keeps the trajectory within the limit. -/
theorem recordTrajectory_length (s : State)
    (h : s.trajectoryPoints.length ≤ maxTrajectoryPoints) :
    (recordTrajectory s).trajectoryPoints.length ≤ maxTrajectoryPoints := by
  rw [recordTrajectory_points]
  split_ifs with h1 h2
  · rw [List.length_eraseIdx]
    simp only [List.length_append, List.length_singleton]
    split_ifs <;> omega
  · omega
  · exact h

/-- The wall block either clears the trajectory (right wall) or leaves it. -/
theorem wallCollisions_points (s : State) :
    (wallCollisions s).trajectoryPoints =
      if Fp.fl32 (s.position.x + radius) > 1 then [] else s.trajectoryPoints := by
  unfold wallCollisions
  dsimp only
  split_ifs <;> rfl

/-- The ground block leaves the trajectory alone. -/
theorem groundCollision_points (s : State) :
    (groundCollision s).trajectoryPoints = s.trajectoryPoints := by
  unfold groundCollision
  dsimp only
  split_ifs <;> rfl

/-- The top block leaves the trajectory alone. -/
theorem topCollision_points (s : State) :
    (topCollision s).trajectoryPoints = s.trajectoryPoints := by
  unfold topCollision
  dsimp only
  split_ifs <;> rfl

/-- The trajectory after `update`: empty if the right-wall reset fires in this
call, else what the recording block left. -/
theorem update_points (s : State) :
    (update s).trajectoryPoints =
      if Fp.fl32 ((stepPhysics s).position.x + radius) > 1 then []
      else (recordTrajectory (stepPhysics s)).trajectoryPoints := by
  unfold update
  rw [topCollision_points, groundCollision_points, wallCollisions_points,
    (recordTrajectory_position _).1]

/-- One call of `update` keeps the trajectory within the limit. -/
theorem update_length (s : State)
    (h : s.trajectoryPoints.length ≤ maxTrajectoryPoints) :
    (update s).trajectoryPoints.length ≤ maxTrajectoryPoints := by
  rw [update_points]
  split_ifs
  · simp
  · exact recordTrajectory_length (stepPhysics s) h

/-- Every reachable state holds at most `maxTrajectoryPoints` points. -/
theorem length_of_reachable (s : State) (h : Reachable s) :
    s.trajectoryPoints.length ≤ maxTrajectoryPoints := by
  induction h with
  | init => simp [State.initial]
  | tick _ ih => exact update_length _ ih
  | reset _ _ => simp [resetPosition, clear_trajectory]

/-- Claim C22. The trajectory never holds more than `maxTrajectoryPoints`
(1000) points: every reachable state is within the limit, and `update` keeps
any state within the limit there.  When the recording block runs while 1000
points `oldest :: rest` are stored, the stored points become `rest` followed by
the new position: the oldest point is dropped, the order of the others is kept.
That list is also the trajectory at the end of `update`, unless the right-wall
reset of the same call empties it. -/
theorem trajectory_limit (s : State) :
    (Reachable s → s.trajectoryPoints.length ≤ maxTrajectoryPoints) ∧
    (s.trajectoryPoints.length ≤ maxTrajectoryPoints →
      (update s).trajectoryPoints.length ≤ maxTrajectoryPoints) ∧
    (∀ (oldest : vec2) (rest : List vec2),
      s.trajectoryPoints = oldest :: rest →
      s.trajectoryPoints.length = maxTrajectoryPoints →
      Fp.fl32 (Fp.fl64 (s.trajectoryTimer + Fp.fl64 (1 / 120))) ≥ trajectoryInterval →
      (recordTrajectory (stepPhysics s)).trajectoryPoints
          = rest ++ [(stepPhysics s).position] ∧
        (update s).trajectoryPoints
          = if Fp.fl32 ((stepPhysics s).position.x + radius) > 1 then []
            else rest ++ [(stepPhysics s).position]) := by
  refine ⟨length_of_reachable s, update_length s, ?_⟩
  intro oldest rest hl hlen ht
  have hrec : (recordTrajectory (stepPhysics s)).trajectoryPoints
      = rest ++ [(stepPhysics s).position] := by
    rw [recordTrajectory_points]
    have h1 : (stepPhysics s).trajectoryTimer = s.trajectoryTimer := rfl
    have h2 : (stepPhysics s).trajectoryPoints = s.trajectoryPoints := rfl
    rw [h1, h2, if_pos ht, if_pos (by simp [hlen]), hl]
    rfl
  refine ⟨hrec, ?_⟩
  rw [update_points, hrec]

/-- Claim C22 at a concrete state with 1000 points stored, the oldest `(7, 7)`
and the others `(1, 1)`: after `update` there are again 1000 points, `(7, 7)` is
gone and the new position `(0, -gravity)` is last. -/
theorem trajectory_limit_witness :
    (sampleFull ⟨7, 7⟩ ⟨1, 1⟩).trajectoryPoints.length = maxTrajectoryPoints ∧
    (update (sampleFull ⟨7, 7⟩ ⟨1, 1⟩)).trajectoryPoints
      = List.replicate 999 ⟨1, 1⟩ ++ [⟨0, -gravity⟩] := by
  have hlen : (sampleFull ⟨7, 7⟩ ⟨1, 1⟩).trajectoryPoints.length
      = maxTrajectoryPoints := by
    show (_ :: List.replicate 999 _).length = 1000
    rw [List.length_cons, List.length_replicate]
  have ht : Fp.fl32 (Fp.fl64 ((sampleFull ⟨7, 7⟩ ⟨1, 1⟩).trajectoryTimer + Fp.fl64 (1 / 120)))
      ≥ trajectoryInterval := by
    show Fp.fl32 (Fp.fl64 (trajectoryInterval + Fp.fl64 (1 / 120))) ≥ trajectoryInterval
    decide!
  have h := ((trajectory_limit (sampleFull ⟨7, 7⟩ ⟨1, 1⟩)).2.2 ⟨7, 7⟩
    (List.replicate 999 ⟨1, 1⟩) rfl hlen ht).2
  have hpos : (stepPhysics (sampleFull ⟨7, 7⟩ ⟨1, 1⟩)).position
      = ⟨0, -gravity⟩ := by
    show (⟨Fp.fl32 (0 + 0), Fp.fl32 (0 + Fp.fl32 (0 - gravity))⟩ : vec2) = ⟨0, -gravity⟩
    decide!
  have hx : ¬ Fp.fl32 ((stepPhysics (sampleFull ⟨7, 7⟩ ⟨1, 1⟩)).position.x + radius) > 1 := by
    rw [hpos]
    decide!
  rw [if_neg hx, hpos] at h
  exact ⟨hlen, h⟩

/-- After the right-wall reset the ground and top blocks do nothing. -/
theorem collisions_after_reset (s : State) :
    groundCollision (resetPosition s) = resetPosition s ∧
    topCollision (resetPosition s) = resetPosition s := by
  constructor
  · unfold groundCollision
    rw [if_neg]
    show ¬ initialPosition.y < ground
    decide!
  · unfold topCollision
    rw [if_neg]
    show ¬ Fp.fl32 (initialPosition.y + radius) > 1
    decide!

/-- The `float` sum differs from the real sum at the wall: in the state
`sampleNearWall` the position step leaves `position.x` at `0.97f`; the real
number `position.x + radius` exceeds 1, the `float` sum that `update` computes
is `1.0f`, and `update` does not reset: `position.x` and the trajectory are
kept. -/
theorem float_sum_at_wall :
    (stepPhysics sampleNearWall).position.x + radius > 1 ∧
    Fp.fl32 ((stepPhysics sampleNearWall).position.x + radius) = 1 ∧
    (update sampleNearWall).position.x = Fp.fl32 (97 / 100) ∧
    (update sampleNearWall).trajectoryPoints = [⟨0, 0⟩] := by
  refine ⟨?_, ?_, ?_, ?_⟩ <;> decide!

/-- Claim C23. If, after gravity and the position step, the test
`position.x + radius > 1.0` of `update` holds (the sum being the `float` sum that
the code computes), then `update` ends with `position = initialPosition`, the
`float` values of `(-0.9, 0.9)`, `velocity = initialVelocity`, the `float`
values of `(0.005, 0)`, and an empty trajectory; the ground and top blocks that
run after the reset leave the reset state as it is. -/
theorem right_wall_reset (s : State)
    (h : Fp.fl32 ((stepPhysics s).position.x + radius) > 1) :
    (update s).position = initialPosition ∧
    (update s).velocity = initialVelocity ∧
    (update s).trajectoryPoints = [] ∧
    initialPosition = ⟨Fp.fl32 (Fp.fl64 (-9 / 10)), Fp.fl32 (Fp.fl64 (9 / 10))⟩ ∧
    initialVelocity = ⟨Fp.fl32 (Fp.fl64 (5 / 1000)), 0⟩ ∧
    update s = resetPosition (recordTrajectory (stepPhysics s)) ∧
    groundCollision (resetPosition (recordTrajectory (stepPhysics s)))
      = resetPosition (recordTrajectory (stepPhysics s)) ∧
    topCollision (resetPosition (recordTrajectory (stepPhysics s)))
      = resetPosition (recordTrajectory (stepPhysics s)) := by
  have hw : wallCollisions (recordTrajectory (stepPhysics s))
      = resetPosition (recordTrajectory (stepPhysics s)) := by
    unfold wallCollisions
    rw [if_pos]
    rw [(recordTrajectory_position _).1]
    exact h
  have hu : update s = resetPosition (recordTrajectory (stepPhysics s)) := by
    unfold update
    rw [hw, (collisions_after_reset _).1, (collisions_after_reset _).2]
  refine ⟨?_, ?_, ?_, rfl, rfl, hu, (collisions_after_reset _).1,
    (collisions_after_reset _).2⟩
  · rw [hu]; rfl
  · rw [hu]; rfl
  · rw [hu]; rfl

/-- Claim C23 at a concrete state: the shape at `x = 0.97f` moving right by
`0.005f` with two trajectory points stored; the `float` sum exceeds 1 and after
`update` the shape is back at the start. -/
theorem right_wall_reset_witness :
    Fp.fl32 ((stepPhysics sampleAtWall).position.x + radius) > 1 ∧
    (update sampleAtWall).position = initialPosition ∧
    (update sampleAtWall).velocity = initialVelocity ∧
    (update sampleAtWall).trajectoryPoints = [] := by
  have hx : Fp.fl32 ((stepPhysics sampleAtWall).position.x + radius) > 1 := by
    decide!
  have h := right_wall_reset sampleAtWall hx
  exact ⟨hx, h.1, h.2.1, h.2.2.1⟩

end Bounce
